import Mathlib

/-!
# scummgen: mask blocks (`ZPxx`) and room script binding (`Room`)

A shallow embedding of `src/blocks/resource/ZPxx.cpp` and of
`Room::parse` / `Room::compile` from `src/types/Room.cpp`.

Machine integers are natural numbers reduced modulo `2 ^ w` at every
assignment to a `uintw_t` variable.  Vectors are lists, `push_back` appends at
the end, a null pointer is `none`.
-/

namespace Scummgen

/-! ## Mask planes and the ZPxx block -/

/-- The mask handed to the encoder.  `ZPlane` is declared in `types/Image.hpp`,
which is not part of the sources at hand, so its three accessors are taken as
they are called in `ZPxx.cpp`: `getWidth()`, `getHeight()` and
`getPixel(x, y)`. -/
structure ZPlane where
  getWidth : Nat
  getHeight : Nat
  getPixel : Nat → Nat → Nat

/-- The block built by `ZPxx::ZPxx`: `_index` is a `uint8_t`, `_strips` a
`vector<vector<uint8_t>>`, `_offsets` a `vector<uint16_t>`. -/
structure ZPxx where
  _index : Nat
  _strips : List (List Nat)
  _offsets : List Nat
  deriving DecidableEq, Repr

namespace ZPxx

/-- `const uint8_t ZPxx::STRIP_WIDTH = 8;` -/
def STRIP_WIDTH : Nat := 8

/-- `const uint8_t ZPxx::MAX_BYTES = 0x7F;` -/
def MAX_BYTES : Nat := 0x7F

/-- The `k` loop of the constructor (lines 21-23): starting from `byte = 0`,
`byte |= getPixel(i * STRIP_WIDTH + k, y) << (STRIP_WIDTH - 1 - k)` for
`k = 0 .. STRIP_WIDTH - 1`, `byte` being a `uint8_t`. -/
def packByte (zPlane : ZPlane) (i y : Nat) : Nat :=
  (List.range STRIP_WIDTH).foldl
    (fun byte k =>
      (byte ||| (zPlane.getPixel (i * STRIP_WIDTH + k) y <<< (STRIP_WIDTH - 1 - k))) % 256)
    0

/-- The `j` loop of the constructor (lines 19-26), run for `nBytes` iterations
from the row counter `h` and the bytes `strip` pushed so far; it returns the
strip and the row counter it leaves.  `h` is a `uint16_t`, so `h--` is taken
modulo `2 ^ 16`. -/
def literalRows (zPlane : ZPlane) (i : Nat) : Nat → Nat → List Nat → List Nat × Nat
  | 0, h, strip => (strip, h)
  | nBytes + 1, h, strip =>
    literalRows zPlane i nBytes ((h + 65535) % 65536)
      (strip ++ [packByte zPlane i (zPlane.getHeight - h)])

/-- The loop `while (h > 0)` of the constructor (lines 15-27).  The first
argument bounds the number of iterations still allowed; `none` means that the
bound was reached with `h > 0`. -/
def encodeRuns (zPlane : ZPlane) (i : Nat) : Nat → Nat → List Nat → Option (List Nat)
  | 0, h, strip => if h > 0 then none else some strip
  | fuel + 1, h, strip =>
    if h > 0 then
      let nBytes := (if h > MAX_BYTES then MAX_BYTES else h) % 256
      let r := literalRows zPlane i nBytes h (strip ++ [nBytes])
      encodeRuns zPlane i fuel r.2 r.1
    else some strip

/-- The body of the `i` loop (lines 13-27): the strip of column block `i`.
`uint16_t h = zPlane->getHeight()`; every iteration of the while loop consumes
at least one row, so `h` iterations are allowed. -/
def encodeStrip (zPlane : ZPlane) (i : Nat) : Option (List Nat) :=
  encodeRuns zPlane i (zPlane.getHeight % 65536) (zPlane.getHeight % 65536) []

/-- The `i` loop (lines 11-29) run for `i = 0 .. n - 1`, each strip pushed at
the back of `_strips`. -/
def encodeStrips (zPlane : ZPlane) : Nat → Option (List (List Nat))
  | 0 => some []
  | n + 1 =>
    match encodeStrips zPlane n with
    | none => none
    | some strips =>
      match encodeStrip zPlane n with
      | none => none
      | some strip => some (strips ++ [strip])

/-- Lines 30-36: `firstOffset` (a `uint16_t`) is pushed first, then for
`i = 1 .. _strips.size() - 1` the entry `_offsets[i - 1] + _strips[i - 1].size()`
is pushed, each entry being stored in a `uint16_t`. -/
def buildOffsets (strips : List (List Nat)) : List Nat :=
  let firstOffset := (4 * 1 + 4 + strips.length * 2) % 65536
  (List.range' 1 (strips.length - 1)).foldl
    (fun offsets i =>
      offsets ++ [(offsets.getD (i - 1) 0 + (strips.getD (i - 1) []).length) % 65536])
    [firstOffset]

/-- The constructor `ZPxx::ZPxx(ZPlane *zPlane, uint8_t index)`; `none` only if
a while loop did not finish within its iteration bound. -/
def new (zPlane : ZPlane) (index : Nat) : Option ZPxx :=
  match encodeStrips zPlane (zPlane.getWidth / STRIP_WIDTH) with
  | none => none
  | some strips =>
    some { _index := index % 256, _strips := strips, _offsets := buildOffsets strips }

/-- `uint32_t ZPxx::getSize()`: every `size += ...` is reduced modulo `2 ^ 32`. -/
def getSize (b : ZPxx) : Nat :=
  b._strips.foldl (fun size strip => (size + strip.length * 1) % 4294967296)
    ((4 * 1 + 4 + b._offsets.length * 2) % 4294967296)

end ZPxx

/-! ### The output stream

`util/IO.hpp` is not part of the sources at hand.  A stream is the list of the
bytes written so far. -/

/-- Modelled from the spec: `IO::writeU8` is absent; it appends one byte. -/
def writeU8 (f : List Nat) (v : Nat) : List Nat :=
  f ++ [v % 256]

/-- Modelled from the spec: `IO::writeU16LE` is absent; offset entries are
"little-endian 16-bit", low byte first. -/
def writeU16LE (f : List Nat) (v : Nat) : List Nat :=
  f ++ [v % 256, v / 256 % 256]

/-- Modelled from the spec: `IO::writeU32BE` is absent; the size field is
"big-endian 32-bit", high byte first. -/
def writeU32BE (f : List Nat) (v : Nat) : List Nat :=
  f ++ [v / 16777216 % 256, v / 65536 % 256, v / 256 % 256, v % 256]

/-- Modelled from the spec: `IO::writeString` is absent; it appends the
characters of the string, one byte each. -/
def writeString (f : List Nat) (s : String) : List Nat :=
  f ++ s.data.map (fun c => c.toNat % 256)

/-- Modelled from the spec: `IO::getStringFromIndex` is absent; the mask tag
ends in "a two-character zero-padded decimal index", so the result has
`nDigits` decimal digits, most significant first. -/
def getStringFromIndex (index nDigits : Nat) : String :=
  String.mk ((List.range nDigits).reverse.map (fun d => Char.ofNat (48 + index / 10 ^ d % 10)))

/-- `void ZPxx::write(fstream &f)`, started on an empty stream: the tag, the
size, the offsets, then the bytes of every strip. -/
def ZPxx.write (b : ZPxx) : List Nat :=
  let f := writeString [] ("ZP" ++ getStringFromIndex b._index 2)
  let f := writeU32BE f (ZPxx.getSize b)
  let f := b._offsets.foldl (fun f offset => writeU16LE f offset) f
  b._strips.foldl (fun f strip => strip.foldl (fun f byte => writeU8 f byte) f) f

/-! ### Reading a strip back

The reader below follows the description of the strip format: a run-length
byte `c`, then `c` literal bytes, each one row of 8 pixels with bit 7 leftmost. -/

/-- The literal bytes of a strip, in order.  The first argument is the number
of literal bytes still expected in the current run; at `0` the next byte is a
run-length byte. -/
def decodeRows : Nat → List Nat → List Nat
  | _, [] => []
  | 0, c :: rest => decodeRows c rest
  | n + 1, b :: rest => b :: decodeRows n rest

/-- The run-length bytes of a strip, in order (same reader as `decodeRows`). -/
def runLengths : Nat → List Nat → List Nat
  | _, [] => []
  | 0, c :: rest => c :: runLengths c rest
  | n + 1, _ :: rest => runLengths n rest

/-- Whether the strip ends exactly at the end of a run: every run-length byte
`c` is followed by `c` literal bytes. -/
def runsComplete : Nat → List Nat → Bool
  | 0, [] => true
  | _ + 1, [] => false
  | 0, c :: rest => runsComplete c rest
  | n + 1, _ :: rest => runsComplete n rest

/-- The pixel `(x, y)` read back from the strips: strip `x / 8`, row `y`, bit
`7 - x % 8`. -/
def decodePixel (strips : List (List Nat)) (x y : Nat) : Option Nat :=
  match strips[x / 8]? with
  | none => none
  | some strip =>
    match (decodeRows 0 strip)[y]? with
    | none => none
    | some row => some (row / 2 ^ (7 - x % 8) % 2)

/-- The run-length bytes the strip format prescribes for `h` rows: `h / 127`
bytes of value 127, then `h % 127` when that is not zero. -/
def chunkSizes (h : Nat) : List Nat :=
  List.replicate (h / 127) 127 ++ (if h % 127 = 0 then [] else [h % 127])

/-- A wide mask used in the examples: 2400 by 250 (300 strips of 252 bytes),
all pixels clear. -/
def wideMask : ZPlane :=
  { getWidth := 2400, getHeight := 250, getPixel := fun _ _ => 0 }

/-- A small mask used in the examples: `w` by `h`, pixel `(x, y)` set when
`x + y` is odd. -/
def checker (w h : Nat) : ZPlane :=
  { getWidth := w, getHeight := h, getPixel := fun x y => (x + y) % 2 }

/-- The four bytes of the tag written first. -/
def ZPxx.tagBytes (b : ZPxx) : List Nat :=
  ("ZP" ++ getStringFromIndex b._index 2).data.map (fun c => c.toNat % 256)

/-- The bytes that precede the strips in the output: tag, size, offset table. -/
def ZPxx.headerBytes (b : ZPxx) : List Nat :=
  ZPxx.tagBytes b
    ++ [ZPxx.getSize b / 16777216 % 256, ZPxx.getSize b / 65536 % 256,
      ZPxx.getSize b / 256 % 256, ZPxx.getSize b % 256]
    ++ b._offsets.flatMap (fun o => [o % 256, o / 256 % 256])

/-! ## Rooms: script binding and compilation

`Room::parse` and `Room::compile` of `types/Room.cpp`.  The classes `Function`,
`BlockStatement`, `Object`, `Context` and `Log` are used there but their
sources are not at hand; they are modelled by the members `Room.cpp` calls. -/

/-- The kinds of function, `FUNCTION_NORMAL` and `FUNCTION_INLINED`. -/
inductive FunctionType where
  | FUNCTION_NORMAL
  | FUNCTION_INLINED
  deriving DecidableEq, Repr

/-- Modelled from the spec: `grammar/Statement.hpp` is absent; a block
statement is the list of its statements, kept as numbers, and
`new BlockStatement()` is the block with no statement. -/
structure BlockStatement where
  statements : List Nat
  deriving DecidableEq, Repr

/-- Modelled from the spec: `grammar/Function.hpp` is absent; a function is
"name, kind Normal|Inlined, optional integer id, body" with the accessors
`getType()`, `getName()` and the setter `setID(id)`. -/
structure Function where
  getType : FunctionType
  getName : String
  body : BlockStatement
  id : Option Nat
  deriving DecidableEq, Repr

/-- The call `new Function(type, name, body)`: no ID is set yet. -/
def Function.new (type : FunctionType) (name : String) (body : BlockStatement) : Function :=
  { getType := type, getName := name, body := body, id := none }

/-- An object of the room, by the members `Room::parse` uses: `getName()`,
`getFunction()` (`none` is `NULL`) and `setFunction(f)`. -/
structure Object where
  getName : String
  getFunction : Option Function
  deriving DecidableEq, Repr

/-- The call `object->setFunction(function)`. -/
def Object.setFunction (object : Object) (function : Function) : Object :=
  { object with getFunction := some function }

/-- The levels passed to `Log::write`. -/
inductive LogType where
  | LOG_INFO
  | LOG_WARNING
  | LOG_ERROR
  deriving DecidableEq, Repr

/-- One call of `Log::write`: the level and the formatted message. -/
structure LogEntry where
  type : LogType
  message : String
  deriving DecidableEq, Repr

/-- Modelled from the spec: the body of `Log::write` is absent; logging is a
diagnostics output that takes no part in the compilation logic, and an error
is "logged, not aborted", so a call records its message and returns. -/
def Log.write (log : List LogEntry) (type : LogType) (message : String) : List LogEntry :=
  log ++ [{ type := type, message := message }]

/-- The kind of a declaration; `DECLARATION_CONST` is the only one `Room.cpp`
creates. -/
inductive DeclarationType where
  | DECLARATION_CONST
  deriving DecidableEq, Repr

/-- Modelled from the spec: `grammar/Declaration.hpp` is absent; a declaration
is a named integer constant. -/
structure Declaration where
  type : DeclarationType := DeclarationType.DECLARATION_CONST
  name : String
  value : Int
  deriving DecidableEq, Repr

/-- The members of `Room` that `parse` and `compile` read or write. -/
structure Room where
  _name : String
  _scripts : List String
  _objects : List Object
  _declarations : List Declaration
  _functions : List Function
  _entryFunction : Option Function
  _exitFunction : Option Function
  deriving DecidableEq, Repr

/-- `const uint8_t Room::MIN_LOCAL_ID = 200;` -/
def Room.MIN_LOCAL_ID : Nat := 200

/-- What one call of the generated parser `yyparse` leaves: its return value
(non-zero on a syntax error) and the functions it pushed. -/
structure ParseResult where
  status : Nat
  functions : List Function
  deriving DecidableEq, Repr

/-- The variables of `Room::parse` while the scripts are processed: the room,
the two flags, the `uint16_t` counter `id` and the log. -/
structure ParseState where
  room : Room
  foundEntry : Bool
  foundExit : Bool
  id : Nat
  log : List LogEntry
  deriving DecidableEq, Repr

/-- The `k` loop of `Room::parse` (lines 217-226): the function is attached to
the first object whose name followed by `_verb` is the function's name, and the
loop stops there.  `none` is `foundObject == false`. -/
def Room.attachVerb (function : Function) :
    List Object → List LogEntry → Option (List Object × List LogEntry)
  | [], _ => none
  | object :: rest, log =>
    if function.getName = object.getName ++ "_verb" then
      let log := if function.getType = FunctionType.FUNCTION_INLINED then
          Log.write log LogType.LOG_ERROR
            ("Function \"" ++ function.getName ++ "\" can't be inlined !\n")
        else log
      let log := Log.write log LogType.LOG_INFO
        ("Attaching \"verb\" to object \"" ++ object.getName ++ "\"...\n")
      some (object.setFunction function :: rest, log)
    else
      match Room.attachVerb function rest log with
      | none => none
      | some (objects, log) => some (object :: objects, log)

/-- The body of the `j` loop of `Room::parse` (lines 200-235) for one parsed
function. -/
def Room.bindFunction (st : ParseState) (function : Function) : ParseState :=
  if function.getName = "entry" then
    let log := if function.getType = FunctionType.FUNCTION_INLINED then
        Log.write st.log LogType.LOG_ERROR "Function \"entry\" can't be inlined !\n"
      else st.log
    { st with log := log, room := { st.room with _entryFunction := some function },
              foundEntry := true }
  else if function.getName = "exit" then
    let log := if function.getType = FunctionType.FUNCTION_INLINED then
        Log.write st.log LogType.LOG_ERROR "Function \"exit\" can't be inlined !\n"
      else st.log
    { st with log := log, room := { st.room with _exitFunction := some function },
              foundExit := true }
  else
    match Room.attachVerb function st.room._objects st.log with
    | some (objects, log) =>
      { st with log := log, room := { st.room with _objects := objects } }
    | none =>
      if function.getType ≠ FunctionType.FUNCTION_INLINED then
        let functions := st.room._functions ++ [{ function with id := some st.id }]
        { st with id := (st.id + 1) % 65536, room := { st.room with _functions := functions } }
      else
        { st with room := { st.room with _functions := st.room._functions ++ [function] } }

/-- The body of the `i` loop of `Room::parse` (lines 188-236) for one script:
`yyparse` is the generated parser applied to the script file.  When `yyparse`
returns a non-zero status, lines 194-197 close `yyin` and delete every parsed
function, and the `j` loop then still reads the deleted functions and line 236
closes `yyin` a second time: the run has no defined result, which is `none`.
When `yyparse` returns 0 the `j` loop binds the parsed functions in order. -/
def Room.parseScript (yyparse : String → ParseResult) (st : ParseState) (script : String) :
    Option ParseState :=
  let log := Log.write st.log LogType.LOG_INFO ("Parsing \"" ++ script ++ "\"...\n")
  let st := { st with log := log }
  let result := yyparse script
  if result.status ≠ 0 then none
  else some (result.functions.foldl Room.bindFunction st)

/-- The `i` loop of `Room::parse` (lines 186-237) over the scripts that are
left, in order; `none` as soon as one script has no defined result. -/
def Room.parseScripts (yyparse : String → ParseResult) :
    List String → ParseState → Option ParseState
  | [], st => some st
  | script :: scripts, st =>
    match Room.parseScript yyparse st script with
    | some st => Room.parseScripts yyparse scripts st
    | none => none

/-- Lines 250-252: an object whose function is `NULL` gets an empty function
named after it. -/
def Room.stubVerb (object : Object) : Object :=
  match object.getFunction with
  | none =>
    object.setFunction
      (Function.new FunctionType.FUNCTION_NORMAL (object.getName ++ "_verb") { statements := [] })
  | some _ => object

/-- `void Room::parse(vector<Declaration *> &declarations)`: the room after
the call and the log it wrote, or `none` when the loop over the scripts has no
defined result.  The declarations are only handed to `yyparse` and are left
out. -/
def Room.parse (yyparse : String → ParseResult) (room : Room) : Option (Room × List LogEntry) :=
  let log := Log.write [] LogType.LOG_INFO ("Parsing room \"" ++ room._name ++ "\"...\n")
  let log := if room._scripts.isEmpty then
      Log.write log LogType.LOG_WARNING "Couldn't find any local script !\n"
    else log
  let st : ParseState :=
    { room := room, foundEntry := false, foundExit := false, id := Room.MIN_LOCAL_ID, log := log }
  match Room.parseScripts yyparse room._scripts st with
  | none => none
  | some st =>
    let st := if !st.foundEntry then
        let entryFunction := Function.new FunctionType.FUNCTION_NORMAL "entry" { statements := [] }
        { st with log := Log.write st.log LogType.LOG_WARNING "Couldn't find the entry function !\n",
                  room := { st.room with _entryFunction := some entryFunction } }
      else st
    let st := if !st.foundExit then
        let exitFunction := Function.new FunctionType.FUNCTION_NORMAL "exit" { statements := [] }
        { st with log := Log.write st.log LogType.LOG_WARNING "Couldn't find the exit function !\n",
                  room := { st.room with _exitFunction := some exitFunction } }
      else st
    some ({ st.room with _objects := st.room._objects.map Room.stubVerb }, st.log)

/-- The kinds of context; `Room::compile` pushes a `CONTEXT_ROOM`. -/
inductive ContextType where
  | CONTEXT_ROOM
  | CONTEXT_FUNCTION
  | CONTEXT_BLOCK
  | CONTEXT_LOOP
  deriving DecidableEq, Repr

/-- Modelled from the spec: `grammar/Context.hpp` is absent; a context is
"kind, visible declarations, visible functions". -/
structure Context where
  type : ContextType
  declarations : List Declaration
  functions : List Function
  deriving DecidableEq, Repr

/-- What `Room::compile` does, call after call: a call of
`Context::pushContext` with its argument, a call of `Function::compile` on a
function with the context stack (top first) at the time of the call, a call
of `Context::popContext`. -/
inductive CompileEvent where
  | pushContext (context : Context)
  | compile (function : Function) (contexts : List Context)
  | popContext
  deriving DecidableEq, Repr

/-- What `Room::compile` acts on: the context stack (top first), the
functions on which `Function::compile` has been called, in call order, and the
calls made so far, in order. -/
structure CompileState where
  contexts : List Context
  compiled : List Function
  events : List CompileEvent := []
  deriving DecidableEq, Repr

/-- Modelled from the spec: `grammar/Context.hpp` is absent;
`Context::pushContext` puts the context on top of the stack. -/
def Context.pushContext (context : Context) (st : CompileState) : CompileState :=
  { st with contexts := context :: st.contexts,
            events := st.events ++ [CompileEvent.pushContext context] }

/-- Modelled from the spec: `grammar/Context.hpp` is absent;
`Context::popContext` removes the top of the stack. -/
def Context.popContext (st : CompileState) : CompileState :=
  { st with contexts := st.contexts.tail, events := st.events ++ [CompileEvent.popContext] }

/-- Modelled from the spec: `Function::compile` is absent; a call is recorded
in the list of compiled functions, with the context stack it runs under. -/
def Function.compile (function : Function) (st : CompileState) : CompileState :=
  { st with compiled := st.compiled ++ [function],
            events := st.events ++ [CompileEvent.compile function st.contexts] }

/-- `void Room::compile()`: push the room context, compile the local functions
that are not inlined, the entry and the exit function, the function of every
object that has one, then pop the context.  `none` is a call through a `NULL`
entry or exit function. -/
def Room.compile (room : Room) (st : CompileState) : Option CompileState :=
  let context : Context :=
    { type := ContextType.CONTEXT_ROOM, declarations := room._declarations,
      functions := room._functions }
  let st := Context.pushContext context st
  let st := room._functions.foldl
    (fun st function =>
      if function.getType ≠ FunctionType.FUNCTION_INLINED then function.compile st else st) st
  match room._entryFunction, room._exitFunction with
  | some entryFunction, some exitFunction =>
    let st := entryFunction.compile st
    let st := exitFunction.compile st
    let st := room._objects.foldl
      (fun st object =>
        match object.getFunction with
        | some function => function.compile st
        | none => st) st
    some (Context.popContext st)
  | _, _ => none

/-! ### Vocabulary for the statements on binding -/

/-- The functions handed to the binding loop, in processing order: script
after script in the order of `_scripts`, function after function in each. -/
def Room.parsedFunctions (yyparse : String → ParseResult) (room : Room) : List Function :=
  room._scripts.flatMap (fun script => (yyparse script).functions)

/-- Whether some object of the list is named so that `name` is its verb. -/
def isVerbName (objects : List Object) (name : String) : Bool :=
  objects.any (fun object => name == object.getName ++ "_verb")

/-- A free function: not named `entry`, not named `exit`, not the verb of an
object of the room. -/
def isFree (objects : List Object) (function : Function) : Bool :=
  function.getName != "entry" && function.getName != "exit"
    && !isVerbName objects function.getName

/-- The free functions of a room, in processing order. -/
def Room.freeFunctions (yyparse : String → ParseResult) (room : Room) : List Function :=
  (Room.parsedFunctions yyparse room).filter (isFree room._objects)

/-- The number of functions that are not inlined among the first `j`. -/
def notInlinedBefore (functions : List Function) (j : Nat) : Nat :=
  ((functions.take j).filter
    (fun function => function.getType != FunctionType.FUNCTION_INLINED)).length

/-- What the `j`-th free function `function` looks like once pushed on
`_functions` when the counter started at `id0`: unchanged when inlined, else
with the ID `id0` plus the number of functions not inlined before it, reduced
modulo `2 ^ 16`. -/
def pushedFunction (id0 : Nat) (free : List Function) (j : Nat) (function : Function) : Function :=
  if function.getType = FunctionType.FUNCTION_INLINED then function
  else { function with id := some ((id0 + notInlinedBefore free j) % 65536) }

/-- The state of `Room::parse` without its log. -/
def ParseState.core (st : ParseState) : Room × Bool × Bool × Nat :=
  (st.room, st.foundEntry, st.foundExit, st.id)

/-- The variables of `Room::parse` before the first script, without the log. -/
def Room.initialState (room : Room) : ParseState :=
  { room := room, foundEntry := false, foundExit := false, id := Room.MIN_LOCAL_ID, log := [] }

/-- The state after the binding loop has processed every parsed function,
logging apart. -/
def Room.boundState (yyparse : String → ParseResult) (room : Room) : ParseState :=
  (Room.parsedFunctions yyparse room).foldl Room.bindFunction (Room.initialState room)

/-- The function `Room::parse` creates when no script defines `name`. -/
def emptyFunction (name : String) : Function :=
  Function.new FunctionType.FUNCTION_NORMAL name { statements := [] }

/-- The number of functions in the large script of the examples. -/
def manyCount : Nat := 65337

/-- A parser result used in the examples: `manyCount` normal functions named
`f`. -/
def manyFunctions : ParseResult :=
  { status := 0,
    functions := List.replicate manyCount (Function.new FunctionType.FUNCTION_NORMAL "f"
      { statements := [] }) }

/-- A parser result used in the examples: the functions `a`, `b` (inlined) and
`c`. -/
def threeFunctions : ParseResult :=
  { status := 0,
    functions := [Function.new FunctionType.FUNCTION_NORMAL "a" { statements := [] },
      Function.new FunctionType.FUNCTION_INLINED "b" { statements := [] },
      Function.new FunctionType.FUNCTION_NORMAL "c" { statements := [] }] }

/-- A function named `entry` that is declared inlined. -/
def inlinedEntry : Function :=
  Function.new FunctionType.FUNCTION_INLINED "entry" { statements := [1] }

/-- A parser result used in the examples: `door_verb`, `window_verb` and
`entry`, in that order. -/
def doorWindowScript : ParseResult :=
  { status := 0,
    functions := [Function.new FunctionType.FUNCTION_NORMAL "door_verb" { statements := [1] },
      Function.new FunctionType.FUNCTION_NORMAL "window_verb" { statements := [2] },
      Function.new FunctionType.FUNCTION_NORMAL "entry" { statements := [3] }] }

/-- A room with the given scripts and objects and nothing bound yet. -/
def emptyRoom (scripts : List String) (objects : List Object) : Room :=
  { _name := "room", _scripts := scripts, _objects := objects, _declarations := [],
    _functions := [], _entryFunction := none, _exitFunction := none }

/-! ### The rows and pixels the encoder reads -/

/-- The values of the row counter `h` with which the body of the `j` loop
(lines 21-25) runs, in order, for `nBytes` iterations from `h`: each run reads
row `getHeight() - h` and then executes `h--`. -/
def ZPxx.literalRowsCounters : Nat → Nat → List Nat
  | 0, _ => []
  | nBytes + 1, h => h :: ZPxx.literalRowsCounters nBytes ((h + 65535) % 65536)

/-- The values of the row counter `h` with which the body of the `j` loop runs
during the whole `while (h > 0)` loop of strip `i`, in order (same iteration
bound as `encodeRuns`). -/
def ZPxx.encodeRunsCounters (zPlane : ZPlane) (i : Nat) : Nat → Nat → List Nat
  | 0, _ => []
  | fuel + 1, h =>
    if h > 0 then
      let nBytes := (if h > ZPxx.MAX_BYTES then ZPxx.MAX_BYTES else h) % 256
      ZPxx.literalRowsCounters nBytes h
        ++ ZPxx.encodeRunsCounters zPlane i fuel (ZPxx.literalRows zPlane i nBytes h []).2
    else []

/-- The row counters of strip `i`, started as `encodeStrip` starts the loop. -/
def ZPxx.stripCounters (zPlane : ZPlane) (i : Nat) : List Nat :=
  ZPxx.encodeRunsCounters zPlane i (zPlane.getHeight % 65536) (zPlane.getHeight % 65536)

/-- The arguments `(x, y)` of the calls `getPixel(x, y)` made for strip `i`, in
order: for every run of the `j` loop body, the `k` loop reads
`(i * STRIP_WIDTH + k, getHeight() - h)` for `k = 0 .. STRIP_WIDTH - 1`. -/
def ZPxx.pixelReads (zPlane : ZPlane) (i : Nat) : List (Nat × Nat) :=
  (ZPxx.stripCounters zPlane i).flatMap (fun h =>
    (List.range ZPxx.STRIP_WIDTH).map (fun k => (i * ZPxx.STRIP_WIDTH + k, zPlane.getHeight - h)))

/-- A mask narrower than one strip used in the examples: 7 by 3. -/
def narrowMask : ZPlane :=
  { getWidth := 7, getHeight := 3, getPixel := fun x y => (x + y) % 2 }

/-- The 9 by 2 checkerboard with the pixels of column 8 replaced by `v`. -/
def checkerWithLastColumn (v : Nat) : ZPlane :=
  { getWidth := 9, getHeight := 2, getPixel := fun x y => if x = 8 then v else (x + y) % 2 }

/-! ## Rooms: identifiers, declarations and the palette

`Room::Room`, `Room::addDeclarations` and `Room::updatePalette` of
`types/Room.cpp`.  The classes `Palette`, `Image`, `Costume`, `Anim`, `Map` and
`Box` are used there but their sources are not at hand; they are modelled by
the members `Room.cpp` calls. -/

/-- Lines 39-40 of the constructor `Room::Room`,
`static uint8_t currentID = 1; _id = currentID++;`: from the value of the static
counter, the ID given to the room being constructed and the value the counter
is left with. -/
def Room.nextID (currentID : Nat) : Nat × Nat :=
  (currentID, (currentID + 1) % 256)

/-- The IDs of `n` rooms constructed one after the other, the static counter
holding `currentID` before the first construction. -/
def Room.constructedIDs : Nat → Nat → List Nat
  | 0, _ => []
  | n + 1, currentID =>
    (Room.nextID currentID).1 :: Room.constructedIDs n (Room.nextID currentID).2

/-- Modelled from the spec: the colour class is absent; a colour is its three
components. -/
structure Color where
  r : Nat
  g : Nat
  b : Nat
  deriving DecidableEq, Repr

/-- A named resource with an ID, by the accessors `getName()` and `getID()`:
a palette cycle, an animation or a walk box. -/
structure NamedResource where
  getName : String
  getID : Nat
  deriving DecidableEq, Repr

/-- Modelled from the spec: `types/Palette.hpp` is absent; a palette holds its
colours (`getNumberOfColors()`, `resize(n)`, `setColor(i, c)`) and its cycles
(`getNumberOfCycles()`, `getCycle(i)`). -/
structure Palette where
  colors : List Color
  cycles : List NamedResource
  deriving DecidableEq, Repr

/-- The accessor `Palette::getNumberOfColors()`. -/
def Palette.getNumberOfColors (palette : Palette) : Nat :=
  palette.colors.length

/-- Modelled from the spec: `Palette::resize(n)` leaves `n` colours, the first
ones kept, new ones black. -/
def Palette.resize (palette : Palette) (n : Nat) : Palette :=
  { palette with
    colors := palette.colors.take n
      ++ List.replicate (n - palette.colors.length) { r := 0, g := 0, b := 0 } }

/-- Modelled from the spec: `Palette::setColor(i, c)` stores `c` at index `i`. -/
def Palette.setColor (palette : Palette) (i : Nat) (c : Color) : Palette :=
  { palette with colors := palette.colors.set i c }

/-- Modelled from the spec: `types/Image.hpp` is absent; an image holds its
colours (`getNumberOfColors()`, `getColor(j)`) and the palette base index set
by `setPaletteBaseIndex` (`none` before it is set). -/
structure Image where
  colors : List Color
  paletteBaseIndex : Option Nat
  deriving DecidableEq, Repr

/-- The call `image->setPaletteBaseIndex(index)`. -/
def Image.setPaletteBaseIndex (image : Image) (index : Nat) : Image :=
  { image with paletteBaseIndex := some index }

/-- An object of the room, by the members `addDeclarations` and `updatePalette`
use: `getName()`, `getID()`, `getNumberOfImages()` and `getImage(j)`. -/
structure ObjectResources where
  getName : String
  getID : Nat
  images : List Image
  deriving DecidableEq, Repr

/-- Modelled from the spec: `types/Costume.hpp` is absent; a costume has a
name, an ID, its animations, its colours and a palette base index. -/
structure Costume where
  getName : String
  getID : Nat
  anims : List NamedResource
  colors : List Color
  paletteBaseIndex : Option Nat
  deriving DecidableEq, Repr

/-- The call `costume->setPaletteBaseIndex(index)`. -/
def Costume.setPaletteBaseIndex (costume : Costume) (index : Nat) : Costume :=
  { costume with paletteBaseIndex := some index }

/-- Modelled from the spec: `types/Map.hpp` is absent; a map holds the walk
boxes (`getNumberOfBoxes()`, `getBox(i)`). -/
structure Map where
  boxes : List NamedResource
  deriving DecidableEq, Repr

/-- The members of `Room` that `addDeclarations` and `updatePalette` read or
write. -/
structure RoomResources where
  _palette : Palette
  _objects : List ObjectResources
  _map : Map
  _costumes : List Costume
  _declarations : List Declaration
  deriving DecidableEq, Repr

/-- The call `new Declaration(DECLARATION_CONST, name, id)`. -/
def Declaration.new (type : DeclarationType) (name : String) (id : Nat) : Declaration :=
  { type := type, name := name, value := Int.ofNat id }

/-- The declaration pushed for a resource named `name` with ID `id`. -/
def constDeclaration (resource : NamedResource) : Declaration :=
  Declaration.new DeclarationType.DECLARATION_CONST resource.getName resource.getID

/-- `void Room::addDeclarations()`: the declarations of the palette cycles,
of the objects, of every costume followed by its animations, and of the walk
boxes are pushed on `_declarations` in that order. -/
def Room.addDeclarations (room : RoomResources) : RoomResources × List LogEntry :=
  let log := Log.write [] LogType.LOG_INFO "Adding room local resource declarations...\n"
  let declarations := room._palette.cycles.foldl
    (fun declarations cycle => declarations ++ [constDeclaration cycle]) room._declarations
  let declarations := room._objects.foldl
    (fun declarations object => declarations
      ++ [Declaration.new DeclarationType.DECLARATION_CONST object.getName object.getID])
    declarations
  let declarations := room._costumes.foldl
    (fun declarations costume =>
      costume.anims.foldl (fun declarations anim => declarations ++ [constDeclaration anim])
        (declarations
          ++ [Declaration.new DeclarationType.DECLARATION_CONST costume.getName costume.getID]))
    declarations
  let declarations := room._map.boxes.foldl
    (fun declarations box => declarations ++ [constDeclaration box]) declarations
  ({ room with _declarations := declarations }, log)

/-- The first loop of `Room::updatePalette` (lines 145-153) over the objects,
`localColors` holding the colours collected so far: every image of an object
that has images gets the base index `nOriginalColors + localColors.size()`,
then the colours of its image 0 are pushed on `localColors`. -/
def Room.mergeObjectColors (nOriginalColors : Nat) :
    List ObjectResources → List Color → List ObjectResources × List Color
  | [], localColors => ([], localColors)
  | object :: rest, localColors =>
    match object.images with
    | [] =>
      let r := Room.mergeObjectColors nOriginalColors rest localColors
      (object :: r.1, r.2)
    | image0 :: _ =>
      let images := object.images.map
        (fun image => image.setPaletteBaseIndex (nOriginalColors + localColors.length))
      let r := Room.mergeObjectColors nOriginalColors rest (localColors ++ image0.colors)
      ({ object with images := images } :: r.1, r.2)

/-- The second loop of `Room::updatePalette` (lines 156-162) over the
costumes: a costume gets the base index `nOriginalColors + localColors.size()`,
then all its colours are pushed on `localColors`. -/
def Room.mergeCostumeColors (nOriginalColors : Nat) :
    List Costume → List Color → List Costume × List Color
  | [], localColors => ([], localColors)
  | costume :: rest, localColors =>
    let r := Room.mergeCostumeColors nOriginalColors rest (localColors ++ costume.colors)
    (costume.setPaletteBaseIndex (nOriginalColors + localColors.length) :: r.1, r.2)

/-- The last loop of `Room::updatePalette` (lines 170-171), from index `i` on:
`_palette->setColor(nOriginalColors + i, localColors[i])`. -/
def Room.writeLocalColors (nOriginalColors : Nat) : List Color → Nat → Palette → Palette
  | [], _, palette => palette
  | color :: rest, i, palette =>
    Room.writeLocalColors nOriginalColors rest (i + 1)
      (palette.setColor (nOriginalColors + i) color)

/-- `void Room::updatePalette()`; `MAX_COLORS` is the constant
`Palette::MAX_COLORS`, whose value is not at hand.  `nOriginalColors` is a
`uint16_t`. -/
def Room.updatePalette (MAX_COLORS : Nat) (room : RoomResources) :
    RoomResources × List LogEntry :=
  let nOriginalColors := room._palette.getNumberOfColors % 65536
  let objects := Room.mergeObjectColors nOriginalColors room._objects []
  let costumes := Room.mergeCostumeColors nOriginalColors room._costumes objects.2
  let localColors := costumes.2
  let log := if room._palette.getNumberOfColors + localColors.length > MAX_COLORS then
      Log.write [] LogType.LOG_ERROR "The local computed palette is too big to be inserted !\n"
    else []
  let palette := room._palette.resize (room._palette.getNumberOfColors + localColors.length)
  let palette := Room.writeLocalColors nOriginalColors localColors 0 palette
  ({ room with _palette := palette, _objects := objects.1, _costumes := costumes.1 }, log)

/-! ### Vocabulary for the statements on the palette -/

/-- The colours an object contributes: those of its image 0, none when it has
no image. -/
def ObjectResources.localColors (object : ObjectResources) : List Color :=
  match object.images with
  | [] => []
  | image0 :: _ => image0.colors

/-- The local colours of a room in the order they are collected: the colours
of image 0 of every object that has images, then the colours of every
costume. -/
def RoomResources.localColors (room : RoomResources) : List Color :=
  room._objects.flatMap ObjectResources.localColors ++ room._costumes.flatMap (fun c => c.colors)

/-- The contributors of local colours of a room, in order (objects with at
least one image, then costumes), each with the base index it carries (that of
image 0 for an object) and its colours. -/
def RoomResources.contributors (room : RoomResources) : List (Option Nat × List Color) :=
  room._objects.filterMap (fun object =>
      match object.images with
      | [] => none
      | image0 :: _ => some (image0.paletteBaseIndex, image0.colors))
    ++ room._costumes.map (fun costume => (costume.paletteBaseIndex, costume.colors))

/-- Colour lists laid one after the other from index `base` on, each with the
index it starts at. -/
def tiled : Nat → List (List Color) → List (Option Nat × List Color)
  | _, [] => []
  | base, colors :: rest => (some base, colors) :: tiled (base + colors.length) rest

/-- Two colours used in the examples. -/
def red : Color := { r := 255, g := 0, b := 0 }

/-- Two colours used in the examples. -/
def blue : Color := { r := 0, g := 0, b := 255 }

/-- A room used in the examples: a palette of two colours and one cycle, an
object with two images (image 0 has one colour), an object without image, a
costume with two colours and one animation, and one walk box. -/
def sampleResources : RoomResources :=
  { _palette := { colors := [blue, blue], cycles := [{ getName := "water", getID := 1 }] },
    _objects := [
      { getName := "door", getID := 10,
        images := [{ colors := [red], paletteBaseIndex := none },
                   { colors := [blue, blue, blue], paletteBaseIndex := none }] },
      { getName := "trigger", getID := 11, images := [] }],
    _map := { boxes := [{ getName := "floor", getID := 0 }] },
    _costumes := [{ getName := "guybrush", getID := 3,
                    anims := [{ getName := "walk", getID := 4 }],
                    colors := [red, blue], paletteBaseIndex := none }],
    _declarations := [] }

/-- The colour lists of the contributors of a room, in order: the colours of
image 0 of every object that has images, then the colours of every costume. -/
def RoomResources.contributorColors (room : RoomResources) : List (List Color) :=
  room._objects.filterMap (fun object =>
      match object.images with
      | [] => none
      | image0 :: _ => some image0.colors)
    ++ room._costumes.map (fun costume => costume.colors)

/-- A parser result used in the examples: one function `door_verb`. -/
def doorScript : ParseResult :=
  { status := 0,
    functions := [Function.new FunctionType.FUNCTION_NORMAL "door_verb" { statements := [1] }] }

/-- A room used in the examples: two local functions (the second inlined), an
entry and an exit function and two objects with their verbs. -/
def compiledRoom : Room :=
  { _name := "room", _scripts := [], _declarations := [],
    _objects := [
      { getName := "door", getFunction := some (emptyFunction "door_verb") },
      { getName := "window", getFunction := some (emptyFunction "window_verb") }],
    _functions := [Function.new FunctionType.FUNCTION_NORMAL "a" { statements := [] },
      Function.new FunctionType.FUNCTION_INLINED "b" { statements := [] }],
    _entryFunction := some (emptyFunction "entry"),
    _exitFunction := some (emptyFunction "exit") }

/-! ## Lemmas on the strip reader -/

theorem decodeRows_append (xs ys : List Nat) :
    decodeRows xs.length (xs ++ ys) = xs ++ decodeRows 0 ys := by
  induction xs with
  | nil => simp
  | cons x xs ih => simp [decodeRows, ih]

theorem runLengths_append (xs ys : List Nat) :
    runLengths xs.length (xs ++ ys) = runLengths 0 ys := by
  induction xs with
  | nil => simp
  | cons x xs ih => simp [runLengths, ih]

theorem runsComplete_append (xs ys : List Nat) :
    runsComplete xs.length (xs ++ ys) = runsComplete 0 ys := by
  induction xs with
  | nil => simp
  | cons x xs ih => simp [runsComplete, ih]

theorem chunkSizes_zero : chunkSizes 0 = [] := by
  simp [chunkSizes]

theorem chunkSizes_step (h : Nat) (hpos : 0 < h) :
    chunkSizes h = (if h > 127 then 127 else h) :: chunkSizes (h - (if h > 127 then 127 else h)) := by
  by_cases h1 : h > 127
  · have e1 : h / 127 = (h - 127) / 127 + 1 := by omega
    have e2 : (h - 127) % 127 = h % 127 := by omega
    simp only [chunkSizes, if_pos h1, e1, e2, List.replicate_succ, List.cons_append]
  · by_cases h2 : h = 127
    · subst h2
      simp [chunkSizes]
    · have e1 : h / 127 = 0 := by omega
      have e2 : h % 127 = h := by omega
      have e3 : ¬ h = 0 := by omega
      simp [chunkSizes, if_neg h1, e1, e2, e3]

/-! ## Lemmas on the encoder -/

namespace ZPxx

theorem packByte_lt (zPlane : ZPlane) (i y : Nat) : packByte zPlane i y < 256 := by
  simp only [packByte, STRIP_WIDTH, List.range, List.range.loop, List.foldl]
  exact Nat.mod_lt _ (by decide)

theorem literalRows_eq (zPlane : ZPlane) (i : Nat) :
    ∀ (n h : Nat) (strip : List Nat), n ≤ h → h ≤ zPlane.getHeight → h < 65536 →
      literalRows zPlane i n h strip =
        (strip ++ (List.range' (zPlane.getHeight - h) n).map (packByte zPlane i), h - n) := by
  intro n
  induction n with
  | zero => intro h strip _ _ _; simp [literalRows]
  | succ n ih =>
    intro h strip hn hH hlt
    have e1 : (h + 65535) % 65536 = h - 1 := by omega
    have e2 : zPlane.getHeight - (h - 1) = zPlane.getHeight - h + 1 := by omega
    have e3 : h - 1 - n = h - (n + 1) := by omega
    rw [literalRows, e1, ih (h - 1) _ (by omega) (by omega) (by omega), e2, e3]
    simp [List.range'_succ]

theorem encodeRuns_spec (zPlane : ZPlane) (i : Nat) :
    ∀ (fuel h : Nat) (strip : List Nat), h ≤ fuel → h ≤ zPlane.getHeight → h < 65536 →
      ∃ tail, encodeRuns zPlane i fuel h strip = some (strip ++ tail) ∧
        decodeRows 0 tail = (List.range' (zPlane.getHeight - h) h).map (packByte zPlane i) ∧
        runLengths 0 tail = chunkSizes h ∧
        runsComplete 0 tail = true ∧
        (∀ b ∈ tail, b < 256) ∧
        tail.length = h + (h + 126) / 127 := by
  intro fuel
  induction fuel with
  | zero =>
    intro h strip hf _ _
    have h0 : h = 0 := by omega
    subst h0
    exact ⟨[], by simp [encodeRuns], by simp [decodeRows], by simp [runLengths, chunkSizes_zero],
      by simp [runsComplete], by simp, by simp⟩
  | succ fuel ih =>
    intro h strip hf hH hlt
    by_cases h0 : h = 0
    · subst h0
      exact ⟨[], by simp [encodeRuns], by simp [decodeRows], by simp [runLengths, chunkSizes_zero],
        by simp [runsComplete], by simp, by simp⟩
    · have hpos : 0 < h := Nat.pos_of_ne_zero h0
      obtain ⟨n, hn⟩ : ∃ n, n = (if h > 127 then 127 else h) := ⟨_, rfl⟩
      have hn1 : 1 ≤ n := by rw [hn]; split <;> omega
      have hn2 : n ≤ h := by rw [hn]; split <;> omega
      have hn3 : n ≤ 127 := by rw [hn]; split <;> omega
      have hmod : n % 256 = n := by omega
      obtain ⟨tail, ht, hd, hr, hc, hb, hl⟩ :=
        ih (h - n) (strip ++ [n] ++ (List.range' (zPlane.getHeight - h) n).map (packByte zPlane i))
          (by omega) (by omega) (by omega)
      refine ⟨n :: ((List.range' (zPlane.getHeight - h) n).map (packByte zPlane i) ++ tail),
        ?_, ?_, ?_, ?_, ?_, ?_⟩
      · rw [encodeRuns, if_pos hpos]
        simp only [MAX_BYTES, ← hn, hmod]
        rw [literalRows_eq zPlane i n h _ hn2 hH hlt]
        simp only [ht]
        simp
      · have hlen : ((List.range' (zPlane.getHeight - h) n).map (packByte zPlane i)).length = n := by
          simp
        have e : zPlane.getHeight - (h - n) = zPlane.getHeight - h + n := by omega
        have e2 : List.range' (zPlane.getHeight - h) h
            = List.range' (zPlane.getHeight - h) n ++ List.range' (zPlane.getHeight - h + n) (h - n) := by
          rw [List.range'_append_1]
          congr 1
          omega
        have key := decodeRows_append
          ((List.range' (zPlane.getHeight - h) n).map (packByte zPlane i)) tail
        rw [hlen] at key
        rw [decodeRows, key, hd, e, e2, List.map_append]
      · have hlen : ((List.range' (zPlane.getHeight - h) n).map (packByte zPlane i)).length = n := by
          simp
        have key := runLengths_append
          ((List.range' (zPlane.getHeight - h) n).map (packByte zPlane i)) tail
        rw [hlen] at key
        rw [runLengths, key, hr, chunkSizes_step h hpos, ← hn]
      · have hlen : ((List.range' (zPlane.getHeight - h) n).map (packByte zPlane i)).length = n := by
          simp
        have key := runsComplete_append
          ((List.range' (zPlane.getHeight - h) n).map (packByte zPlane i)) tail
        rw [hlen] at key
        rw [runsComplete, key, hc]
      · intro b hbm
        simp only [List.mem_cons, List.mem_append, List.mem_map] at hbm
        rcases hbm with rfl | ⟨y, _, rfl⟩ | hbt
        · omega
        · exact packByte_lt zPlane i y
        · exact hb b hbt
      · simp only [List.length_cons, List.length_append, List.length_map, List.length_range', hl]
        have : (h + 126) / 127 = (h - n + 126) / 127 + 1 := by
          rw [hn]; split <;> omega
        omega

/-- What the while loop builds for one strip, `h0` being the 16-bit row counter
it starts from. -/
theorem encodeStrip_spec (zPlane : ZPlane) (i : Nat) :
    ∃ strip, encodeStrip zPlane i = some strip ∧
      decodeRows 0 strip =
        (List.range' (zPlane.getHeight - zPlane.getHeight % 65536)
          (zPlane.getHeight % 65536)).map (packByte zPlane i) ∧
      runLengths 0 strip = chunkSizes (zPlane.getHeight % 65536) ∧
      runsComplete 0 strip = true ∧
      (∀ b ∈ strip, b < 256) ∧
      strip.length = zPlane.getHeight % 65536 + (zPlane.getHeight % 65536 + 126) / 127 := by
  obtain ⟨tail, ht, hrest⟩ :=
    encodeRuns_spec zPlane i (zPlane.getHeight % 65536) (zPlane.getHeight % 65536) []
      (Nat.le_refl _) (Nat.mod_le _ _) (Nat.mod_lt _ (by decide))
  exact ⟨tail, by simpa [encodeStrip] using ht, hrest⟩

theorem encodeStrips_spec (zPlane : ZPlane) :
    ∀ n : Nat, ∃ strips, encodeStrips zPlane n = some strips ∧ strips.length = n ∧
      ∀ i, i < n → encodeStrip zPlane i = strips[i]? := by
  intro n
  induction n with
  | zero => exact ⟨[], rfl, rfl, by intro i hi; omega⟩
  | succ n ih =>
    obtain ⟨strips, hs, hl, hi⟩ := ih
    obtain ⟨strip, hstrip, _⟩ := encodeStrip_spec zPlane n
    refine ⟨strips ++ [strip], by simp [encodeStrips, hs, hstrip], by simp [hl], ?_⟩
    intro i hin
    by_cases h : i < n
    · rw [hi i h, List.getElem?_append_left (by omega)]
    · have e : i = n := by omega
      subst e
      rw [hstrip, List.getElem?_append_right (by omega)]
      simp [hl]

/-- The constructor always returns a block; its strips are the strips of the
column blocks `0 .. getWidth / 8 - 1` in order. -/
theorem new_spec (zPlane : ZPlane) (index : Nat) :
    ∃ b, new zPlane index = some b ∧ b._index = index % 256 ∧
      b._strips.length = zPlane.getWidth / 8 ∧
      b._offsets = buildOffsets b._strips ∧
      ∀ i, i < zPlane.getWidth / 8 → encodeStrip zPlane i = b._strips[i]? := by
  obtain ⟨strips, hs, hl, hi⟩ := encodeStrips_spec zPlane (zPlane.getWidth / 8)
  exact ⟨⟨index % 256, strips, buildOffsets strips⟩, by simp [new, STRIP_WIDTH, hs], rfl, hl, rfl, hi⟩

theorem sum_take_succ (strips : List (List Nat)) (m : Nat) :
    ((strips.take (m + 1)).map List.length).sum
      = ((strips.take m).map List.length).sum + (strips.getD m []).length := by
  rw [List.take_succ, List.map_append, List.sum_append]
  cases h : strips[m]? <;> simp [List.getD_eq_getElem?_getD, h]

/-- Loop invariant of the offsets loop after `m` iterations. -/
theorem offsets_loop (strips : List (List Nat)) (first : Nat) :
    ∀ m : Nat,
      ((List.range' 1 m).foldl
        (fun offsets i =>
          offsets ++ [(offsets.getD (i - 1) 0 + (strips.getD (i - 1) []).length) % 65536])
        [first % 65536]).length = m + 1 ∧
      ∀ i, i ≤ m →
        ((List.range' 1 m).foldl
          (fun offsets i =>
            offsets ++ [(offsets.getD (i - 1) 0 + (strips.getD (i - 1) []).length) % 65536])
          [first % 65536])[i]? = some ((first + ((strips.take i).map List.length).sum) % 65536) := by
  intro m
  induction m with
  | zero =>
    refine ⟨by simp, ?_⟩
    intro i hi
    have : i = 0 := by omega
    subst this
    simp
  | succ m ih =>
    obtain ⟨hl, hv⟩ := ih
    rw [List.range'_1_concat, List.foldl_append]
    simp only [List.foldl_cons, List.foldl_nil, Nat.add_sub_cancel_left]
    refine ⟨by rw [List.length_append, hl]; rfl, ?_⟩
    intro i hi
    by_cases h : i ≤ m
    · rw [List.getElem?_append_left (by omega)]
      exact hv i h
    · have e : i = m + 1 := by omega
      subst e
      rw [List.getElem?_append_right (by omega), hl]
      simp only [Nat.sub_self, List.getElem?_cons_zero, Option.some.injEq]
      rw [List.getD_eq_getElem?_getD, hv m (Nat.le_refl _), sum_take_succ]
      simp only [Option.getD_some]
      omega

theorem buildOffsets_length (strips : List (List Nat)) :
    (buildOffsets strips).length = strips.length - 1 + 1 := by
  exact (offsets_loop strips (4 * 1 + 4 + strips.length * 2) (strips.length - 1)).1

theorem buildOffsets_get (strips : List (List Nat)) (i : Nat) (hi : i ≤ strips.length - 1) :
    (buildOffsets strips)[i]?
      = some ((4 + 4 + 2 * strips.length + ((strips.take i).map List.length).sum) % 65536) := by
  have h := (offsets_loop strips (4 * 1 + 4 + strips.length * 2) (strips.length - 1)).2 i hi
  have e : 4 * 1 + 4 + strips.length * 2 + ((strips.take i).map List.length).sum
      = 4 + 4 + 2 * strips.length + ((strips.take i).map List.length).sum := by omega
  rw [e] at h
  exact h

theorem getSize_loop (strips : List (List Nat)) :
    ∀ a : Nat, strips.foldl (fun size strip => (size + strip.length * 1) % 4294967296)
        (a % 4294967296) = (a + (strips.map List.length).sum) % 4294967296 := by
  induction strips with
  | nil => intro a; simp
  | cons s rest ih =>
    intro a
    have e : (a % 4294967296 + s.length * 1) % 4294967296 = (a + s.length) % 4294967296 := by
      omega
    rw [List.foldl_cons, e, ih (a + s.length)]
    simp only [List.map_cons, List.sum_cons]
    congr 1
    omega

theorem getSize_eq (b : ZPxx) :
    getSize b = (4 + 4 + 2 * b._offsets.length + (b._strips.map List.length).sum) % 4294967296 := by
  have h := getSize_loop b._strips (4 * 1 + 4 + b._offsets.length * 2)
  have e : 4 * 1 + 4 + b._offsets.length * 2 + (b._strips.map List.length).sum
      = 4 + 4 + 2 * b._offsets.length + (b._strips.map List.length).sum := by omega
  rw [e] at h
  exact h

theorem write_offsets_loop (offsets : List Nat) :
    ∀ f : List Nat, offsets.foldl (fun f offset => writeU16LE f offset) f
      = f ++ offsets.flatMap (fun o => [o % 256, o / 256 % 256]) := by
  induction offsets with
  | nil => intro f; simp
  | cons o rest ih =>
    intro f
    rw [List.foldl_cons, ih, writeU16LE]
    simp

theorem write_bytes_loop (strip : List Nat) (hb : ∀ x ∈ strip, x < 256) :
    ∀ f : List Nat, strip.foldl (fun f byte => writeU8 f byte) f = f ++ strip := by
  induction strip with
  | nil => intro f; simp
  | cons x rest ih =>
    intro f
    have hx : x % 256 = x := Nat.mod_eq_of_lt (hb x (by simp))
    rw [List.foldl_cons, ih (fun y hy => hb y (by simp [hy])), writeU8, hx]
    simp

theorem write_strips_loop (strips : List (List Nat)) (hb : ∀ s ∈ strips, ∀ x ∈ s, x < 256) :
    ∀ f : List Nat,
      strips.foldl (fun f strip => strip.foldl (fun f byte => writeU8 f byte) f) f
        = f ++ strips.flatten := by
  induction strips with
  | nil => intro f; simp
  | cons s rest ih =>
    intro f
    rw [List.foldl_cons, write_bytes_loop s (hb s (by simp)),
      ih (fun t ht => hb t (by simp [ht]))]
    simp

theorem tagBytes_length (b : ZPxx) : (tagBytes b).length = 4 := by
  simp [tagBytes, getStringFromIndex]

theorem headerBytes_length (b : ZPxx) :
    (headerBytes b).length = 4 + 4 + 2 * b._offsets.length := by
  have h2 : ∀ l : List Nat, (l.flatMap (fun o => [o % 256, o / 256 % 256])).length = 2 * l.length := by
    intro l
    induction l with
    | nil => rfl
    | cons o rest ih => simp only [List.flatMap_cons, List.length_append, ih, List.length_cons,
        List.length_nil]; omega
  simp only [headerBytes, List.length_append, tagBytes_length, h2, List.length_cons,
    List.length_nil]

theorem write_eq (b : ZPxx) (hb : ∀ s ∈ b._strips, ∀ x ∈ s, x < 256) :
    write b = headerBytes b ++ b._strips.flatten := by
  simp only [write, write_strips_loop b._strips hb, write_offsets_loop, writeU32BE, writeString,
    headerBytes, tagBytes, List.nil_append]

/-- Every strip of a constructed block is the strip of some column block. -/
theorem new_strip_mem (zPlane : ZPlane) (index : Nat) (b : ZPxx) (hnew : new zPlane index = some b)
    (s : List Nat) (hs : s ∈ b._strips) : ∃ i, i < zPlane.getWidth / 8 ∧ encodeStrip zPlane i = some s := by
  obtain ⟨b', hb', _, hlen, _, hget⟩ := new_spec zPlane index
  rw [hnew] at hb'
  cases hb'
  obtain ⟨i, hi, rfl⟩ := List.mem_iff_getElem.mp hs
  exact ⟨i, by omega, by rw [hget i (by omega), List.getElem?_eq_getElem hi]⟩

theorem new_strip_bytes (zPlane : ZPlane) (index : Nat) (b : ZPxx) (hnew : new zPlane index = some b) :
    ∀ s ∈ b._strips, ∀ x ∈ s, x < 256 := by
  intro s hs
  obtain ⟨i, _, hi⟩ := new_strip_mem zPlane index b hnew s hs
  obtain ⟨s', hs', _, _, _, hbytes, _⟩ := encodeStrip_spec zPlane i
  rw [hi] at hs'
  cases hs'
  exact hbytes

theorem new_strip_lengths (zPlane : ZPlane) (index : Nat) (b : ZPxx) (hnew : new zPlane index = some b) :
    b._strips.map List.length = List.replicate (zPlane.getWidth / 8)
      (zPlane.getHeight % 65536 + (zPlane.getHeight % 65536 + 126) / 127) := by
  obtain ⟨b', hb', _, hlen, _, _⟩ := new_spec zPlane index
  rw [hnew] at hb'
  cases hb'
  rw [List.eq_replicate_iff]
  refine ⟨by simp [hlen], ?_⟩
  intro x hx
  obtain ⟨s, hs, rfl⟩ := List.mem_map.mp hx
  obtain ⟨i, _, hi⟩ := new_strip_mem zPlane index b hnew s hs
  obtain ⟨s', hs', _, _, _, _, hl⟩ := encodeStrip_spec zPlane i
  rw [hi] at hs'
  cases hs'
  exact hl

theorem new_sum_take (zPlane : ZPlane) (index : Nat) (b : ZPxx) (hnew : new zPlane index = some b)
    (i : Nat) (hi : i ≤ zPlane.getWidth / 8) :
    ((b._strips.take i).map List.length).sum
      = i * (zPlane.getHeight % 65536 + (zPlane.getHeight % 65536 + 126) / 127) := by
  rw [List.map_take, new_strip_lengths zPlane index b hnew, List.take_replicate,
    List.sum_replicate, Nat.min_eq_left hi]
  simp

theorem packByte_eq_sum (zPlane : ZPlane) (i y : Nat)
    (hbit : ∀ k, k < 8 → zPlane.getPixel (8 * i + k) y ≤ 1) :
    packByte zPlane i y =
      ((List.range 8).map (fun k => zPlane.getPixel (8 * i + k) y * 2 ^ (7 - k))).sum := by
  have key : ∀ p0 p1 p2 p3 p4 p5 p6 p7 : Nat,
      p0 ≤ 1 → p1 ≤ 1 → p2 ≤ 1 → p3 ≤ 1 → p4 ≤ 1 → p5 ≤ 1 → p6 ≤ 1 → p7 ≤ 1 →
      ((((((((0 ||| p0 <<< 7) % 256 ||| p1 <<< 6) % 256 ||| p2 <<< 5) % 256 ||| p3 <<< 4) % 256
        ||| p4 <<< 3) % 256 ||| p5 <<< 2) % 256 ||| p6 <<< 1) % 256 ||| p7 <<< 0) % 256
        = p0 * 128 + (p1 * 64 + (p2 * 32 + (p3 * 16 + (p4 * 8 + (p5 * 4 + (p6 * 2 + (p7 * 1 + 0))))))) := by
    intro p0 p1 p2 p3 p4 p5 p6 p7 h0 h1 h2 h3 h4 h5 h6 h7
    interval_cases p0 <;> interval_cases p1 <;> interval_cases p2 <;> interval_cases p3 <;>
      interval_cases p4 <;> interval_cases p5 <;> interval_cases p6 <;> interval_cases p7 <;> rfl
  have e : ∀ k, i * 8 + k = 8 * i + k := fun k => by omega
  simp only [packByte, STRIP_WIDTH, List.range, List.range.loop, List.foldl, List.map, List.sum_cons,
    List.sum_nil, e]
  exact key _ _ _ _ _ _ _ _ (hbit 0 (by omega)) (hbit 1 (by omega)) (hbit 2 (by omega))
    (hbit 3 (by omega)) (hbit 4 (by omega)) (hbit 5 (by omega)) (hbit 6 (by omega))
    (hbit 7 (by omega))

theorem packByte_bit (zPlane : ZPlane) (i y k : Nat) (hk : k < 8)
    (hbit : ∀ k, k < 8 → zPlane.getPixel (8 * i + k) y ≤ 1) :
    packByte zPlane i y / 2 ^ (7 - k) % 2 = zPlane.getPixel (8 * i + k) y := by
  rw [packByte_eq_sum zPlane i y hbit]
  simp only [List.range, List.range.loop, List.map, List.sum_cons, List.sum_nil]
  have h0 := hbit 0 (by omega)
  have h1 := hbit 1 (by omega)
  have h2 := hbit 2 (by omega)
  have h3 := hbit 3 (by omega)
  have h4 := hbit 4 (by omega)
  have h5 := hbit 5 (by omega)
  have h6 := hbit 6 (by omega)
  have h7 := hbit 7 (by omega)
  interval_cases k <;>
  · generalize zPlane.getPixel (8 * i + 0) y = p0 at h0 ⊢
    generalize zPlane.getPixel (8 * i + 1) y = p1 at h1 ⊢
    generalize zPlane.getPixel (8 * i + 2) y = p2 at h2 ⊢
    generalize zPlane.getPixel (8 * i + 3) y = p3 at h3 ⊢
    generalize zPlane.getPixel (8 * i + 4) y = p4 at h4 ⊢
    generalize zPlane.getPixel (8 * i + 5) y = p5 at h5 ⊢
    generalize zPlane.getPixel (8 * i + 6) y = p6 at h6 ⊢
    generalize zPlane.getPixel (8 * i + 7) y = p7 at h7 ⊢
    norm_num
    omega

theorem write_split (b : ZPxx) (hb : ∀ s ∈ b._strips, ∀ x ∈ s, x < 256) (i : Nat)
    (hi : i < b._strips.length) :
    write b = (headerBytes b ++ (b._strips.take i).flatten) ++ b._strips[i]
      ++ (b._strips.drop (i + 1)).flatten := by
  have e := congrArg List.flatten (List.take_append_drop i b._strips).symm
  rw [List.drop_eq_getElem_cons hi] at e
  rw [write_eq b hb, e]
  simp only [List.flatten_append, List.flatten_cons, List.append_assoc]

end ZPxx

/-! ## The mask block: main results -/

/-- C1 (as amended): for a mask with 0/1 pixels and a height below 65536, the
constructor builds `getWidth / 8` strips, every strip reads back as exactly
`getHeight` rows, and every pixel `(x, y)` with `x < 8 * (getWidth / 8)` and
`y < getHeight` is read back from the strips with its source value. -/
theorem mask_round_trip (zPlane : ZPlane) (index : Nat)
    (hh : zPlane.getHeight < 65536) (hbit : ∀ x y, zPlane.getPixel x y ≤ 1) :
    ∃ b, ZPxx.new zPlane index = some b ∧
      b._strips.length = zPlane.getWidth / 8 ∧
      (∀ s ∈ b._strips, (decodeRows 0 s).length = zPlane.getHeight) ∧
      ∀ x y, x < 8 * (zPlane.getWidth / 8) → y < zPlane.getHeight →
        decodePixel b._strips x y = some (zPlane.getPixel x y) := by
  obtain ⟨b, hnew, _, hlen, _, hget⟩ := ZPxx.new_spec zPlane index
  have hmod : zPlane.getHeight % 65536 = zPlane.getHeight := Nat.mod_eq_of_lt hh
  refine ⟨b, hnew, hlen, ?_, ?_⟩
  · intro s hs
    obtain ⟨i, _, hi⟩ := ZPxx.new_strip_mem zPlane index b hnew s hs
    obtain ⟨s', hs', hd, _⟩ := ZPxx.encodeStrip_spec zPlane i
    rw [hi] at hs'
    cases hs'
    rw [hd]
    simp [hmod]
  · intro x y hx hy
    have hx8 : x / 8 < zPlane.getWidth / 8 := by omega
    obtain ⟨s, hs, hd, _⟩ := ZPxx.encodeStrip_spec zPlane (x / 8)
    have hsx : b._strips[x / 8]? = some s := by rw [← hget (x / 8) hx8, hs]
    have hrow : (decodeRows 0 s)[y]? = some (ZPxx.packByte zPlane (x / 8) y) := by
      rw [hd, hmod, Nat.sub_self, List.getElem?_map, List.getElem?_range' _ _ hy]
      simp
    have hpix := ZPxx.packByte_bit zPlane (x / 8) y (x % 8) (Nat.mod_lt _ (by decide))
      (fun k _ => hbit _ _)
    have hxe : 8 * (x / 8) + x % 8 = x := Nat.div_add_mod x 8
    rw [hxe] at hpix
    simp only [decodePixel, hsx, hrow, hpix]

/-- C1 witness: the 16 by 3 checkerboard. -/
theorem mask_round_trip_witness :
    ∃ b, ZPxx.new (checker 16 3) 0 = some b ∧
      b._strips.length = (checker 16 3).getWidth / 8 ∧
      (∀ s ∈ b._strips, (decodeRows 0 s).length = (checker 16 3).getHeight) ∧
      ∀ x y, x < 8 * ((checker 16 3).getWidth / 8) → y < (checker 16 3).getHeight →
        decodePixel b._strips x y = some ((checker 16 3).getPixel x y) :=
  mask_round_trip (checker 16 3) 0 (by decide) (fun x y => by
    show (x + y) % 2 ≤ 1
    omega)

/-- C1 as stated fails: in the 9 by 1 checkerboard the pixel `(8, 0)` lies in
the mask but past the last full strip, and is not read back. -/
theorem mask_round_trip_fails_past_last_strip :
    ¬ (∀ b, ZPxx.new (checker 9 1) 0 = some b →
        ∀ x y, x < (checker 9 1).getWidth → y < (checker 9 1).getHeight →
          decodePixel b._strips x y = some ((checker 9 1).getPixel x y)) := by
  intro h
  have h8 := h ⟨0, [[1, 85]], [10]⟩ (by decide) 8 0 (by decide) (by decide)
  revert h8
  decide

/-- C2: for every mask whose width fits 16 bits, `getSize()` of the block
equals the number of bytes `write()` emits, and equals
`4 + 4 + 2 * (number of offset entries) + sum of the strip lengths`. -/
theorem getSize_eq_bytes_written (zPlane : ZPlane) (index : Nat)
    (hw : zPlane.getWidth < 65536) :
    ∃ b, ZPxx.new zPlane index = some b ∧
      ZPxx.getSize b = (ZPxx.write b).length ∧
      ZPxx.getSize b = 4 + 4 + 2 * b._offsets.length + (b._strips.map List.length).sum := by
  obtain ⟨b, hnew, _, hlen, hoff, _⟩ := ZPxx.new_spec zPlane index
  have hbytes := ZPxx.new_strip_bytes zPlane index b hnew
  have hsum : (b._strips.map List.length).sum
      = zPlane.getWidth / 8 * (zPlane.getHeight % 65536 + (zPlane.getHeight % 65536 + 126) / 127) := by
    rw [ZPxx.new_strip_lengths zPlane index b hnew, List.sum_replicate]
    simp
  have hol : b._offsets.length = b._strips.length - 1 + 1 := by
    rw [hoff, ZPxx.buildOffsets_length]
  have hn : zPlane.getWidth / 8 ≤ 8191 := by omega
  have hL : zPlane.getHeight % 65536 + (zPlane.getHeight % 65536 + 126) / 127 ≤ 66052 := by
    omega
  have hprod := Nat.mul_le_mul hn hL
  have hsmall : 4 + 4 + 2 * b._offsets.length + (b._strips.map List.length).sum < 4294967296 := by
    rw [hsum, hol, hlen]
    omega
  have hsize : ZPxx.getSize b
      = 4 + 4 + 2 * b._offsets.length + (b._strips.map List.length).sum := by
    rw [ZPxx.getSize_eq, Nat.mod_eq_of_lt hsmall]
  refine ⟨b, hnew, ?_, hsize⟩
  rw [hsize, ZPxx.write_eq b hbytes, List.length_append, ZPxx.headerBytes_length,
    List.length_flatten]

/-- C2 witness: the 16 by 3 checkerboard. -/
theorem getSize_eq_bytes_written_witness :
    ∃ b, ZPxx.new (checker 16 3) 0 = some b ∧
      ZPxx.getSize b = (ZPxx.write b).length ∧
      ZPxx.getSize b = 4 + 4 + 2 * b._offsets.length + (b._strips.map List.length).sum :=
  getSize_eq_bytes_written (checker 16 3) 0 (by decide)

/-- C3 (as amended): the first entry of the offset table is `4 + 4 + 2 * n`
reduced modulo `2 ^ 16` and, for `1 ≤ i < n`, entry `i` is entry `i - 1` plus
the length of strip `i - 1`, reduced modulo `2 ^ 16`; when
`4 + 4 + 2 * n` plus the lengths of all strips is below `2 ^ 16`, the entries
are these values themselves. -/
theorem offsets_accumulate (zPlane : ZPlane) (index : Nat) :
    ∃ b, ZPxx.new zPlane index = some b ∧
      b._offsets[0]? = some ((4 + 4 + 2 * b._strips.length) % 65536) ∧
      (∀ i, 1 ≤ i → i < b._strips.length →
        ∃ prev strip, b._offsets[i - 1]? = some prev ∧ b._strips[i - 1]? = some strip ∧
          b._offsets[i]? = some ((prev + strip.length) % 65536)) ∧
      (4 + 4 + 2 * b._strips.length + (b._strips.map List.length).sum < 65536 →
        b._offsets[0]? = some (4 + 4 + 2 * b._strips.length) ∧
        ∀ i, 1 ≤ i → i < b._strips.length →
          ∃ prev strip, b._offsets[i - 1]? = some prev ∧ b._strips[i - 1]? = some strip ∧
            b._offsets[i]? = some (prev + strip.length)) := by
  obtain ⟨b, hnew, _, hlen, hoff, _⟩ := ZPxx.new_spec zPlane index
  have hget : ∀ i, i ≤ b._strips.length - 1 → b._offsets[i]?
      = some ((4 + 4 + 2 * b._strips.length + ((b._strips.take i).map List.length).sum) % 65536) := by
    intro i hi
    rw [hoff]
    exact ZPxx.buildOffsets_get b._strips i hi
  have hstep : ∀ i, 1 ≤ i → i < b._strips.length →
      ((b._strips.take i).map List.length).sum
        = ((b._strips.take (i - 1)).map List.length).sum + (b._strips[i - 1]?.getD []).length := by
    intro i h1 hi
    have e : i = (i - 1) + 1 := by omega
    conv_lhs => rw [e]
    rw [ZPxx.sum_take_succ, List.getD_eq_getElem?_getD]
  have htake_le : ∀ i, ((b._strips.take i).map List.length).sum
      ≤ (b._strips.map List.length).sum := by
    intro i
    have e := congrArg (fun l => (l.map List.length).sum) (List.take_append_drop i b._strips)
    simp only [List.map_append, List.sum_append] at e
    omega
  refine ⟨b, hnew, ?_, ?_, ?_⟩
  · simpa using hget 0 (Nat.zero_le _)
  · intro i h1 hi
    have hs : b._strips[i - 1]? = some (b._strips[i - 1]?.getD []) := by
      rw [List.getElem?_eq_getElem (by omega : i - 1 < b._strips.length)]
      rfl
    refine ⟨_, _, hget (i - 1) (by omega), hs, ?_⟩
    rw [hget i (by omega), hstep i h1 hi]
    simp only [Option.some.injEq]
    omega
  · intro hfit
    have h0 := hget 0 (Nat.zero_le _)
    simp only [List.take_zero, List.map_nil, List.sum_nil, Nat.add_zero] at h0
    rw [Nat.mod_eq_of_lt (by omega)] at h0
    refine ⟨h0, ?_⟩
    intro i h1 hi
    have hs : b._strips[i - 1]? = some (b._strips[i - 1]?.getD []) := by
      rw [List.getElem?_eq_getElem (by omega : i - 1 < b._strips.length)]
      rfl
    have hb1 := htake_le i
    have hb2 := htake_le (i - 1)
    refine ⟨_, _, hget (i - 1) (by omega), hs, ?_⟩
    rw [hget i (by omega), hstep i h1 hi]
    simp only [Option.some.injEq]
    have hb3 := hstep i h1 hi
    omega

/-- C3 as stated fails: in the block of the 2400 by 250 mask, entry 257 is
65372 and strip 257 has 252 bytes, but entry 258 is 88. -/
theorem offsets_accumulate_fails_on_wide_mask :
    ¬ (∀ b, ZPxx.new wideMask 0 = some b →
        ∀ i, 1 ≤ i → i < b._strips.length →
          ∀ prev strip, b._offsets[i - 1]? = some prev → b._strips[i - 1]? = some strip →
            b._offsets[i]? = some (prev + strip.length)) := by
  intro h
  obtain ⟨b, hnew, _, hlen, hoff, _⟩ := ZPxx.new_spec wideMask 0
  have hlen' : b._strips.length = 300 := hlen
  have hw : wideMask.getWidth / 8 = 300 := rfl
  have hL : wideMask.getHeight % 65536 + (wideMask.getHeight % 65536 + 126) / 127 = 252 := rfl
  have h257 : b._offsets[257]? = some 65372 := by
    rw [hoff, ZPxx.buildOffsets_get b._strips 257 (by omega),
      ZPxx.new_sum_take wideMask 0 b hnew 257 (by omega), hlen', hL]
  have h258 : b._offsets[258]? = some 88 := by
    rw [hoff, ZPxx.buildOffsets_get b._strips 258 (by omega),
      ZPxx.new_sum_take wideMask 0 b hnew 258 (by omega), hlen', hL]
  have hlt : 257 < b._strips.length := by omega
  have hs : b._strips[257]? = some b._strips[257] :=
    List.getElem?_eq_getElem hlt
  have hsl : (b._strips[257]).length = 252 := by
    have hm := ZPxx.new_strip_lengths wideMask 0 b hnew
    have hmem : (b._strips[257]).length ∈ b._strips.map List.length :=
      List.mem_map.mpr ⟨_, List.getElem_mem _, rfl⟩
    rw [hm, hL] at hmem
    exact (List.mem_replicate.mp hmem).2
  have hbad := h b hnew 258 (by omega) (by omega) 65372 _ h257 hs
  rw [h258, hsl] at hbad
  simp at hbad

/-- C3 witness: in the block of the 16 by 3 checkerboard (two strips of four
bytes) the block fits 16 bits and the entries are 12 and 12 + 4. -/
theorem offsets_accumulate_witness :
    ∃ b, ZPxx.new (checker 16 3) 0 = some b ∧
      4 + 4 + 2 * b._strips.length + (b._strips.map List.length).sum < 65536 ∧
      b._offsets[0]? = some 12 ∧ b._offsets[1]? = some 16 := by
  obtain ⟨b, hnew, _, _, hexact⟩ := offsets_accumulate (checker 16 3) 0
  have hb : ZPxx.new (checker 16 3) 0
      = some ⟨0, [[3, 85, 170, 85], [3, 85, 170, 85]], [12, 16]⟩ := by decide
  rw [hb] at hnew
  cases hnew
  have hfit : 4 + 4 + 2 * 2 + (4 + 4) < 65536 := by decide
  exact ⟨_, hb, hfit, (hexact hfit).1, by decide⟩

/-- C4 (as amended): for every strip index `i`, the bytes emitted by `write()`
are some bytes `pre`, then strip `i`, then the strips after it, and entry `i`
of the offset table is the length of `pre` reduced modulo `2 ^ 16`; when the
block has fewer than `2 ^ 16` bytes, entry `i` is the length of `pre`, the
byte position of strip `i` counted from the first byte of the tag. -/
theorem offset_entry_is_strip_position (zPlane : ZPlane) (index : Nat) :
    ∃ b, ZPxx.new zPlane index = some b ∧
      ∀ i, i < b._strips.length →
        ∃ offset strip pre, b._offsets[i]? = some offset ∧ b._strips[i]? = some strip ∧
          ZPxx.write b = pre ++ strip ++ (b._strips.drop (i + 1)).flatten ∧
          offset = pre.length % 65536 ∧
          ((ZPxx.write b).length < 65536 → offset = pre.length) := by
  obtain ⟨b, hnew, _, hlen, hoff, _⟩ := ZPxx.new_spec zPlane index
  have hbytes := ZPxx.new_strip_bytes zPlane index b hnew
  refine ⟨b, hnew, ?_⟩
  intro i hi
  have hsplit := ZPxx.write_split b hbytes i hi
  have hol : b._offsets.length = b._strips.length := by
    rw [hoff, ZPxx.buildOffsets_length]
    omega
  have hpre : (ZPxx.headerBytes b ++ (b._strips.take i).flatten).length
      = 4 + 4 + 2 * b._strips.length + ((b._strips.take i).map List.length).sum := by
    rw [List.length_append, ZPxx.headerBytes_length, List.length_flatten, hol]
  have hoffi : b._offsets[i]?
      = some ((ZPxx.headerBytes b ++ (b._strips.take i).flatten).length % 65536) := by
    rw [hpre, hoff]
    exact ZPxx.buildOffsets_get b._strips i (by omega)
  refine ⟨_, _, _, hoffi, List.getElem?_eq_getElem hi, hsplit, rfl, ?_⟩
  intro hsmall
  have hle : (ZPxx.headerBytes b ++ (b._strips.take i).flatten).length ≤ (ZPxx.write b).length := by
    rw [hsplit]
    simp only [List.length_append]
    omega
  exact Nat.mod_eq_of_lt (by omega)

/-- C4 witness: in the block of the 16 by 3 checkerboard, 20 bytes long,
strip 1 starts at byte 16 and entry 1 is 16. -/
theorem offset_entry_is_strip_position_witness :
    ∃ b, ZPxx.new (checker 16 3) 0 = some b ∧ (ZPxx.write b).length < 65536 ∧
      ∃ pre, ZPxx.write b = pre ++ [3, 85, 170, 85] ∧ b._offsets[1]? = some pre.length := by
  obtain ⟨b, hnew, hpos⟩ := offset_entry_is_strip_position (checker 16 3) 0
  have hb : ZPxx.new (checker 16 3) 0
      = some ⟨0, [[3, 85, 170, 85], [3, 85, 170, 85]], [12, 16]⟩ := by decide
  rw [hb] at hnew
  cases hnew
  have hsmall : (ZPxx.write ⟨0, [[3, 85, 170, 85], [3, 85, 170, 85]], [12, 16]⟩).length < 65536 := by
    decide
  obtain ⟨offset, strip, pre, ho, hs, hw, _, hexact⟩ := hpos 1 (by decide)
  have hs' : strip = [3, 85, 170, 85] := by
    have : (some [3, 85, 170, 85] : Option (List Nat)) = some strip := hs
    exact (Option.some.inj this).symm
  subst hs'
  refine ⟨_, hb, hsmall, pre, ?_, ?_⟩
  · rw [hw]
    simp
  · rw [ho, hexact hsmall]

/-- C4 as stated fails: in the block of the 2400 by 250 mask, strip 258 starts
at byte 65624 of the output, and entry 258 of the offset table is 88. -/
theorem offset_entry_wraps_on_wide_mask :
    ¬ (∀ b, ZPxx.new wideMask 0 = some b →
        ∀ i, i < b._strips.length →
          ∀ strip pre, b._strips[i]? = some strip →
            ZPxx.write b = pre ++ strip ++ (b._strips.drop (i + 1)).flatten →
            b._offsets[i]? = some pre.length) := by
  intro h
  obtain ⟨b, hnew, _, hlen, hoff, _⟩ := ZPxx.new_spec wideMask 0
  have hbytes := ZPxx.new_strip_bytes wideMask 0 b hnew
  have hlen' : b._strips.length = 300 := hlen
  have hL : wideMask.getHeight % 65536 + (wideMask.getHeight % 65536 + 126) / 127 = 252 := rfl
  have hlt : 258 < b._strips.length := by omega
  have h258 : b._offsets[258]? = some 88 := by
    rw [hoff, ZPxx.buildOffsets_get b._strips 258 (by omega),
      ZPxx.new_sum_take wideMask 0 b hnew 258 (by omega), hlen', hL]
  have hol : b._offsets.length = 300 := by
    rw [hoff, ZPxx.buildOffsets_length]
    omega
  have hpre : (ZPxx.headerBytes b ++ (b._strips.take 258).flatten).length = 65624 := by
    rw [List.length_append, ZPxx.headerBytes_length, List.length_flatten, hol,
      ZPxx.new_sum_take wideMask 0 b hnew 258 (by omega), hL]
  have hbad := h b hnew 258 hlt _ _ (List.getElem?_eq_getElem hlt)
    (ZPxx.write_split b hbytes 258 hlt)
  rw [h258, hpre] at hbad
  simp at hbad

/-- C9: for every mask of height `h < 65536`, the run-length bytes of every
strip are `h / 127` bytes of value 127 followed by `h % 127` when that is not
zero; every run-length byte is in `1 .. 127` and is followed by that many
literal bytes, the literal bytes of a strip total `h`, and the run-length bytes
of the whole block are a function of the width and the height alone.  For
`h = 300` they are 127, 127, 46. -/
theorem strip_capacity_chunking (zPlane : ZPlane) (index : Nat)
    (hh : zPlane.getHeight < 65536) :
    ∃ b, ZPxx.new zPlane index = some b ∧
      (∀ s ∈ b._strips,
        runLengths 0 s = List.replicate (zPlane.getHeight / 127) 127
          ++ (if zPlane.getHeight % 127 = 0 then [] else [zPlane.getHeight % 127]) ∧
        (∀ c ∈ runLengths 0 s, 1 ≤ c ∧ c ≤ 127) ∧
        runsComplete 0 s = true ∧
        (runLengths 0 s).sum = zPlane.getHeight ∧
        (decodeRows 0 s).length = zPlane.getHeight ∧
        s.length = (runLengths 0 s).length + zPlane.getHeight) ∧
      b._strips.map (runLengths 0)
        = List.replicate (zPlane.getWidth / 8) (chunkSizes zPlane.getHeight) ∧
      (zPlane.getHeight = 300 → ∀ s ∈ b._strips, runLengths 0 s = [127, 127, 46]) := by
  obtain ⟨b, hnew, _, hlen, _, _⟩ := ZPxx.new_spec zPlane index
  have hmod : zPlane.getHeight % 65536 = zPlane.getHeight := Nat.mod_eq_of_lt hh
  have hrun : ∀ s ∈ b._strips, runLengths 0 s = chunkSizes zPlane.getHeight ∧
      runsComplete 0 s = true ∧ (decodeRows 0 s).length = zPlane.getHeight ∧
      s.length = zPlane.getHeight + (zPlane.getHeight + 126) / 127 := by
    intro s hs
    obtain ⟨i, _, hi⟩ := ZPxx.new_strip_mem zPlane index b hnew s hs
    obtain ⟨s', hs', hd, hr, hc, _, hl⟩ := ZPxx.encodeStrip_spec zPlane i
    rw [hi] at hs'
    cases hs'
    rw [hmod] at hr hd hl
    exact ⟨hr, hc, by rw [hd]; simp, hl⟩
  have hsum : (chunkSizes zPlane.getHeight).sum = zPlane.getHeight := by
    unfold chunkSizes
    rw [List.sum_append, List.sum_replicate]
    have := Nat.div_add_mod zPlane.getHeight 127
    split <;> simp <;> omega
  have hcount : (chunkSizes zPlane.getHeight).length = (zPlane.getHeight + 126) / 127 := by
    unfold chunkSizes
    rw [List.length_append, List.length_replicate]
    split <;> simp <;> omega
  refine ⟨b, hnew, ?_, ?_, ?_⟩
  · intro s hs
    obtain ⟨hr, hc, hd, hl⟩ := hrun s hs
    refine ⟨hr, ?_, hc, by rw [hr, hsum], hd, by rw [hr, hcount, hl]; omega⟩
    intro c hcm
    rw [hr] at hcm
    unfold chunkSizes at hcm
    rcases List.mem_append.mp hcm with h1 | h2
    · have := (List.mem_replicate.mp h1).2
      omega
    · split at h2
      · simp at h2
      · have hc' : c = zPlane.getHeight % 127 := by simpa using h2
        have := Nat.mod_lt zPlane.getHeight (by decide : 127 > 0)
        omega
  · rw [List.eq_replicate_iff]
    refine ⟨by simp [hlen], ?_⟩
    intro r hr
    obtain ⟨s, hs, rfl⟩ := List.mem_map.mp hr
    exact (hrun s hs).1
  · intro h300 s hs
    rw [(hrun s hs).1, h300]
    decide

/-- C9 witness: the 8 by 300 checkerboard. -/
theorem strip_capacity_chunking_witness :
    ∃ b, ZPxx.new (checker 8 300) 0 = some b ∧
      ∀ s ∈ b._strips, runLengths 0 s = [127, 127, 46] := by
  obtain ⟨b, hnew, _, _, h300⟩ := strip_capacity_chunking (checker 8 300) 0 (by decide)
  exact ⟨b, hnew, h300 rfl⟩

/-- C10: for every mask with 0/1 pixels and height `h < 65536`, the strips are
those of the column blocks `i = 0, 1, ...` from left to right, and the literal
bytes of strip `i` are, in order, the bytes of the rows `y = 0, 1, ..., h - 1`,
the byte of row `y` being the sum over `k` in `0 .. 7` of
`pixel (8 * i + k, y) * 2 ^ (7 - k)`. -/
theorem literal_byte_bit_packing (zPlane : ZPlane) (index : Nat)
    (hh : zPlane.getHeight < 65536) (hbit : ∀ x y, zPlane.getPixel x y ≤ 1) :
    ∃ b, ZPxx.new zPlane index = some b ∧
      b._strips.length = zPlane.getWidth / 8 ∧
      ∀ i, i < zPlane.getWidth / 8 →
        ∃ strip, b._strips[i]? = some strip ∧
          decodeRows 0 strip = (List.range zPlane.getHeight).map (fun y =>
            ((List.range 8).map (fun k => zPlane.getPixel (8 * i + k) y * 2 ^ (7 - k))).sum) := by
  obtain ⟨b, hnew, _, hlen, _, hget⟩ := ZPxx.new_spec zPlane index
  have hmod : zPlane.getHeight % 65536 = zPlane.getHeight := Nat.mod_eq_of_lt hh
  refine ⟨b, hnew, hlen, ?_⟩
  intro i hi
  obtain ⟨s, hs, hd, _⟩ := ZPxx.encodeStrip_spec zPlane i
  refine ⟨s, by rw [← hget i hi, hs], ?_⟩
  rw [hd, hmod, Nat.sub_self, ← List.range_eq_range']
  apply List.map_congr_left
  intro y _
  exact ZPxx.packByte_eq_sum zPlane i y (fun k _ => hbit _ _)

/-- C10 witness: the 16 by 3 checkerboard. -/
theorem literal_byte_bit_packing_witness :
    ∃ b, ZPxx.new (checker 16 3) 0 = some b ∧
      b._strips.length = (checker 16 3).getWidth / 8 ∧
      ∀ i, i < (checker 16 3).getWidth / 8 →
        ∃ strip, b._strips[i]? = some strip ∧
          decodeRows 0 strip = (List.range (checker 16 3).getHeight).map (fun y =>
            ((List.range 8).map
              (fun k => (checker 16 3).getPixel (8 * i + k) y * 2 ^ (7 - k))).sum) :=
  literal_byte_bit_packing (checker 16 3) 0 (by decide) (fun x y => by
    show (x + y) % 2 ≤ 1
    omega)

/-! ## Lemmas on binding -/

theorem isVerbName_eq_names (objects : List Object) (name : String) :
    isVerbName objects name = (objects.map Object.getName).any (fun n => name == n ++ "_verb") := by
  induction objects with
  | nil => rfl
  | cons o rest ih =>
    simp only [isVerbName] at ih
    simp only [isVerbName, List.any_cons, List.map_cons, ih]

theorem isFree_congr (objects objects' : List Object)
    (h : objects'.map Object.getName = objects.map Object.getName) :
    isFree objects' = isFree objects := by
  funext f
  simp only [isFree, isVerbName_eq_names, h]

theorem attachVerb_none (function : Function) :
    ∀ (objects : List Object) (log : List LogEntry),
      Room.attachVerb function objects log = none ↔ isVerbName objects function.getName = false := by
  intro objects
  induction objects with
  | nil => intro log; simp [Room.attachVerb, isVerbName]
  | cons o rest ih =>
    intro log
    by_cases h : function.getName = o.getName ++ "_verb"
    · simp [Room.attachVerb, isVerbName, h]
    · have e1 : Room.attachVerb function (o :: rest) log = none
          ↔ Room.attachVerb function rest log = none := by
        simp only [Room.attachVerb, h, if_false]
        cases Room.attachVerb function rest log <;> simp
      have e2 : isVerbName (o :: rest) function.getName = isVerbName rest function.getName := by
        simp [isVerbName, h]
      rw [e1, e2]
      exact ih log

theorem attachVerb_fst (function : Function) :
    ∀ (objects : List Object) (log1 log2 : List LogEntry),
      (Room.attachVerb function objects log1).map Prod.fst
        = (Room.attachVerb function objects log2).map Prod.fst := by
  intro objects
  induction objects with
  | nil => intro log1 log2; simp [Room.attachVerb]
  | cons o rest ih =>
    intro log1 log2
    by_cases h : function.getName = o.getName ++ "_verb"
    · simp [Room.attachVerb, h]
    · have ih' := ih log1 log2
      simp only [Room.attachVerb, h, if_false]
      cases h1 : Room.attachVerb function rest log1 with
      | none =>
        cases h2 : Room.attachVerb function rest log2 with
        | none => rfl
        | some r2 => simp [h1, h2] at ih'
      | some r1 =>
        cases h2 : Room.attachVerb function rest log2 with
        | none => simp [h1, h2] at ih'
        | some r2 =>
          simp only [h1, h2, Option.map_some', Option.some.injEq] at ih'
          simp [ih']

/-- Where `attachVerb` stores the function: in the first object named for it;
the other objects are left as they were. -/
theorem attachVerb_some (function : Function) :
    ∀ (objects : List Object) (log : List LogEntry) (objects' : List Object) (log' : List LogEntry),
      Room.attachVerb function objects log = some (objects', log') →
      ∃ k o, objects[k]? = some o ∧ function.getName = o.getName ++ "_verb" ∧
        (∀ j o', j < k → objects[j]? = some o' → function.getName ≠ o'.getName ++ "_verb") ∧
        objects' = objects.set k (o.setFunction function) := by
  intro objects
  induction objects with
  | nil => intro log objects' log' h; simp [Room.attachVerb] at h
  | cons o rest ih =>
    intro log objects' log' h
    by_cases hn : function.getName = o.getName ++ "_verb"
    · simp only [Room.attachVerb, hn, if_true, Option.some.injEq, Prod.mk.injEq] at h
      refine ⟨0, o, by simp, hn, by intro j o' hj; omega, ?_⟩
      rw [← h.1]
      rfl
    · simp only [Room.attachVerb, hn, if_false] at h
      cases hr : Room.attachVerb function rest log with
      | none => simp [hr] at h
      | some r =>
        obtain ⟨objs, l⟩ := r
        simp only [hr, Option.some.injEq, Prod.mk.injEq] at h
        obtain ⟨k, o1, hk, hname, hfirst, hset⟩ := ih log objs l hr
        refine ⟨k + 1, o1, by simpa using hk, hname, ?_, ?_⟩
        · intro j o' hj hjo
          cases j with
          | zero =>
            simp only [List.getElem?_cons_zero, Option.some.injEq] at hjo
            rw [← hjo]
            exact hn
          | succ j =>
            exact hfirst j o' (by omega) (by simpa using hjo)
        · rw [← h.1, hset]
          rfl

theorem bindFunction_core (st1 st2 : ParseState) (function : Function)
    (h : st1.core = st2.core) :
    (Room.bindFunction st1 function).core = (Room.bindFunction st2 function).core := by
  obtain ⟨room1, fe1, fx1, id1, log1⟩ := st1
  obtain ⟨room2, fe2, fx2, id2, log2⟩ := st2
  simp only [ParseState.core, Prod.mk.injEq] at h
  obtain ⟨rfl, rfl, rfl, rfl⟩ := h
  have hv := attachVerb_fst function room1._objects log1 log2
  unfold Room.bindFunction
  by_cases h1 : function.getName = "entry"
  · simp [h1, ParseState.core]
  · by_cases h2 : function.getName = "exit"
    · simp [h1, h2, ParseState.core]
    · simp only [h1, h2, if_false]
      cases ha : Room.attachVerb function room1._objects log1 with
      | none =>
        cases hb : Room.attachVerb function room1._objects log2 with
        | none => by_cases h3 : function.getType = FunctionType.FUNCTION_INLINED <;>
            simp [h3, ParseState.core]
        | some r2 => simp [ha, hb] at hv
      | some r1 =>
        cases hb : Room.attachVerb function room1._objects log2 with
        | none => simp [ha, hb] at hv
        | some r2 =>
          simp only [ha, hb, Option.map_some', Option.some.injEq] at hv
          simp [ParseState.core, hv]

theorem foldl_bind_core (functions : List Function) :
    ∀ st1 st2 : ParseState, st1.core = st2.core →
      (functions.foldl Room.bindFunction st1).core = (functions.foldl Room.bindFunction st2).core := by
  induction functions with
  | nil => intro st1 st2 h; exact h
  | cons f rest ih =>
    intro st1 st2 h
    exact ih _ _ (bindFunction_core st1 st2 f h)

theorem parseScript_some (yyparse : String → ParseResult) (st : ParseState) (script : String)
    (h : (yyparse script).status = 0) :
    ∃ st', Room.parseScript yyparse st script = some st' ∧
      st'.core = ((yyparse script).functions.foldl Room.bindFunction st).core := by
  unfold Room.parseScript
  simp only [h, ne_eq, not_true_eq_false, if_false]
  exact ⟨_, rfl, foldl_bind_core _ _ _ rfl⟩

theorem parseScript_none (yyparse : String → ParseResult) (st : ParseState) (script : String)
    (h : (yyparse script).status ≠ 0) :
    Room.parseScript yyparse st script = none := by
  simp only [Room.parseScript, h, ne_eq, not_false_eq_true, if_true]

theorem parseScripts_some (yyparse : String → ParseResult) (scripts : List String) :
    (∀ s ∈ scripts, (yyparse s).status = 0) →
    ∀ st : ParseState,
      ∃ st', Room.parseScripts yyparse scripts st = some st' ∧
        st'.core = ((scripts.flatMap (fun script => (yyparse script).functions)).foldl
            Room.bindFunction st).core := by
  induction scripts with
  | nil => intro _ st; exact ⟨st, rfl, rfl⟩
  | cons s rest ih =>
    intro hok st
    obtain ⟨st1, h1, c1⟩ := parseScript_some yyparse st s (hok s (List.mem_cons_self _ _))
    obtain ⟨st2, h2, c2⟩ := ih (fun t ht => hok t (List.mem_cons_of_mem _ ht)) st1
    refine ⟨st2, by simp only [Room.parseScripts, h1, h2], ?_⟩
    rw [c2, List.flatMap_cons, List.foldl_append]
    exact foldl_bind_core _ _ _ c1

theorem parseScripts_none (yyparse : String → ParseResult) (scripts : List String) :
    (∃ s ∈ scripts, (yyparse s).status ≠ 0) →
    ∀ st : ParseState, Room.parseScripts yyparse scripts st = none := by
  induction scripts with
  | nil => intro h; obtain ⟨s, hs, _⟩ := h; cases hs
  | cons s rest ih =>
    intro h st
    by_cases h0 : (yyparse s).status = 0
    · obtain ⟨st1, h1, _⟩ := parseScript_some yyparse st s h0
      have hrest : ∃ t ∈ rest, (yyparse t).status ≠ 0 := by
        obtain ⟨t, ht, hne⟩ := h
        rcases List.mem_cons.mp ht with rfl | ht
        · exact absurd h0 hne
        · exact ⟨t, ht, hne⟩
      simp only [Room.parseScripts, h1, ih hrest st1]
    · simp only [Room.parseScripts, parseScript_none yyparse st s h0]

/-- A script on which `yyparse` returns a non-zero status leaves `parse`
without a defined result. -/
theorem parse_undefined (yyparse : String → ParseResult) (room : Room)
    (h : ∃ s ∈ room._scripts, (yyparse s).status ≠ 0) :
    Room.parse yyparse room = none := by
  simp only [Room.parse, parseScripts_none yyparse room._scripts h]

theorem attachVerb_names (function : Function) :
    ∀ (objects : List Object) (log : List LogEntry) (objects' : List Object) (log' : List LogEntry),
      Room.attachVerb function objects log = some (objects', log') →
      objects'.map Object.getName = objects.map Object.getName := by
  intro objects log objects' log' h
  obtain ⟨k, o, hk, _, _, hset⟩ := attachVerb_some function objects log objects' log' h
  rw [hset, List.map_set]
  apply List.ext_getElem?
  intro i
  rw [List.getElem?_set]
  by_cases hik : k = i
  · subst hik
    have hlt : k < objects.length := by
      rcases Nat.lt_or_ge k objects.length with h1 | h1
      · exact h1
      · rw [List.getElem?_eq_none h1] at hk
        cases hk
    have ho : objects[k] = o := by
      have e := List.getElem?_eq_getElem hlt
      rw [e] at hk
      exact Option.some.inj hk
    simp [hlt, ← ho, Object.setFunction]
  · simp [hik]

theorem bindFunction_names (st : ParseState) (function : Function) :
    (Room.bindFunction st function).room._objects.map Object.getName
      = st.room._objects.map Object.getName := by
  unfold Room.bindFunction
  by_cases h1 : function.getName = "entry"
  · simp [h1]
  · by_cases h2 : function.getName = "exit"
    · simp [h1, h2]
    · simp only [h1, h2, if_false]
      cases ha : Room.attachVerb function st.room._objects st.log with
      | none => by_cases h3 : function.getType = FunctionType.FUNCTION_INLINED <;> simp [h3]
      | some r =>
        obtain ⟨objs, l⟩ := r
        exact attachVerb_names function _ _ _ _ ha

theorem isFree_true (objects : List Object) (function : Function)
    (h : isFree objects function = true) :
    function.getName ≠ "entry" ∧ function.getName ≠ "exit" ∧
      isVerbName objects function.getName = false := by
  simpa [isFree, and_assoc] using h

theorem bindFunction_free (st : ParseState) (function : Function)
    (h : isFree st.room._objects function = true) :
    (Room.bindFunction st function).room._functions
        = st.room._functions ++ [if function.getType = FunctionType.FUNCTION_INLINED then function
            else { function with id := some st.id }] ∧
      (Room.bindFunction st function).id
        = (if function.getType = FunctionType.FUNCTION_INLINED then st.id
            else (st.id + 1) % 65536) := by
  obtain ⟨h1, h2, h3⟩ := isFree_true _ _ h
  have ha := (attachVerb_none function st.room._objects st.log).mpr h3
  unfold Room.bindFunction
  by_cases h4 : function.getType = FunctionType.FUNCTION_INLINED <;> simp [h1, h2, ha, h4]

theorem bindFunction_not_free (st : ParseState) (function : Function)
    (h : isFree st.room._objects function = false) :
    (Room.bindFunction st function).room._functions = st.room._functions ∧
      (Room.bindFunction st function).id = st.id := by
  unfold Room.bindFunction
  by_cases h1 : function.getName = "entry"
  · simp [h1]
  · by_cases h2 : function.getName = "exit"
    · simp [h1, h2]
    · simp only [h1, h2, if_false]
      cases ha : Room.attachVerb function st.room._objects st.log with
      | none =>
        have h3 := (attachVerb_none function st.room._objects st.log).mp ha
        simp [isFree, h1, h2, h3] at h
      | some r => simp

theorem notInlinedBefore_append_le (free : List Function) (function : Function) (j : Nat)
    (hj : j ≤ free.length) :
    notInlinedBefore (free ++ [function]) j = notInlinedBefore free j := by
  unfold notInlinedBefore
  rw [List.take_append_of_le_length hj]

theorem notInlinedBefore_snoc (free : List Function) (function : Function) :
    notInlinedBefore (free ++ [function]) (free ++ [function]).length
      = notInlinedBefore free free.length
        + (if function.getType = FunctionType.FUNCTION_INLINED then 0 else 1) := by
  unfold notInlinedBefore
  rw [List.take_length, List.take_length, List.filter_append, List.length_append]
  by_cases h : function.getType = FunctionType.FUNCTION_INLINED <;> simp [h]

/-- The invariant of the binding loop: what `_functions`, the counter and the
object names are after the functions `functions` have been processed. -/
theorem foldl_bind_functions (st : ParseState) (hid : st.id < 65536) (functions : List Function) :
    (functions.foldl Room.bindFunction st).room._objects.map Object.getName
        = st.room._objects.map Object.getName ∧
      (functions.foldl Room.bindFunction st).id
        = (st.id + notInlinedBefore (functions.filter (isFree st.room._objects))
            (functions.filter (isFree st.room._objects)).length) % 65536 ∧
      ∃ pushed, (functions.foldl Room.bindFunction st).room._functions
          = st.room._functions ++ pushed ∧
        pushed.length = (functions.filter (isFree st.room._objects)).length ∧
        ∀ j f, (functions.filter (isFree st.room._objects))[j]? = some f →
          pushed[j]? = some (pushedFunction st.id
            (functions.filter (isFree st.room._objects)) j f) := by
  induction functions using List.reverseRecOn with
  | nil =>
    refine ⟨rfl, ?_, [], by simp, rfl, ?_⟩
    · simp [notInlinedBefore, Nat.mod_eq_of_lt hid]
    · intro j f h
      simp at h
  | append_singleton fs g ih =>
    obtain ⟨hnames, hidv, pushed, hpushed, hlen, hget⟩ := ih
    rw [List.foldl_append, List.foldl_cons, List.foldl_nil, List.filter_append]
    have hfree : isFree (fs.foldl Room.bindFunction st).room._objects g
        = isFree st.room._objects g := by
      rw [isFree_congr _ _ hnames]
    refine ⟨by rw [bindFunction_names, hnames], ?_⟩
    by_cases hg : isFree st.room._objects g = true
    · obtain ⟨hf, hi⟩ := bindFunction_free (fs.foldl Room.bindFunction st) g (by rw [hfree, hg])
      have hfilt : [g].filter (isFree st.room._objects) = [g] := by simp [hg]
      rw [hfilt]
      refine ⟨?_, pushed ++ [pushedFunction st.id (fs.filter (isFree st.room._objects) ++ [g])
        (fs.filter (isFree st.room._objects)).length g], ?_, by simp [hlen], ?_⟩
      · rw [hi, hidv, notInlinedBefore_snoc]
        by_cases h : g.getType = FunctionType.FUNCTION_INLINED
        · simp [h]
        · simp only [h, if_false]
          omega
      · rw [hf, hpushed, List.append_assoc]
        congr 2
        unfold pushedFunction
        by_cases h : g.getType = FunctionType.FUNCTION_INLINED
        · simp [h]
        · simp only [h, if_false]
          rw [hidv, notInlinedBefore_append_le _ _ _ (Nat.le_refl _)]
      · intro j f hjf
        by_cases hj : j < (fs.filter (isFree st.room._objects)).length
        · rw [List.getElem?_append_left hj] at hjf
          rw [List.getElem?_append_left (by omega), hget j f hjf]
          unfold pushedFunction
          rw [notInlinedBefore_append_le _ _ _ (by omega)]
        · have hj' : j = (fs.filter (isFree st.room._objects)).length := by
            rcases Nat.lt_or_ge j ((fs.filter (isFree st.room._objects)).length + 1) with h1 | h1
            · omega
            · rw [List.getElem?_eq_none (by simpa using h1)] at hjf
              cases hjf
          subst hj'
          rw [List.getElem?_append_right (Nat.le_refl _)] at hjf
          simp only [Nat.sub_self, List.getElem?_cons_zero, Option.some.injEq] at hjf
          subst hjf
          rw [List.getElem?_append_right (by omega), hlen]
          simp
    · have hg' : isFree st.room._objects g = false := by simpa using hg
      obtain ⟨hf, hi⟩ := bindFunction_not_free (fs.foldl Room.bindFunction st) g
        (by rw [hfree, hg'])
      have hfilt : [g].filter (isFree st.room._objects) = [] := by simp [hg']
      rw [hfilt, List.append_nil]
      exact ⟨by rw [hi, hidv], pushed, by rw [hf, hpushed], hlen, hget⟩

theorem parse_room (yyparse : String → ParseResult) (room : Room)
    (hok : ∀ s ∈ room._scripts, (yyparse s).status = 0) :
    ∃ r log, Room.parse yyparse room = some (r, log) ∧
      r._functions = (Room.boundState yyparse room).room._functions ∧
      r._objects = (Room.boundState yyparse room).room._objects.map Room.stubVerb ∧
      r._entryFunction
        = (if (Room.boundState yyparse room).foundEntry
            then (Room.boundState yyparse room).room._entryFunction
            else some (emptyFunction "entry")) ∧
      r._exitFunction
        = (if (Room.boundState yyparse room).foundExit
            then (Room.boundState yyparse room).room._exitFunction
            else some (emptyFunction "exit")) := by
  unfold Room.parse
  dsimp only
  generalize hlog : (if room._scripts.isEmpty = true then
      Log.write (Log.write [] LogType.LOG_INFO ("Parsing room \"" ++ room._name ++ "\"...\n"))
        LogType.LOG_WARNING "Couldn't find any local script !\n"
    else Log.write [] LogType.LOG_INFO ("Parsing room \"" ++ room._name ++ "\"...\n")) = log
  obtain ⟨S, hS, hc⟩ := parseScripts_some yyparse room._scripts hok
    { room := room, foundEntry := false, foundExit := false, id := Room.MIN_LOCAL_ID,
      log := log }
  have hB : S.core = (Room.boundState yyparse room).core := by
    rw [hc]
    exact foldl_bind_core _ _ _ rfl
  rw [hS]
  generalize Room.boundState yyparse room = B at hB
  obtain ⟨roomS, feS, fxS, idS, logS⟩ := S
  obtain ⟨roomB, feB, fxB, idB, logB⟩ := B
  simp only [ParseState.core, Prod.mk.injEq] at hB
  obtain ⟨rfl, rfl, rfl, rfl⟩ := hB
  cases feS <;> cases fxS <;> simp [emptyFunction]

/-- A call of `parse` that returns was made on scripts on which `yyparse`
returned 0. -/
theorem parse_defined_ok (yyparse : String → ParseResult) (room : Room)
    (result : Room × List LogEntry) (h : Room.parse yyparse room = some result) :
    ∀ s ∈ room._scripts, (yyparse s).status = 0 := by
  intro s hs
  by_contra hne
  rw [parse_undefined yyparse room ⟨s, hs, hne⟩] at h
  cases h

theorem parse_room_of (yyparse : String → ParseResult) (room r : Room) (log : List LogEntry)
    (hparse : Room.parse yyparse room = some (r, log)) :
    r._functions = (Room.boundState yyparse room).room._functions ∧
      r._objects = (Room.boundState yyparse room).room._objects.map Room.stubVerb ∧
      r._entryFunction
        = (if (Room.boundState yyparse room).foundEntry
            then (Room.boundState yyparse room).room._entryFunction
            else some (emptyFunction "entry")) ∧
      r._exitFunction
        = (if (Room.boundState yyparse room).foundExit
            then (Room.boundState yyparse room).room._exitFunction
            else some (emptyFunction "exit")) := by
  obtain ⟨r', log', h', facts⟩ :=
    parse_room yyparse room (parse_defined_ok yyparse room (r, log) hparse)
  rw [hparse] at h'
  cases h'
  exact facts

/-- When `yyparse` returns 0 on every script, `parse` returns. -/
theorem parse_returns (yyparse : String → ParseResult) (room : Room)
    (hok : ∀ s ∈ room._scripts, (yyparse s).status = 0) :
    ∃ r log, Room.parse yyparse room = some (r, log) := by
  obtain ⟨r, log, hparse, _⟩ := parse_room yyparse room hok
  exact ⟨r, log, hparse⟩

theorem bindFunction_entry_kept (st : ParseState) (function : Function)
    (h : function.getName ≠ "entry") :
    (Room.bindFunction st function).foundEntry = st.foundEntry ∧
      (Room.bindFunction st function).room._entryFunction = st.room._entryFunction := by
  unfold Room.bindFunction
  by_cases h2 : function.getName = "exit"
  · simp [h, h2]
  · simp only [h, h2, if_false]
    cases ha : Room.attachVerb function st.room._objects st.log with
    | none => by_cases h3 : function.getType = FunctionType.FUNCTION_INLINED <;> simp [h3]
    | some r => simp

theorem bindFunction_exit_kept (st : ParseState) (function : Function)
    (h : function.getName ≠ "exit") :
    (Room.bindFunction st function).foundExit = st.foundExit ∧
      (Room.bindFunction st function).room._exitFunction = st.room._exitFunction := by
  unfold Room.bindFunction
  by_cases h1 : function.getName = "entry"
  · simp [h1]
  · simp only [h, h1, if_false]
    cases ha : Room.attachVerb function st.room._objects st.log with
    | none => by_cases h3 : function.getType = FunctionType.FUNCTION_INLINED <;> simp [h3]
    | some r => simp

theorem bindFunction_entry_found (st : ParseState) (function : Function)
    (h : st.foundEntry = true → ∃ f, st.room._entryFunction = some f) :
    (Room.bindFunction st function).foundEntry = true →
      ∃ f, (Room.bindFunction st function).room._entryFunction = some f := by
  by_cases h1 : function.getName = "entry"
  · intro _
    exact ⟨function, by simp [Room.bindFunction, h1]⟩
  · obtain ⟨e1, e2⟩ := bindFunction_entry_kept st function h1
    rw [e1, e2]
    exact h

theorem bindFunction_exit_found (st : ParseState) (function : Function)
    (h : st.foundExit = true → ∃ f, st.room._exitFunction = some f) :
    (Room.bindFunction st function).foundExit = true →
      ∃ f, (Room.bindFunction st function).room._exitFunction = some f := by
  by_cases h1 : function.getName = "exit"
  · intro _
    by_cases h0 : function.getName = "entry"
    · rw [h0] at h1
      exact absurd h1 (by decide)
    · exact ⟨function, by simp [Room.bindFunction, h0, h1]⟩
  · obtain ⟨e1, e2⟩ := bindFunction_exit_kept st function h1
    rw [e1, e2]
    exact h

theorem bindFunction_slot_kept (st : ParseState) (function : Function) (k : Nat) (o : Object)
    (hk : st.room._objects[k]? = some o) (hn : function.getName ≠ o.getName ++ "_verb") :
    (Room.bindFunction st function).room._objects[k]? = some o := by
  unfold Room.bindFunction
  by_cases h1 : function.getName = "entry"
  · simpa [h1] using hk
  · by_cases h2 : function.getName = "exit"
    · simpa [h1, h2] using hk
    · simp only [h1, h2, if_false]
      cases ha : Room.attachVerb function st.room._objects st.log with
      | none =>
        by_cases h3 : function.getType = FunctionType.FUNCTION_INLINED <;> simpa [h3] using hk
      | some r =>
        obtain ⟨objs, l⟩ := r
        obtain ⟨k0, o0, hk0, hname, _, hset⟩ := attachVerb_some function _ _ _ _ ha
        have hne : k0 ≠ k := by
          intro e
          subst e
          rw [hk0] at hk
          cases hk
          exact hn hname
        simp only [hset]
        rw [List.getElem?_set_ne hne]
        exact hk

theorem foldl_bind_entry_kept (functions : List Function) :
    ∀ st : ParseState, (∀ f ∈ functions, f.getName ≠ "entry") →
      (functions.foldl Room.bindFunction st).foundEntry = st.foundEntry ∧
        (functions.foldl Room.bindFunction st).room._entryFunction = st.room._entryFunction := by
  induction functions with
  | nil => intro st _; exact ⟨rfl, rfl⟩
  | cons g rest ih =>
    intro st h
    obtain ⟨e1, e2⟩ := bindFunction_entry_kept st g (h g (by simp))
    obtain ⟨i1, i2⟩ := ih (Room.bindFunction st g) (fun f hf => h f (by simp [hf]))
    exact ⟨by rw [List.foldl_cons, i1, e1], by rw [List.foldl_cons, i2, e2]⟩

theorem foldl_bind_exit_kept (functions : List Function) :
    ∀ st : ParseState, (∀ f ∈ functions, f.getName ≠ "exit") →
      (functions.foldl Room.bindFunction st).foundExit = st.foundExit ∧
        (functions.foldl Room.bindFunction st).room._exitFunction = st.room._exitFunction := by
  induction functions with
  | nil => intro st _; exact ⟨rfl, rfl⟩
  | cons g rest ih =>
    intro st h
    obtain ⟨e1, e2⟩ := bindFunction_exit_kept st g (h g (by simp))
    obtain ⟨i1, i2⟩ := ih (Room.bindFunction st g) (fun f hf => h f (by simp [hf]))
    exact ⟨by rw [List.foldl_cons, i1, e1], by rw [List.foldl_cons, i2, e2]⟩

theorem foldl_bind_found (functions : List Function) :
    ∀ st : ParseState,
      (st.foundEntry = true → ∃ f, st.room._entryFunction = some f) →
      (st.foundExit = true → ∃ f, st.room._exitFunction = some f) →
      ((functions.foldl Room.bindFunction st).foundEntry = true →
        ∃ f, (functions.foldl Room.bindFunction st).room._entryFunction = some f) ∧
      ((functions.foldl Room.bindFunction st).foundExit = true →
        ∃ f, (functions.foldl Room.bindFunction st).room._exitFunction = some f) := by
  induction functions with
  | nil => intro st h1 h2; exact ⟨h1, h2⟩
  | cons g rest ih =>
    intro st h1 h2
    exact ih (Room.bindFunction st g) (bindFunction_entry_found st g h1)
      (bindFunction_exit_found st g h2)

theorem foldl_bind_slot_kept (functions : List Function) :
    ∀ (st : ParseState) (k : Nat) (o : Object), st.room._objects[k]? = some o →
      (∀ f ∈ functions, f.getName ≠ o.getName ++ "_verb") →
      (functions.foldl Room.bindFunction st).room._objects[k]? = some o := by
  induction functions with
  | nil => intro st k o hk _; exact hk
  | cons g rest ih =>
    intro st k o hk h
    exact ih (Room.bindFunction st g) k o
      (bindFunction_slot_kept st g k o hk (h g (by simp))) (fun f hf => h f (by simp [hf]))

theorem notInlinedBefore_succ (free : List Function) (n : Nat) (f : Function)
    (h : free[n]? = some f) :
    notInlinedBefore free (n + 1) = notInlinedBefore free n
      + (if f.getType = FunctionType.FUNCTION_INLINED then 0 else 1) := by
  unfold notInlinedBefore
  rw [List.take_succ, h, List.filter_append, List.length_append]
  by_cases hf : f.getType = FunctionType.FUNCTION_INLINED <;> simp [hf]

theorem notInlinedBefore_mono (free : List Function) (j : Nat) :
    notInlinedBefore free j ≤ notInlinedBefore free free.length := by
  unfold notInlinedBefore
  rw [List.take_length]
  have h : (free.take j).filter (fun f => f.getType != FunctionType.FUNCTION_INLINED)
      = (free.filter (fun f => f.getType != FunctionType.FUNCTION_INLINED)).take
          ((free.take j).filter (fun f => f.getType != FunctionType.FUNCTION_INLINED)).length := by
    have hsub : ((free.take j).filter (fun f => f.getType != FunctionType.FUNCTION_INLINED)).IsPrefix
        (free.filter (fun f => f.getType != FunctionType.FUNCTION_INLINED)) :=
      List.IsPrefix.filter _ (List.take_prefix j free)
    exact (List.prefix_iff_eq_take.mp hsub)
  exact List.IsPrefix.length_le (List.IsPrefix.filter _ (List.take_prefix j free))

/-- The IDs of the pushed functions that are not inlined, over the first `n`
pushed functions, when the counter does not wrap. -/
theorem pushed_ids (free pushed : List Function)
    (hget : ∀ (j : Nat) (f : Function), free[j]? = some f → pushed[j]? = some
      (if f.getType = FunctionType.FUNCTION_INLINED then f
        else { f with id := some (200 + notInlinedBefore free j) })) :
    ∀ n, n ≤ free.length →
      ((pushed.take n).filter (fun f => f.getType != FunctionType.FUNCTION_INLINED)).map
          (fun f => f.id)
        = (List.range' 200 (notInlinedBefore free n)).map some := by
  intro n
  induction n with
  | zero => intro _; simp [notInlinedBefore]
  | succ n ih =>
    intro hn
    have hlt : n < free.length := by omega
    have hf : free[n]? = some free[n] := List.getElem?_eq_getElem hlt
    rw [List.take_succ, hget n _ hf, List.filter_append, List.map_append, ih (by omega),
      notInlinedBefore_succ free n _ hf]
    by_cases hi : free[n].getType = FunctionType.FUNCTION_INLINED
    · simp [hi]
    · simp [hi, List.range'_concat]

theorem verb_name_inj (a b : String) (h : a ++ "_verb" = b ++ "_verb") : a = b := by
  have hd := congrArg String.data h
  simp only [String.data_append] at hd
  exact String.ext (List.append_cancel_right hd)

theorem verb_name_not_reserved (a name : String) (h : name = a ++ "_verb") :
    name ≠ "entry" ∧ name ≠ "exit" := by
  constructor
  · intro e
    rw [e] at h
    have hd := congrArg (fun s : String => s.data.reverse.take 5) h
    simp [String.data_append] at hd
  · intro e
    rw [e] at h
    have hd := congrArg String.length h
    simp [String.length_append] at hd
    have : ("exit" : String).length = 4 := by decide
    have : ("_verb" : String).length = 5 := by decide
    omega

/-- What `parse` appends to `_functions`: one function for each free function,
in processing order, the `j`-th being the `j`-th free function as pushed. -/
theorem parse_pushed (yyparse : String → ParseResult) (room r : Room) (log : List LogEntry)
    (hparse : Room.parse yyparse room = some (r, log)) :
    ∃ pushed, r._functions = room._functions ++ pushed ∧
      pushed.length = (Room.freeFunctions yyparse room).length ∧
      ∀ (j : Nat) (f : Function), (Room.freeFunctions yyparse room)[j]? = some f →
        pushed[j]? = some (pushedFunction 200 (Room.freeFunctions yyparse room) j f) := by
  obtain ⟨_, _, pushed, hp, hl, hg⟩ := foldl_bind_functions (Room.initialState room)
    (by decide : Room.MIN_LOCAL_ID < 65536) (Room.parsedFunctions yyparse room)
  exact ⟨pushed, by rw [(parse_room_of yyparse room r log hparse).1]; exact hp, hl, hg⟩

/-! ## Binding: main results -/

/-- C5 (as amended): `parse` returns when `yyparse` returns 0 on every script,
and whenever it returns it has appended the free functions to `_functions` in
processing order; an inlined one is appended unchanged (no ID, no counter
value used) and the `k`-th (0-based) one that is not inlined gets the ID
`(200 + k) mod 2 ^ 16`.  When at most 65336 free functions are not inlined,
that ID is `200 + k`, so the IDs assigned are `200, 201, ...` in processing
order: unique, strictly increasing and all at least 200. -/
theorem local_function_ids (yyparse : String → ParseResult) (room : Room) :
    ((∀ s ∈ room._scripts, (yyparse s).status = 0) →
      ∃ r log, Room.parse yyparse room = some (r, log)) ∧
    ∀ (r : Room) (log : List LogEntry), Room.parse yyparse room = some (r, log) →
    ∃ pushed, r._functions = room._functions ++ pushed ∧
      pushed.length = (Room.freeFunctions yyparse room).length ∧
      (∀ (j : Nat) (f : Function), (Room.freeFunctions yyparse room)[j]? = some f →
        pushed[j]? = some
          (if f.getType = FunctionType.FUNCTION_INLINED then f
            else { f with
              id := some ((200 + notInlinedBefore (Room.freeFunctions yyparse room) j) % 65536) })) ∧
      (notInlinedBefore (Room.freeFunctions yyparse room)
          (Room.freeFunctions yyparse room).length ≤ 65336 →
        (∀ (j : Nat) (f : Function), (Room.freeFunctions yyparse room)[j]? = some f →
          pushed[j]? = some
            (if f.getType = FunctionType.FUNCTION_INLINED then f
              else { f with
                id := some (200 + notInlinedBefore (Room.freeFunctions yyparse room) j) })) ∧
        ∃ ids : List Nat,
          (pushed.filter (fun f => f.getType != FunctionType.FUNCTION_INLINED)).map
              (fun f => f.id) = ids.map some ∧
            ids = List.range' 200 (notInlinedBefore (Room.freeFunctions yyparse room)
              (Room.freeFunctions yyparse room).length) ∧
            ids.Pairwise (fun a b => a < b) ∧ ids.Nodup ∧ ∀ i ∈ ids, 200 ≤ i) := by
  refine ⟨parse_returns yyparse room, ?_⟩
  intro r log hparse
  obtain ⟨pushed, hp, hl, hg⟩ := parse_pushed yyparse room r log hparse
  refine ⟨pushed, hp, hl, hg, ?_⟩
  intro hsmall
  have hexact : ∀ (j : Nat) (f : Function), (Room.freeFunctions yyparse room)[j]? = some f →
      pushed[j]? = some
        (if f.getType = FunctionType.FUNCTION_INLINED then f
          else { f with
            id := some (200 + notInlinedBefore (Room.freeFunctions yyparse room) j) }) := by
    intro j f hjf
    rw [hg j f hjf]
    unfold pushedFunction
    by_cases hi : f.getType = FunctionType.FUNCTION_INLINED
    · simp [hi]
    · have hjl : j < (Room.freeFunctions yyparse room).length := by
        rcases Nat.lt_or_ge j (Room.freeFunctions yyparse room).length with h1 | h1
        · exact h1
        · rw [List.getElem?_eq_none h1] at hjf
          cases hjf
      have h1 := notInlinedBefore_succ _ j f hjf
      have h2 := notInlinedBefore_mono (Room.freeFunctions yyparse room) (j + 1)
      simp only [hi, if_false] at h1
      have h3 : (200 + notInlinedBefore (Room.freeFunctions yyparse room) j) % 65536
          = 200 + notInlinedBefore (Room.freeFunctions yyparse room) j :=
        Nat.mod_eq_of_lt (by omega)
      simp only [hi, if_false, h3]
  refine ⟨hexact, _, ?_, rfl, List.pairwise_lt_range' _ _, List.nodup_range' _ _, ?_⟩
  · have h := pushed_ids _ pushed hexact (Room.freeFunctions yyparse room).length (Nat.le_refl _)
    rw [← hl, List.take_length] at h
    rw [h, hl]
  · intro i hi
    exact (List.mem_range'_1.mp hi).1

/-- C5 witness: a script with the functions `a`, `b` (inlined) and `c`, on
which `yyparse` returns 0; `parse` returns, `a` gets 200, `b` stays without ID
and `c` gets 201. -/
theorem local_function_ids_witness :
    ∃ r log, Room.parse (fun _ => threeFunctions) (emptyRoom ["s"] []) = some (r, log) ∧
      r._functions.map (fun f => f.id) = [some 200, none, some 201] := by
  obtain ⟨r, log, hparse⟩ :=
    (local_function_ids (fun _ => threeFunctions) (emptyRoom ["s"] [])).1 (fun _ _ => rfl)
  have hd : (Room.parse (fun _ => threeFunctions) (emptyRoom ["s"] [])).map
      (fun p => p.1._functions.map (fun f => f.id)) = some [some 200, none, some 201] := by
    decide
  rw [hparse] at hd
  exact ⟨r, log, hparse, by simpa using hd⟩

/-- C5 as stated fails: in a room whose script holds 65337 normal free
functions and on which `yyparse` returns 0, `parse` returns and the last
function has the ID 0, which is below 200. -/
theorem local_function_ids_wrap :
    ∃ r log, Room.parse (fun _ => manyFunctions) (emptyRoom ["s"] []) = some (r, log) ∧
      ¬ (∀ g ∈ r._functions, ∀ i, g.id = some i → 200 ≤ i) := by
  obtain ⟨r, log, hparse⟩ :=
    parse_returns (fun _ => manyFunctions) (emptyRoom ["s"] []) (fun _ _ => rfl)
  obtain ⟨pushed, hp, _, hg⟩ :=
    parse_pushed (fun _ => manyFunctions) (emptyRoom ["s"] []) r log hparse
  refine ⟨r, log, hparse, ?_⟩
  intro h
  have hfree : Room.freeFunctions (fun _ => manyFunctions) (emptyRoom ["s"] [])
      = List.replicate manyCount (Function.new FunctionType.FUNCTION_NORMAL "f"
          { statements := [] }) := by
    have hpf : Room.parsedFunctions (fun _ => manyFunctions) (emptyRoom ["s"] [])
        = List.replicate manyCount (Function.new FunctionType.FUNCTION_NORMAL "f"
            { statements := [] }) := by
      simp [Room.parsedFunctions, emptyRoom, manyFunctions]
    unfold Room.freeFunctions
    rw [hpf, List.filter_eq_self]
    intro a ha
    rw [(List.mem_replicate.mp ha).2]
    decide
  have hcount : notInlinedBefore (List.replicate manyCount
      (Function.new FunctionType.FUNCTION_NORMAL "f" { statements := [] })) 65336 = 65336 := by
    unfold notInlinedBefore
    rw [List.take_replicate, List.filter_eq_self.mpr, List.length_replicate]
    · decide
    · intro a ha
      rw [(List.mem_replicate.mp ha).2]
      decide
  have hlast := hg 65336 (Function.new FunctionType.FUNCTION_NORMAL "f" { statements := [] })
    (by rw [hfree, List.getElem?_replicate]; simp [manyCount])
  rw [hfree] at hlast
  unfold pushedFunction at hlast
  rw [hcount] at hlast
  have hmem : ({ (Function.new FunctionType.FUNCTION_NORMAL "f" { statements := [] }) with
      id := some ((200 + 65336) % 65536) } : Function)
        ∈ r._functions := by
    rw [hp]
    apply List.mem_append_right
    have hm := List.getElem?_mem hlast
    simpa [Function.new] using hm
  have hbad := h _ hmem 0 rfl
  omega

/-- C6, the code at the failing input: for a room whose only script declares
an inlined function `entry`, `parse` logs the error, returns with that function
bound as the entry function, and `compile` then compiles it. -/
theorem inlined_entry_is_bound_and_compiled :
    ∃ r log, Room.parse (fun _ => { status := 0, functions := [inlinedEntry] })
        (emptyRoom ["room.sgc"] []) = some (r, log) ∧
      ({ type := LogType.LOG_ERROR, message := "Function \"entry\" can't be inlined !\n" }
        : LogEntry) ∈ log ∧
      r._entryFunction = some inlinedEntry ∧
      (Room.compile r { contexts := [], compiled := [] }).map (fun st => st.compiled)
        = some [inlinedEntry, emptyFunction "exit"] := by
  refine ⟨_, _, rfl, ?_, ?_, ?_⟩ <;> decide

/-- The step of the binding loop on a function named for an object: it is
stored in the slot of the first object of that name, and nothing else moves. -/
theorem bindFunction_verb (st : ParseState) (f : Function) (o : Object)
    (ho : o ∈ st.room._objects) (hname : f.getName = o.getName ++ "_verb") :
    ∃ (k : Nat) (o' : Object), st.room._objects[k]? = some o' ∧ o'.getName = o.getName ∧
      (∀ (j : Nat) (o'' : Object), j < k → st.room._objects[j]? = some o'' →
        o''.getName ≠ o.getName) ∧
      (Room.bindFunction st f).room._objects
        = st.room._objects.set k { getName := o'.getName, getFunction := some f } ∧
      (Room.bindFunction st f).room._functions = st.room._functions ∧
      (Room.bindFunction st f).room._entryFunction = st.room._entryFunction ∧
      (Room.bindFunction st f).room._exitFunction = st.room._exitFunction := by
  obtain ⟨h1, h2⟩ := verb_name_not_reserved o.getName f.getName hname
  have hv : isVerbName st.room._objects f.getName = true := by
    simp only [isVerbName, List.any_eq_true]
    exact ⟨o, ho, by simp [hname]⟩
  cases ha : Room.attachVerb f st.room._objects st.log with
  | none =>
    rw [(attachVerb_none f st.room._objects st.log).mp ha] at hv
    cases hv
  | some r =>
    obtain ⟨objs, l⟩ := r
    obtain ⟨k, o', hk, hn, hfirst, hset⟩ := attachVerb_some f _ _ _ _ ha
    have hsame : o'.getName = o.getName := verb_name_inj _ _ (by rw [← hn, hname])
    refine ⟨k, o', hk, hsame, ?_, ?_, ?_, ?_, ?_⟩
    · intro j o'' hj hjo he
      exact hfirst j o'' hj hjo (by rw [he, hname])
    · simp only [Room.bindFunction, h1, h2, if_false, ha, hset]
      rfl
    · simp only [Room.bindFunction, h1, h2, if_false, ha]
    · simp only [Room.bindFunction, h1, h2, if_false, ha]
    · simp only [Room.bindFunction, h1, h2, if_false, ha]

theorem names_getElem? (objects objects' : List Object)
    (h : objects'.map Object.getName = objects.map Object.getName) (k : Nat) (o : Object)
    (hk : objects[k]? = some o) : ∃ o', objects'[k]? = some o' ∧ o'.getName = o.getName := by
  have e := congrArg (fun l : List String => l[k]?) h
  simp only [List.getElem?_map, hk, Option.map_some'] at e
  cases ho : objects'[k]? with
  | none => simp [ho] at e
  | some o' =>
    simp only [ho, Option.map_some', Option.some.injEq] at e
    exact ⟨o', rfl, e⟩

/-- The last function named `entry` is the entry function after `parse`. -/
theorem parse_last_entry (yyparse : String → ParseResult) (room r : Room) (log : List LogEntry)
    (hparse : Room.parse yyparse room = some (r, log))
    (before after : List Function) (f : Function)
    (hsplit : Room.parsedFunctions yyparse room = before ++ f :: after)
    (hf : f.getName = "entry") (hlast : ∀ g ∈ after, g.getName ≠ "entry") :
    r._entryFunction = some f := by
  have hb : Room.boundState yyparse room
      = after.foldl Room.bindFunction
          (Room.bindFunction (before.foldl Room.bindFunction (Room.initialState room)) f) := by
    unfold Room.boundState
    rw [hsplit, List.foldl_append, List.foldl_cons]
  obtain ⟨e1, e2⟩ := foldl_bind_entry_kept after
    (Room.bindFunction (before.foldl Room.bindFunction (Room.initialState room)) f) hlast
  rw [(parse_room_of yyparse room r log hparse).2.2.1, hb, e1, e2]
  simp [Room.bindFunction, hf]

/-- The last function named `exit` is the exit function after `parse`. -/
theorem parse_last_exit (yyparse : String → ParseResult) (room r : Room) (log : List LogEntry)
    (hparse : Room.parse yyparse room = some (r, log))
    (before after : List Function) (f : Function)
    (hsplit : Room.parsedFunctions yyparse room = before ++ f :: after)
    (hf : f.getName = "exit") (hlast : ∀ g ∈ after, g.getName ≠ "exit") :
    r._exitFunction = some f := by
  have hb : Room.boundState yyparse room
      = after.foldl Room.bindFunction
          (Room.bindFunction (before.foldl Room.bindFunction (Room.initialState room)) f) := by
    unfold Room.boundState
    rw [hsplit, List.foldl_append, List.foldl_cons]
  obtain ⟨e1, e2⟩ := foldl_bind_exit_kept after
    (Room.bindFunction (before.foldl Room.bindFunction (Room.initialState room)) f) hlast
  have h0 : f.getName ≠ "entry" := by rw [hf]; decide
  rw [(parse_room_of yyparse room r log hparse).2.2.2, hb, e1, e2]
  simp [Room.bindFunction, hf, h0]

/-- The last function named for the first object of a name is in that
object's slot after `parse`. -/
theorem parse_last_verb (yyparse : String → ParseResult) (room r : Room) (log : List LogEntry)
    (hparse : Room.parse yyparse room = some (r, log))
    (before after : List Function) (f : Function) (k : Nat) (o : Object)
    (hsplit : Room.parsedFunctions yyparse room = before ++ f :: after)
    (hk : room._objects[k]? = some o)
    (hfirst : ∀ (j : Nat) (o' : Object), j < k → room._objects[j]? = some o' →
      o'.getName ≠ o.getName)
    (hf : f.getName = o.getName ++ "_verb")
    (hlast : ∀ g ∈ after, g.getName ≠ o.getName ++ "_verb") :
    r._objects[k]?
      = some { getName := o.getName, getFunction := some f } := by
  have hb : Room.boundState yyparse room
      = after.foldl Room.bindFunction
          (Room.bindFunction (before.foldl Room.bindFunction (Room.initialState room)) f) := by
    unfold Room.boundState
    rw [hsplit, List.foldl_append, List.foldl_cons]
  have hnames : (before.foldl Room.bindFunction (Room.initialState room)).room._objects.map
      Object.getName = room._objects.map Object.getName :=
    (foldl_bind_functions (Room.initialState room) (by decide : Room.MIN_LOCAL_ID < 65536)
      before).1
  obtain ⟨o1, hk1, hn1⟩ := names_getElem? _ _ hnames k o hk
  obtain ⟨k', o', hk', hn', hfirst', hset, _⟩ :=
    bindFunction_verb (before.foldl Room.bindFunction (Room.initialState room)) f o1
      (List.getElem?_mem hk1) (by rw [hf, hn1])
  have hkk : k' = k := by
    rcases Nat.lt_trichotomy k' k with hlt | heq | hgt
    · have hlen : k' < room._objects.length := by
        have := (List.getElem?_eq_some.mp hk).1
        omega
      obtain ⟨o2, ho2, hn2⟩ := names_getElem? _ _ hnames.symm k' o' hk'
      exact absurd (by rw [hn2, hn', hn1]) (hfirst k' o2 hlt ho2)
    · exact heq
    · exact absurd rfl (hfirst' k o1 hgt hk1)
  subst hkk
  have hstored : (Room.bindFunction
      (before.foldl Room.bindFunction (Room.initialState room)) f).room._objects[k']?
        = some { getName := o.getName, getFunction := some f } := by
    rw [hset, List.getElem?_set_self (List.getElem?_eq_some.mp hk').1, hn', hn1]
  have hkept := foldl_bind_slot_kept after _ k' _ hstored hlast
  rw [(parse_room_of yyparse room r log hparse).2.1, hb, List.getElem?_map, hkept]
  rfl

/-- C8: the binding loop classifies a parsed function by its name.  A function
named `entry` becomes the entry function, one named `exit` the exit function,
one named `<object-name>_verb` for an object of the room is stored in the slot
of the first object of that name; none of these touches the list of free
functions.  `parse` returns when `yyparse` returns 0 on every script, and
whenever it returns the last function named `entry` (`exit`) is the
entry (exit) function, the last function named for an object is in the slot of
the first object of that name, and the functions appended to the list of free
functions are the remaining functions in processing order (each as parsed, up
to the ID it is given).  With the objects `door` and `window` and a script
defining `door_verb`, `window_verb` and `entry`, both slots hold the script's
functions, the list of free functions is empty and `entry` is the entry
function. -/
theorem binding_classifies_by_name :
    (∀ (st : ParseState) (f : Function), f.getName = "entry" →
      (Room.bindFunction st f).room._entryFunction = some f ∧
      (Room.bindFunction st f).room._functions = st.room._functions ∧
      (Room.bindFunction st f).room._objects = st.room._objects ∧
      (Room.bindFunction st f).room._exitFunction = st.room._exitFunction) ∧
    (∀ (st : ParseState) (f : Function), f.getName = "exit" →
      (Room.bindFunction st f).room._exitFunction = some f ∧
      (Room.bindFunction st f).room._functions = st.room._functions ∧
      (Room.bindFunction st f).room._objects = st.room._objects ∧
      (Room.bindFunction st f).room._entryFunction = st.room._entryFunction) ∧
    (∀ (st : ParseState) (f : Function) (o : Object), o ∈ st.room._objects →
      f.getName = o.getName ++ "_verb" →
      ∃ (k : Nat) (o' : Object), st.room._objects[k]? = some o' ∧ o'.getName = o.getName ∧
        (∀ (j : Nat) (o'' : Object), j < k → st.room._objects[j]? = some o'' →
          o''.getName ≠ o.getName) ∧
        (Room.bindFunction st f).room._objects
          = st.room._objects.set k { getName := o'.getName, getFunction := some f } ∧
        (Room.bindFunction st f).room._functions = st.room._functions ∧
        (Room.bindFunction st f).room._entryFunction = st.room._entryFunction ∧
        (Room.bindFunction st f).room._exitFunction = st.room._exitFunction) ∧
    (∀ (yyparse : String → ParseResult) (room : Room),
      ((∀ s ∈ room._scripts, (yyparse s).status = 0) →
        ∃ r log, Room.parse yyparse room = some (r, log)) ∧
      ∀ (r : Room) (log : List LogEntry), Room.parse yyparse room = some (r, log) →
        (∀ (before after : List Function) (f : Function),
          Room.parsedFunctions yyparse room = before ++ f :: after →
          (f.getName = "entry" → (∀ g ∈ after, g.getName ≠ "entry") →
            r._entryFunction = some f) ∧
          (f.getName = "exit" → (∀ g ∈ after, g.getName ≠ "exit") →
            r._exitFunction = some f) ∧
          (∀ (k : Nat) (o : Object), room._objects[k]? = some o →
            (∀ (j : Nat) (o' : Object), j < k → room._objects[j]? = some o' →
              o'.getName ≠ o.getName) →
            f.getName = o.getName ++ "_verb" →
            (∀ g ∈ after, g.getName ≠ o.getName ++ "_verb") →
            r._objects[k]? = some { getName := o.getName, getFunction := some f })) ∧
        ∃ pushed, r._functions = room._functions ++ pushed ∧
          pushed.map (fun f => { f with id := none })
            = ((Room.parsedFunctions yyparse room).filter (fun f =>
                f.getName != "entry" && f.getName != "exit"
                  && !room._objects.any (fun o => f.getName == o.getName ++ "_verb"))).map
                (fun f => { f with id := none })) ∧
    (Room.parse (fun _ => doorWindowScript)
        (emptyRoom ["s"] [{ getName := "door", getFunction := none },
          { getName := "window", getFunction := none }])).map Prod.fst
      = some
        { _name := "room", _scripts := ["s"], _declarations := [],
          _objects := [
            { getName := "door", getFunction :=
                some (Function.new FunctionType.FUNCTION_NORMAL "door_verb" { statements := [1] }) },
            { getName := "window", getFunction :=
                some (Function.new FunctionType.FUNCTION_NORMAL "window_verb" { statements := [2] }) }],
          _functions := [],
          _entryFunction :=
            some (Function.new FunctionType.FUNCTION_NORMAL "entry" { statements := [3] }),
          _exitFunction := some (emptyFunction "exit") } := by
  refine ⟨?_, ?_, ?_, ?_, by decide⟩
  · intro st f h
    simp [Room.bindFunction, h]
  · intro st f h
    have h0 : f.getName ≠ "entry" := by rw [h]; decide
    simp [Room.bindFunction, h, h0]
  · intro st f o ho hname
    exact bindFunction_verb st f o ho hname
  · intro yyparse room
    refine ⟨parse_returns yyparse room, ?_⟩
    intro r log hparse
    obtain ⟨pushed, hp, hl, hg⟩ := parse_pushed yyparse room r log hparse
    refine ⟨?_, pushed, hp, ?_⟩
    · intro before after f hsplit
      exact ⟨parse_last_entry yyparse room r log hparse before after f hsplit,
        parse_last_exit yyparse room r log hparse before after f hsplit,
        fun k o hk hfirst hf hlast =>
          parse_last_verb yyparse room r log hparse before after f k o hsplit hk hfirst hf hlast⟩
    apply List.ext_getElem?
    intro j
    rw [List.getElem?_map, List.getElem?_map]
    have hfree : (Room.parsedFunctions yyparse room).filter (fun f =>
        f.getName != "entry" && f.getName != "exit"
          && !room._objects.any (fun o => f.getName == o.getName ++ "_verb"))
        = Room.freeFunctions yyparse room := rfl
    rw [hfree]
    cases hj : (Room.freeFunctions yyparse room)[j]? with
    | none =>
      have h1 := List.getElem?_eq_none_iff.mp hj
      rw [List.getElem?_eq_none_iff.mpr (by omega)]
    | some f =>
      rw [hg j f hj]
      unfold pushedFunction
      by_cases hi : f.getType = FunctionType.FUNCTION_INLINED <;> simp [hi]

/-! ## The mask block: offsets count, reads, ignored columns -/

namespace ZPxx

theorem literalRowsCounters_eq :
    ∀ (n h : Nat), n ≤ h → h < 65536 →
      literalRowsCounters n h = (List.range n).map (fun t => h - t) := by
  intro n
  induction n with
  | zero => intro h _ _; rfl
  | succ n ih =>
    intro h hn hlt
    have e1 : (h + 65535) % 65536 = h - 1 := by omega
    rw [literalRowsCounters, e1, ih (h - 1) (by omega) (by omega), List.range_succ_eq_map]
    simp only [List.map_cons, List.map_map, Nat.sub_zero]
    refine congrArg (List.cons h) ?_
    apply List.map_congr_left
    intro t _
    simp only [Function.comp]
    omega

theorem encodeRunsCounters_eq (zPlane : ZPlane) (i : Nat) :
    ∀ (fuel h : Nat), h ≤ fuel → h ≤ zPlane.getHeight → h < 65536 →
      encodeRunsCounters zPlane i fuel h = (List.range h).map (fun t => h - t) := by
  intro fuel
  induction fuel with
  | zero =>
    intro h hf _ _
    have h0 : h = 0 := by omega
    subst h0
    rfl
  | succ fuel ih =>
    intro h hf hH hlt
    by_cases h0 : h = 0
    · subst h0
      simp [encodeRunsCounters]
    · have hpos : 0 < h := Nat.pos_of_ne_zero h0
      obtain ⟨n, hn⟩ : ∃ n, n = (if h > 127 then 127 else h) := ⟨_, rfl⟩
      have hn1 : 1 ≤ n := by rw [hn]; split <;> omega
      have hn2 : n ≤ h := by rw [hn]; split <;> omega
      have hn3 : n ≤ 127 := by rw [hn]; split <;> omega
      have hmod : n % 256 = n := by omega
      rw [encodeRunsCounters, if_pos hpos]
      simp only [MAX_BYTES, ← hn, hmod]
      rw [literalRows_eq zPlane i n h _ hn2 hH hlt, literalRowsCounters_eq n h hn2 hlt,
        ih (h - n) (by omega) (by omega) (by omega)]
      have hsplit : List.range h = List.range n ++ (List.range (h - n)).map (fun t => n + t) := by
        rw [← List.range_add]
        congr 1
        omega
      rw [hsplit, List.map_append, List.map_map]
      refine congrArg (List.append _) ?_
      apply List.map_congr_left
      intro t _
      simp only [Function.comp]
      omega

theorem stripCounters_eq (zPlane : ZPlane) (i : Nat) (hh : zPlane.getHeight < 65536) :
    stripCounters zPlane i
      = (List.range zPlane.getHeight).map (fun t => zPlane.getHeight - t) := by
  have hmod : zPlane.getHeight % 65536 = zPlane.getHeight := Nat.mod_eq_of_lt hh
  unfold stripCounters
  rw [hmod]
  exact encodeRunsCounters_eq zPlane i _ _ (Nat.le_refl _) (Nat.le_refl _) hh

end ZPxx

namespace ZPxx

theorem packByte_congr (zPlane zPlane' : ZPlane) (i y : Nat)
    (h : ∀ k, k < 8 → zPlane.getPixel (i * 8 + k) y = zPlane'.getPixel (i * 8 + k) y) :
    packByte zPlane i y = packByte zPlane' i y := by
  simp only [packByte, STRIP_WIDTH, List.range, List.range.loop, List.foldl]
  rw [h 0 (by omega), h 1 (by omega), h 2 (by omega), h 3 (by omega), h 4 (by omega),
    h 5 (by omega), h 6 (by omega), h 7 (by omega)]

theorem encodeRuns_congr (zPlane zPlane' : ZPlane) (i : Nat)
    (hh : zPlane.getHeight = zPlane'.getHeight)
    (hrow : ∀ y, y < zPlane.getHeight → packByte zPlane i y = packByte zPlane' i y) :
    ∀ (fuel h : Nat) (strip : List Nat), h ≤ zPlane.getHeight → h < 65536 →
      encodeRuns zPlane i fuel h strip = encodeRuns zPlane' i fuel h strip := by
  intro fuel
  induction fuel with
  | zero => intro h strip _ _; rfl
  | succ fuel ih =>
    intro h strip hH hlt
    by_cases h0 : h = 0
    · subst h0
      simp [encodeRuns]
    · have hpos : 0 < h := Nat.pos_of_ne_zero h0
      obtain ⟨n, hn⟩ : ∃ n, n = (if h > 127 then 127 else h) := ⟨_, rfl⟩
      have hn1 : 1 ≤ n := by rw [hn]; split <;> omega
      have hn2 : n ≤ h := by rw [hn]; split <;> omega
      have hn3 : n ≤ 127 := by rw [hn]; split <;> omega
      have hmod : n % 256 = n := by omega
      have hrows : (List.range' (zPlane.getHeight - h) n).map (packByte zPlane i)
          = (List.range' (zPlane.getHeight - h) n).map (packByte zPlane' i) := by
        apply List.map_congr_left
        intro y hy
        have hy' := List.mem_range'_1.mp hy
        exact hrow y (by omega)
      rw [encodeRuns, encodeRuns, if_pos hpos, if_pos hpos]
      simp only [MAX_BYTES, ← hn, hmod]
      rw [literalRows_eq zPlane i n h _ hn2 hH hlt,
        literalRows_eq zPlane' i n h _ hn2 (by omega) hlt, ← hh, hrows]
      exact ih (h - n) _ (by omega) (by omega)

theorem encodeStrip_congr (zPlane zPlane' : ZPlane) (i : Nat)
    (hh : zPlane.getHeight = zPlane'.getHeight)
    (hpix : ∀ k y, k < 8 → y < zPlane.getHeight →
      zPlane.getPixel (i * 8 + k) y = zPlane'.getPixel (i * 8 + k) y) :
    encodeStrip zPlane i = encodeStrip zPlane' i := by
  unfold encodeStrip
  rw [← hh]
  exact encodeRuns_congr zPlane zPlane' i hh
    (fun y hy => packByte_congr zPlane zPlane' i y (fun k hk => hpix k y hk hy))
    _ _ _ (Nat.mod_le _ _) (Nat.mod_lt _ (by decide))

theorem encodeStrips_congr (zPlane zPlane' : ZPlane)
    (hh : zPlane.getHeight = zPlane'.getHeight) :
    ∀ n : Nat, (∀ x y, x < 8 * n → y < zPlane.getHeight →
        zPlane.getPixel x y = zPlane'.getPixel x y) →
      encodeStrips zPlane n = encodeStrips zPlane' n := by
  intro n
  induction n with
  | zero => intro _; rfl
  | succ n ih =>
    intro hpix
    rw [encodeStrips, encodeStrips, ih (fun x y hx hy => hpix x y (by omega) hy),
      encodeStrip_congr zPlane zPlane' n hh (fun k y hk hy => hpix _ y (by omega) hy)]

end ZPxx

/-- C15, the code at the failing input: the block of a 7 by 3 mask has no strip
but an offset table of one entry, of value 8, and a size of 10 bytes; in
general the table has `n` entries when there are `n ≥ 1` strips and one entry
when there is none. -/
theorem offset_table_has_an_entry_without_strip :
    (∃ b, ZPxx.new narrowMask 0 = some b ∧ b._strips = [] ∧ b._offsets = [8] ∧
      ZPxx.getSize b = 10) ∧
    ∀ (zPlane : ZPlane) (index : Nat), ∃ b, ZPxx.new zPlane index = some b ∧
      b._strips.length = zPlane.getWidth / 8 ∧
      b._offsets.length = (if b._strips.length = 0 then 1 else b._strips.length) := by
  refine ⟨⟨⟨0, [], [8]⟩, by decide, rfl, rfl, by decide⟩, ?_⟩
  intro zPlane index
  obtain ⟨b, hnew, _, hlen, hoff, _⟩ := ZPxx.new_spec zPlane index
  refine ⟨b, hnew, hlen, ?_⟩
  rw [hoff, ZPxx.buildOffsets_length]
  split <;> omega

/-- C19: for every mask of height `h < 65536` and every strip `i`, each call
`getPixel(x, y)` of the encoder has `x < getWidth` and `y < getHeight`; the row
counter is at least 1 whenever it is decremented (so `h--` never wraps) and at
most `h`; the body of the inner loop runs exactly `h` times per strip, and the
strip built holds exactly the `h` literal bytes packed at those reads. -/
theorem pixel_reads_inside_mask (zPlane : ZPlane) (index : Nat)
    (hh : zPlane.getHeight < 65536) :
    ∃ b, ZPxx.new zPlane index = some b ∧ b._strips.length = zPlane.getWidth / 8 ∧
      ∀ i, i < zPlane.getWidth / 8 →
        (∀ p ∈ ZPxx.pixelReads zPlane i, p.1 < zPlane.getWidth ∧ p.2 < zPlane.getHeight) ∧
        (∀ h ∈ ZPxx.stripCounters zPlane i,
          1 ≤ h ∧ h ≤ zPlane.getHeight ∧ (h + 65535) % 65536 = h - 1) ∧
        (ZPxx.stripCounters zPlane i).length = zPlane.getHeight ∧
        (ZPxx.pixelReads zPlane i).length = 8 * zPlane.getHeight ∧
        ∃ strip, b._strips[i]? = some strip ∧
          decodeRows 0 strip = (ZPxx.stripCounters zPlane i).map
            (fun h => ZPxx.packByte zPlane i (zPlane.getHeight - h)) ∧
          (decodeRows 0 strip).length = zPlane.getHeight := by
  obtain ⟨b, hnew, _, hlen, _, hget⟩ := ZPxx.new_spec zPlane index
  have hmod : zPlane.getHeight % 65536 = zPlane.getHeight := Nat.mod_eq_of_lt hh
  refine ⟨b, hnew, hlen, ?_⟩
  intro i hi
  have hc := ZPxx.stripCounters_eq zPlane i hh
  have hmem : ∀ h ∈ ZPxx.stripCounters zPlane i, 1 ≤ h ∧ h ≤ zPlane.getHeight := by
    intro h hm
    rw [hc] at hm
    obtain ⟨t, ht, rfl⟩ := List.mem_map.mp hm
    have := List.mem_range.mp ht
    omega
  obtain ⟨s, hs, hd, _⟩ := ZPxx.encodeStrip_spec zPlane i
  refine ⟨?_, ?_, by rw [hc]; simp, ?_, s, by rw [← hget i hi, hs], ?_, by rw [hd]; simp [hmod]⟩
  · intro p hp
    simp only [ZPxx.pixelReads, List.mem_flatMap, List.mem_map, List.mem_range,
      ZPxx.STRIP_WIDTH] at hp
    obtain ⟨h, hm, k, hk, rfl⟩ := hp
    have := hmem h hm
    constructor
    · show i * 8 + k < zPlane.getWidth
      omega
    · show zPlane.getHeight - h < zPlane.getHeight
      omega
  · intro h hm
    have := hmem h hm
    omega
  · have hl : ∀ l : List Nat, (l.flatMap (fun h => (List.range 8).map
        (fun k => (i * 8 + k, zPlane.getHeight - h)))).length = 8 * l.length := by
      intro l
      induction l with
      | nil => rfl
      | cons a rest ih =>
        simp only [List.flatMap_cons, List.length_append, ih, List.length_map, List.length_range,
          List.length_cons]
        omega
    simp only [ZPxx.pixelReads, ZPxx.STRIP_WIDTH]
    rw [hl, hc]
    simp
  · rw [hd, hmod, Nat.sub_self, hc, List.map_map, ← List.range_eq_range']
    apply List.map_congr_left
    intro t ht
    have := List.mem_range.mp ht
    simp only [Function.comp]
    congr 1
    omega

/-- C19 witness: the 16 by 3 checkerboard. -/
theorem pixel_reads_inside_mask_witness :
    ∃ b, ZPxx.new (checker 16 3) 0 = some b ∧
      ZPxx.pixelReads (checker 16 3) 1
        = [(8, 0), (9, 0), (10, 0), (11, 0), (12, 0), (13, 0), (14, 0), (15, 0),
           (8, 1), (9, 1), (10, 1), (11, 1), (12, 1), (13, 1), (14, 1), (15, 1),
           (8, 2), (9, 2), (10, 2), (11, 2), (12, 2), (13, 2), (14, 2), (15, 2)] := by
  obtain ⟨b, hnew, _⟩ := pixel_reads_inside_mask (checker 16 3) 0 (by decide)
  exact ⟨b, hnew, by decide⟩

/-- C20: two masks of the same width and height that agree on every pixel
`(x, y)` with `x < 8 * (getWidth / 8)` give the same block: the constructor
builds `getWidth / 8` strips, and the strips, the offsets and the size are
equal, whatever the pixels of the columns `x ≥ 8 * (getWidth / 8)` are. -/
theorem encoder_ignores_partial_columns (zPlane zPlane' : ZPlane) (index : Nat)
    (hw : zPlane.getWidth = zPlane'.getWidth) (hh : zPlane.getHeight = zPlane'.getHeight)
    (hagree : ∀ x y, x < 8 * (zPlane.getWidth / 8) → y < zPlane.getHeight →
      zPlane.getPixel x y = zPlane'.getPixel x y) :
    ∃ b b', ZPxx.new zPlane index = some b ∧ ZPxx.new zPlane' index = some b' ∧
      b._strips.length = zPlane.getWidth / 8 ∧
      b._strips = b'._strips ∧ b._offsets = b'._offsets ∧
      ZPxx.getSize b = ZPxx.getSize b' ∧ b = b' := by
  obtain ⟨b, hnew, _, hlen, _, _⟩ := ZPxx.new_spec zPlane index
  have hsame : ZPxx.new zPlane' index = ZPxx.new zPlane index := by
    unfold ZPxx.new
    rw [← hw, ZPxx.encodeStrips_congr zPlane zPlane' hh (zPlane.getWidth / ZPxx.STRIP_WIDTH) hagree]
  exact ⟨b, b, hnew, by rw [hsame, hnew], hlen, rfl, rfl, rfl, rfl⟩

/-- C20 witness: the 9 by 2 checkerboard with column 8 cleared and with
column 8 set give the same block. -/
theorem encoder_ignores_partial_columns_witness :
    ∃ b b', ZPxx.new (checkerWithLastColumn 0) 0 = some b ∧
      ZPxx.new (checkerWithLastColumn 1) 0 = some b' ∧
      b._strips.length = (checkerWithLastColumn 0).getWidth / 8 ∧
      b._strips = b'._strips ∧ b._offsets = b'._offsets ∧
      ZPxx.getSize b = ZPxx.getSize b' ∧ b = b' :=
  encoder_ignores_partial_columns (checkerWithLastColumn 0) (checkerWithLastColumn 1) 0 rfl rfl
    (fun x y hx _ => by
      have hx8 : x < 8 := hx
      have hne : ¬ x = 8 := by omega
      simp [checkerWithLastColumn, hne])

/-! ## Room identifiers and declarations -/

theorem constructedIDs_length : ∀ (n c : Nat), (Room.constructedIDs n c).length = n := by
  intro n
  induction n with
  | zero => intro c; rfl
  | succ n ih => intro c; simp [Room.constructedIDs, ih]

theorem constructedIDs_get :
    ∀ (n c k : Nat), c < 256 → k < n →
      (Room.constructedIDs n c)[k]? = some ((c + k) % 256) := by
  intro n
  induction n with
  | zero => intro c k _ hk; omega
  | succ n ih =>
    intro c k hc hk
    cases k with
    | zero => simp [Room.constructedIDs, Room.nextID, Nat.mod_eq_of_lt hc]
    | succ k =>
      simp only [Room.constructedIDs, Room.nextID, List.getElem?_cons_succ]
      rw [ih ((c + 1) % 256) k (Nat.mod_lt _ (by decide)) (by omega)]
      congr 1
      omega

/-- C13 (as amended): the `n`-th room constructed in a run (counted from 1)
receives the ID `n mod 256`, the counter being a `uint8_t`; in a run that
constructs at most 255 rooms the `n`-th room receives `n` and no two rooms
receive the same ID. -/
theorem room_ids_sequential (n : Nat) :
    (Room.constructedIDs n 1).length = n ∧
      (∀ k, k < n → (Room.constructedIDs n 1)[k]? = some ((k + 1) % 256)) ∧
      (n ≤ 255 →
        (∀ k, k < n → (Room.constructedIDs n 1)[k]? = some (k + 1)) ∧
        Room.constructedIDs n 1 = List.range' 1 n ∧ (Room.constructedIDs n 1).Nodup) := by
  have hget : ∀ k, k < n → (Room.constructedIDs n 1)[k]? = some ((k + 1) % 256) := by
    intro k hk
    rw [constructedIDs_get n 1 k (by decide) hk, Nat.add_comm]
  refine ⟨constructedIDs_length n 1, hget, ?_⟩
  intro hn
  have hexact : ∀ k, k < n → (Room.constructedIDs n 1)[k]? = some (k + 1) := by
    intro k hk
    rw [hget k hk, Nat.mod_eq_of_lt (by omega)]
  have heq : Room.constructedIDs n 1 = List.range' 1 n := by
    apply List.ext_getElem?
    intro k
    by_cases hk : k < n
    · rw [hexact k hk, List.getElem?_range' _ _ hk]
      simp [Nat.add_comm]
    · rw [List.getElem?_eq_none (by rw [constructedIDs_length]; omega),
        List.getElem?_eq_none (by rw [List.length_range']; omega)]
  exact ⟨hexact, heq, by rw [heq]; exact List.nodup_range' _ _⟩

/-- C13 witness: the first three rooms receive 1, 2 and 3. -/
theorem room_ids_sequential_witness : Room.constructedIDs 3 1 = [1, 2, 3] := by
  rw [((room_ids_sequential 3).2.2 (by decide)).2.1]
  rfl

/-- C13 as stated fails: of 257 rooms constructed in one run the 256th does
not receive 256 (it receives 0), and the IDs are not pairwise distinct (the
257th room receives 1 like the first). -/
theorem room_ids_wrap :
    ¬ (∀ k, k < 257 → (Room.constructedIDs 257 1)[k]? = some (k + 1)) ∧
      (Room.constructedIDs 257 1)[255]? = some 0 ∧
      (Room.constructedIDs 257 1)[0]? = (Room.constructedIDs 257 1)[256]? := by
  have h255 : (Room.constructedIDs 257 1)[255]? = some 0 :=
    constructedIDs_get 257 1 255 (by decide) (by decide)
  have h256 : (Room.constructedIDs 257 1)[256]? = some 1 :=
    constructedIDs_get 257 1 256 (by decide) (by decide)
  have h0 : (Room.constructedIDs 257 1)[0]? = some 1 :=
    constructedIDs_get 257 1 0 (by decide) (by decide)
  refine ⟨?_, h255, by rw [h0, h256]⟩
  intro h
  have hbad := h 255 (by decide)
  rw [h255] at hbad
  simp at hbad

theorem foldl_push_map {α : Type} (f : α → Declaration) (l : List α) :
    ∀ init : List Declaration,
      l.foldl (fun declarations x => declarations ++ [f x]) init = init ++ l.map f := by
  induction l with
  | nil => intro init; simp
  | cons x rest ih => intro init; rw [List.foldl_cons, ih]; simp

theorem foldl_push_costumes (costumes : List Costume) :
    ∀ init : List Declaration,
      costumes.foldl
        (fun declarations costume =>
          costume.anims.foldl (fun declarations anim => declarations ++ [constDeclaration anim])
            (declarations
              ++ [Declaration.new DeclarationType.DECLARATION_CONST costume.getName costume.getID]))
        init
      = init ++ costumes.flatMap (fun costume =>
          Declaration.new DeclarationType.DECLARATION_CONST costume.getName costume.getID
            :: costume.anims.map constDeclaration) := by
  induction costumes with
  | nil => intro init; simp
  | cons c rest ih =>
    intro init
    rw [List.foldl_cons, ih, foldl_push_map]
    simp

/-- C14: `addDeclarations` appends to `_declarations`, in this order, one
constant per palette cycle, one per object, for each costume one for the
costume followed by one per animation, and one per walk box, each carrying the
name and the ID of its resource; the list grows by
cycles + objects + sum over costumes of (1 + animations) + boxes, and nothing
else of the room changes. -/
theorem addDeclarations_order (room : RoomResources) :
    (Room.addDeclarations room).1._declarations
        = room._declarations
          ++ room._palette.cycles.map (fun cycle =>
              { type := DeclarationType.DECLARATION_CONST, name := cycle.getName,
                value := Int.ofNat cycle.getID })
          ++ room._objects.map (fun object =>
              { type := DeclarationType.DECLARATION_CONST, name := object.getName,
                value := Int.ofNat object.getID })
          ++ room._costumes.flatMap (fun costume =>
              { type := DeclarationType.DECLARATION_CONST, name := costume.getName,
                value := Int.ofNat costume.getID }
                :: costume.anims.map (fun anim =>
                    { type := DeclarationType.DECLARATION_CONST, name := anim.getName,
                      value := Int.ofNat anim.getID }))
          ++ room._map.boxes.map (fun box =>
              { type := DeclarationType.DECLARATION_CONST, name := box.getName,
                value := Int.ofNat box.getID }) ∧
      (Room.addDeclarations room).1._declarations.length
        = room._declarations.length + room._palette.cycles.length + room._objects.length
          + (room._costumes.map (fun costume => 1 + costume.anims.length)).sum
          + room._map.boxes.length ∧
      (Room.addDeclarations room).1._palette = room._palette ∧
      (Room.addDeclarations room).1._objects = room._objects ∧
      (Room.addDeclarations room).1._costumes = room._costumes ∧
      (Room.addDeclarations room).1._map = room._map := by
  have heq : (Room.addDeclarations room).1._declarations
      = room._declarations
        ++ room._palette.cycles.map constDeclaration
        ++ room._objects.map (fun object =>
            Declaration.new DeclarationType.DECLARATION_CONST object.getName object.getID)
        ++ room._costumes.flatMap (fun costume =>
            Declaration.new DeclarationType.DECLARATION_CONST costume.getName costume.getID
              :: costume.anims.map constDeclaration)
        ++ room._map.boxes.map constDeclaration := by
    have hc : ∀ init : List Declaration,
        room._costumes.foldl
          (fun declarations costume =>
            declarations
              ++ [Declaration.new DeclarationType.DECLARATION_CONST costume.getName costume.getID]
              ++ costume.anims.map constDeclaration) init
        = init ++ room._costumes.flatMap (fun costume =>
            Declaration.new DeclarationType.DECLARATION_CONST costume.getName costume.getID
              :: costume.anims.map constDeclaration) := by
      intro init
      rw [← foldl_push_costumes]
      simp only [foldl_push_map]
    simp only [Room.addDeclarations, foldl_push_map, hc]
  have hsum : ∀ l : List Costume, (l.flatMap (fun costume =>
      Declaration.new DeclarationType.DECLARATION_CONST costume.getName costume.getID
        :: costume.anims.map constDeclaration)).length
        = (l.map (fun costume => 1 + costume.anims.length)).sum := by
    intro l
    induction l with
    | nil => rfl
    | cons c rest ih =>
      simp only [List.flatMap_cons, List.length_append, List.length_cons, List.length_map, ih,
        List.map_cons, List.sum_cons]
      omega
  refine ⟨heq, ?_, rfl, rfl, rfl, rfl⟩
  rw [heq]
  simp only [List.length_append, List.length_map, hsum]

/-- C14 witness: the declarations of the sample room. -/
theorem addDeclarations_order_witness :
    (Room.addDeclarations sampleResources).1._declarations.map (fun d => (d.name, d.value))
      = [("water", 1), ("door", 10), ("trigger", 11), ("guybrush", 3), ("walk", 4),
         ("floor", 0)] := by
  rw [(addDeclarations_order sampleResources).1]
  decide

/-! ## Lemmas on the palette -/

theorem mergeObjectColors_spec (n : Nat) :
    ∀ (objects : List ObjectResources) (localColors : List Color),
      (Room.mergeObjectColors n objects localColors).2
          = localColors ++ objects.flatMap ObjectResources.localColors ∧
        (Room.mergeObjectColors n objects localColors).1.length = objects.length ∧
        ∀ (k : Nat) (o : ObjectResources), objects[k]? = some o →
          (Room.mergeObjectColors n objects localColors).1[k]?
            = some { o with images := o.images.map (fun image =>
                image.setPaletteBaseIndex (n + (localColors.length
                  + ((objects.take k).flatMap ObjectResources.localColors).length))) } := by
  intro objects
  induction objects with
  | nil =>
    intro localColors
    refine ⟨by simp [Room.mergeObjectColors], rfl, ?_⟩
    intro k o h
    simp at h
  | cons object rest ih =>
    intro localColors
    obtain ⟨name, oid, images⟩ := object
    cases images with
    | nil =>
      obtain ⟨h2, hl, hg⟩ := ih localColors
      refine ⟨?_, ?_, ?_⟩
      · simp [Room.mergeObjectColors, h2, ObjectResources.localColors]
      · simp [Room.mergeObjectColors, hl]
      · intro k o hk
        cases k with
        | zero =>
          simp only [List.getElem?_cons_zero, Option.some.injEq] at hk
          subst hk
          simp [Room.mergeObjectColors]
        | succ k =>
          simp only [List.getElem?_cons_succ] at hk
          simp only [Room.mergeObjectColors, List.getElem?_cons_succ, hg k o hk,
            List.take_succ_cons, List.flatMap_cons, ObjectResources.localColors, List.nil_append]
    | cons image0 others =>
      obtain ⟨h2, hl, hg⟩ := ih (localColors ++ image0.colors)
      refine ⟨?_, ?_, ?_⟩
      · simp [Room.mergeObjectColors, h2, ObjectResources.localColors]
      · simp [Room.mergeObjectColors, hl]
      · intro k o hk
        cases k with
        | zero =>
          simp only [List.getElem?_cons_zero, Option.some.injEq] at hk
          subst hk
          simp [Room.mergeObjectColors]
        | succ k =>
          simp only [List.getElem?_cons_succ] at hk
          simp only [Room.mergeObjectColors, List.getElem?_cons_succ, hg k o hk,
            List.take_succ_cons, List.flatMap_cons, ObjectResources.localColors,
            List.length_append, Nat.add_assoc]

theorem mergeCostumeColors_spec (n : Nat) :
    ∀ (costumes : List Costume) (localColors : List Color),
      (Room.mergeCostumeColors n costumes localColors).2
          = localColors ++ costumes.flatMap (fun c => c.colors) ∧
        (Room.mergeCostumeColors n costumes localColors).1.length = costumes.length ∧
        ∀ (k : Nat) (c : Costume), costumes[k]? = some c →
          (Room.mergeCostumeColors n costumes localColors).1[k]?
            = some (c.setPaletteBaseIndex (n + (localColors.length
                + ((costumes.take k).flatMap (fun c => c.colors)).length))) := by
  intro costumes
  induction costumes with
  | nil =>
    intro localColors
    refine ⟨by simp [Room.mergeCostumeColors], rfl, ?_⟩
    intro k c h
    simp at h
  | cons costume rest ih =>
    intro localColors
    obtain ⟨h2, hl, hg⟩ := ih (localColors ++ costume.colors)
    refine ⟨?_, ?_, ?_⟩
    · simp [Room.mergeCostumeColors, h2]
    · simp [Room.mergeCostumeColors, hl]
    · intro k c hk
      cases k with
      | zero =>
        simp only [List.getElem?_cons_zero, Option.some.injEq] at hk
        subst hk
        simp [Room.mergeCostumeColors]
      | succ k =>
        simp only [List.getElem?_cons_succ] at hk
        simp only [Room.mergeCostumeColors, List.getElem?_cons_succ, hg k c hk,
          List.take_succ_cons, List.flatMap_cons, List.length_append, Nat.add_assoc]

theorem writeLocalColors_spec (n : Nat) :
    ∀ (colors : List Color) (i : Nat) (palette : Palette),
      n + i + colors.length ≤ palette.colors.length →
      (Room.writeLocalColors n colors i palette).cycles = palette.cycles ∧
        (Room.writeLocalColors n colors i palette).colors.length = palette.colors.length ∧
        ∀ j, (Room.writeLocalColors n colors i palette).colors[j]?
          = if n + i ≤ j ∧ j < n + i + colors.length then colors[j - (n + i)]?
            else palette.colors[j]? := by
  intro colors
  induction colors with
  | nil =>
    intro i palette _
    refine ⟨rfl, rfl, ?_⟩
    intro j
    have : ¬ (n + i ≤ j ∧ j < n + i + ([] : List Color).length) := by
      simp only [List.length_nil]
      omega
    simp only [Room.writeLocalColors, this, if_false]
  | cons c rest ih =>
    intro i palette hlen
    simp only [List.length_cons] at hlen
    obtain ⟨hc, hl, hg⟩ := ih (i + 1) (palette.setColor (n + i) c)
      (by simp only [Palette.setColor, List.length_set]; omega)
    refine ⟨by rw [Room.writeLocalColors, hc]; rfl,
      by rw [Room.writeLocalColors, hl]; simp [Palette.setColor], ?_⟩
    intro j
    rw [Room.writeLocalColors, hg j]
    simp only [Palette.setColor, List.length_cons]
    by_cases h1 : n + (i + 1) ≤ j ∧ j < n + (i + 1) + rest.length
    · have h2 : n + i ≤ j ∧ j < n + i + (rest.length + 1) := by omega
      have e : j - (n + i) = (j - (n + (i + 1))) + 1 := by omega
      rw [if_pos h1, if_pos h2, e, List.getElem?_cons_succ]
    · rw [if_neg h1]
      by_cases h3 : j = n + i
      · subst h3
        have h2 : n + i ≤ n + i ∧ n + i < n + i + (rest.length + 1) := by omega
        rw [if_pos h2, List.getElem?_set_self (by omega)]
        simp
      · have h2 : ¬ (n + i ≤ j ∧ j < n + i + (rest.length + 1)) := by omega
        rw [if_neg h2, List.getElem?_set_ne (by omega)]

/-- The palette after `updatePalette`: the original colours followed by the
local colours, when the original count fits the `uint16_t` it is read into. -/
theorem updatePalette_palette (MAX_COLORS : Nat) (room : RoomResources)
    (hcount : room._palette.getNumberOfColors < 65536) :
    (Room.updatePalette MAX_COLORS room).1._palette.colors
        = room._palette.colors ++ room.localColors ∧
      (Room.updatePalette MAX_COLORS room).1._palette.cycles = room._palette.cycles := by
  have hmod : room._palette.getNumberOfColors % 65536 = room._palette.colors.length :=
    Nat.mod_eq_of_lt hcount
  have hlocal : (Room.mergeCostumeColors (room._palette.getNumberOfColors % 65536) room._costumes
      (Room.mergeObjectColors (room._palette.getNumberOfColors % 65536) room._objects []).2).2
        = room.localColors := by
    rw [(mergeCostumeColors_spec _ _ _).1, (mergeObjectColors_spec _ _ _).1]
    simp [RoomResources.localColors]
  have hresize : (room._palette.resize
      (room._palette.getNumberOfColors + room.localColors.length)).colors
        = room._palette.colors ++ List.replicate room.localColors.length { r := 0, g := 0, b := 0 } := by
    simp [Palette.resize, Palette.getNumberOfColors]
  obtain ⟨hc, hl, hg⟩ := writeLocalColors_spec (room._palette.getNumberOfColors % 65536)
    room.localColors 0
    (room._palette.resize (room._palette.getNumberOfColors + room.localColors.length))
    (by rw [hresize, hmod]; simp)
  constructor
  · simp only [Room.updatePalette, hlocal]
    apply List.ext_getElem?
    intro j
    rw [hg j, hmod, hresize]
    by_cases h1 : room._palette.colors.length + 0 ≤ j
        ∧ j < room._palette.colors.length + 0 + room.localColors.length
    · rw [if_pos h1, List.getElem?_append_right (by omega)]
      simp
    · rw [if_neg h1]
      by_cases h2 : j < room._palette.colors.length
      · rw [List.getElem?_append_left h2, List.getElem?_append_left h2]
      · rw [List.getElem?_eq_none (by simp; omega), List.getElem?_eq_none (by simp; omega)]
  · simp only [Room.updatePalette, hlocal, hc]
    rfl

theorem tiled_get :
    ∀ (cs : List (List Color)) (base k : Nat),
      (tiled base cs)[k]?
        = (cs[k]?).map (fun c => (some (base + (cs.take k).flatten.length), c)) := by
  intro cs
  induction cs with
  | nil => intro base k; simp [tiled]
  | cons c rest ih =>
    intro base k
    cases k with
    | zero => simp [tiled]
    | succ k =>
      simp only [tiled, List.getElem?_cons_succ, ih, List.take_succ_cons, List.flatten_cons,
        List.length_append, Nat.add_assoc]

theorem tiled_append :
    ∀ (l1 l2 : List (List Color)) (base : Nat),
      tiled base (l1 ++ l2) = tiled base l1 ++ tiled (base + l1.flatten.length) l2 := by
  intro l1
  induction l1 with
  | nil => intro l2 base; simp [tiled]
  | cons c rest ih =>
    intro l2 base
    rw [List.cons_append, tiled, tiled, ih, List.flatten_cons, List.length_append,
      Nat.add_assoc]
    rfl

theorem flatten_take_succ (cs : List (List Color)) (k : Nat) (c : List Color)
    (hk : cs[k]? = some c) :
    (cs.take (k + 1)).flatten.length = (cs.take k).flatten.length + c.length := by
  rw [List.take_succ, hk]
  simp

theorem flatten_take_mono (cs : List (List Color)) (a b : Nat) (hab : a ≤ b) :
    (cs.take a).flatten.length ≤ (cs.take b).flatten.length := by
  have e : cs.take a = (cs.take b).take a := by
    rw [List.take_take, Nat.min_eq_left hab]
  obtain ⟨t, ht⟩ := List.take_prefix a (cs.take b)
  rw [e]
  have hl := congrArg (fun l : List (List Color) => l.flatten.length) ht
  simp only [List.flatten_append, List.length_append] at hl
  omega

theorem flatten_take_le (cs : List (List Color)) (a : Nat) :
    (cs.take a).flatten.length ≤ cs.flatten.length := by
  obtain ⟨t, ht⟩ := List.take_prefix a cs
  have hl := congrArg (fun l : List (List Color) => l.flatten.length) ht
  simp only [List.flatten_append, List.length_append] at hl
  omega

theorem tiled_entries (before : List Color) (cs : List (List Color)) (k : Nat)
    (colors : List Color) (hk : cs[k]? = some colors) (j : Nat) (col : Color)
    (hj : colors[j]? = some col) :
    (before ++ cs.flatten)[before.length + (cs.take k).flatten.length + j]? = some col := by
  obtain ⟨hlt, hc⟩ := List.getElem?_eq_some.mp hk
  have hsplit : cs.flatten
      = (cs.take k).flatten ++ (colors ++ (cs.drop (k + 1)).flatten) := by
    have e := congrArg List.flatten (List.take_append_drop k cs).symm
    rw [List.drop_eq_getElem_cons hlt, hc] at e
    rw [e]
    simp
  have hjl : j < colors.length := (List.getElem?_eq_some.mp hj).1
  rw [hsplit, List.getElem?_append_right (by omega), List.getElem?_append_right (by omega),
    List.getElem?_append_left (by omega)]
  rw [← hj]
  congr 1
  omega

theorem mergeObjectColors_contributors (n : Nat) :
    ∀ (objects : List ObjectResources) (localColors : List Color),
      (Room.mergeObjectColors n objects localColors).1.filterMap (fun object =>
          match object.images with
          | [] => none
          | image0 :: _ => some (image0.paletteBaseIndex, image0.colors))
        = tiled (n + localColors.length) (objects.filterMap (fun object =>
            match object.images with
            | [] => none
            | image0 :: _ => some image0.colors)) := by
  intro objects
  induction objects with
  | nil => intro localColors; simp [Room.mergeObjectColors, tiled]
  | cons object rest ih =>
    intro localColors
    obtain ⟨name, oid, images⟩ := object
    cases images with
    | nil => simp [Room.mergeObjectColors, ih]
    | cons image0 others =>
      simp [Room.mergeObjectColors, ih, tiled, Image.setPaletteBaseIndex, Nat.add_assoc]

theorem mergeCostumeColors_contributors (n : Nat) :
    ∀ (costumes : List Costume) (localColors : List Color),
      (Room.mergeCostumeColors n costumes localColors).1.map
          (fun costume => (costume.paletteBaseIndex, costume.colors))
        = tiled (n + localColors.length) (costumes.map (fun costume => costume.colors)) := by
  intro costumes
  induction costumes with
  | nil => intro localColors; simp [Room.mergeCostumeColors, tiled]
  | cons costume rest ih =>
    intro localColors
    simp [Room.mergeCostumeColors, ih, tiled, Costume.setPaletteBaseIndex, Nat.add_assoc]

theorem flatten_object_colors (objects : List ObjectResources) :
    (objects.filterMap (fun object =>
        match object.images with
        | [] => none
        | image0 :: _ => some image0.colors)).flatten
      = objects.flatMap ObjectResources.localColors := by
  induction objects with
  | nil => rfl
  | cons object rest ih =>
    obtain ⟨name, oid, images⟩ := object
    cases images with
    | nil => simp [ObjectResources.localColors, ih]
    | cons image0 others => simp [ObjectResources.localColors, ih]

theorem contributorColors_flatten (room : RoomResources) :
    room.contributorColors.flatten = room.localColors := by
  simp only [RoomResources.contributorColors, RoomResources.localColors, List.flatten_append,
    flatten_object_colors, List.flatMap_def]

/-- The contributors after `updatePalette` are the colour lists of the room
laid one after the other from the original colour count on. -/
theorem updatePalette_contributors (MAX_COLORS : Nat) (room : RoomResources)
    (hcount : room._palette.getNumberOfColors < 65536) :
    (Room.updatePalette MAX_COLORS room).1.contributors
      = tiled room._palette.getNumberOfColors room.contributorColors := by
  have hmod : room._palette.getNumberOfColors % 65536 = room._palette.getNumberOfColors :=
    Nat.mod_eq_of_lt hcount
  simp only [Room.updatePalette, RoomResources.contributors, RoomResources.contributorColors,
    hmod, mergeObjectColors_contributors, mergeCostumeColors_contributors, tiled_append,
    (mergeObjectColors_spec _ _ _).1, flatten_object_colors, List.length_nil, Nat.add_zero,
    List.nil_append]

/-! ## The palette: main results -/

/-- C11: in `updatePalette`, every image of an object that has images gets the
same base index, the original colour count plus the number of local colours
collected before that object, and only the colours of its image 0 are
collected; an object without image is left as it is and contributes nothing;
every costume gets the original count plus the number of local colours
collected before it, and then all its colours are collected. -/
theorem updatePalette_base_indices (MAX_COLORS : Nat) (room : RoomResources)
    (hcount : room._palette.getNumberOfColors < 65536) :
    (Room.updatePalette MAX_COLORS room).1._objects.length = room._objects.length ∧
      (∀ (k : Nat) (o : ObjectResources), room._objects[k]? = some o →
        (Room.updatePalette MAX_COLORS room).1._objects[k]?
          = some { o with images := o.images.map (fun image =>
              { image with paletteBaseIndex := some (room._palette.getNumberOfColors
                + ((room._objects.take k).flatMap ObjectResources.localColors).length) }) }) ∧
      (∀ (k : Nat) (o : ObjectResources), room._objects[k]? = some o → o.images = [] →
        (Room.updatePalette MAX_COLORS room).1._objects[k]? = some o ∧
        ((room._objects.take (k + 1)).flatMap ObjectResources.localColors).length
          = ((room._objects.take k).flatMap ObjectResources.localColors).length) ∧
      (∀ (k : Nat) (o : ObjectResources) (image0 : Image) (others : List Image),
        room._objects[k]? = some o → o.images = image0 :: others →
        ((room._objects.take (k + 1)).flatMap ObjectResources.localColors).length
          = ((room._objects.take k).flatMap ObjectResources.localColors).length
            + image0.colors.length) ∧
      (Room.mergeObjectColors room._palette.getNumberOfColors room._objects []).2
        = room._objects.flatMap ObjectResources.localColors ∧
      (Room.updatePalette MAX_COLORS room).1._costumes.length = room._costumes.length ∧
      (∀ (k : Nat) (costume : Costume), room._costumes[k]? = some costume →
        (Room.updatePalette MAX_COLORS room).1._costumes[k]?
          = some { costume with paletteBaseIndex := some (room._palette.getNumberOfColors
              + ((room._objects.flatMap ObjectResources.localColors).length
                + ((room._costumes.take k).flatMap (fun c => c.colors)).length)) }) ∧
      (Room.updatePalette MAX_COLORS room).1._palette.colors
        = room._palette.colors ++ (room._objects.flatMap ObjectResources.localColors
            ++ room._costumes.flatMap (fun c => c.colors)) := by
  have hmod : room._palette.getNumberOfColors % 65536 = room._palette.getNumberOfColors :=
    Nat.mod_eq_of_lt hcount
  obtain ⟨ho2, hol, hog⟩ := mergeObjectColors_spec room._palette.getNumberOfColors room._objects []
  obtain ⟨_, hcl, hcg⟩ := mergeCostumeColors_spec room._palette.getNumberOfColors room._costumes
    (Room.mergeObjectColors room._palette.getNumberOfColors room._objects []).2
  refine ⟨?_, ?_, ?_, ?_, by simpa using ho2, ?_, ?_, (updatePalette_palette MAX_COLORS room hcount).1⟩
  · simp only [Room.updatePalette, hmod]
    exact hol
  · intro k o hk
    simp only [Room.updatePalette, hmod]
    rw [hog k o hk]
    simp [Image.setPaletteBaseIndex]
  · intro k o hk himg
    constructor
    · simp only [Room.updatePalette, hmod]
      rw [hog k o hk, himg]
      obtain ⟨name, oid, images⟩ := o
      simp only at himg
      subst himg
      rfl
    · rw [List.take_succ, hk]
      simp [ObjectResources.localColors, himg]
  · intro k o image0 others hk himg
    rw [List.take_succ, hk]
    simp [ObjectResources.localColors, himg]
  · simp only [Room.updatePalette, hmod]
    exact hcl
  · intro k costume hk
    simp only [Room.updatePalette, hmod]
    rw [hcg k costume hk, ho2]
    simp [Costume.setPaletteBaseIndex]

/-- C11 witness: the sample room (two original colours): both images of `door`
get base 2, `trigger` is left as it is, the costume gets base 3. -/
theorem updatePalette_base_indices_witness :
    (Room.updatePalette 256 sampleResources).1._objects.map
        (fun o => o.images.map (fun image => image.paletteBaseIndex))
      = [[some 2, some 2], []] ∧
    (Room.updatePalette 256 sampleResources).1._costumes.map (fun c => c.paletteBaseIndex)
      = [some 3] ∧
    (Room.updatePalette 256 sampleResources).1._palette.colors = [blue, blue, red, red, blue] := by
  have h := updatePalette_base_indices 256 sampleResources (by decide)
  exact ⟨by decide, by decide, by rw [h.2.2.2.2.2.2.2]; decide⟩

/-- C12: `updatePalette` logs the overflow error exactly when the original
colour count plus the number of local colours is greater than `MAX_COLORS`;
with or without it, the palette is resized to that sum, the original colours
are kept and local colour `i` is written at index original count + `i`. -/
theorem updatePalette_overflow_is_logged (MAX_COLORS : Nat) (room : RoomResources)
    (hcount : room._palette.getNumberOfColors < 65536) :
    (({ type := LogType.LOG_ERROR,
        message := "The local computed palette is too big to be inserted !\n" } : LogEntry)
        ∈ (Room.updatePalette MAX_COLORS room).2
      ↔ room._palette.getNumberOfColors + room.localColors.length > MAX_COLORS) ∧
      (∀ e ∈ (Room.updatePalette MAX_COLORS room).2,
        room._palette.getNumberOfColors + room.localColors.length > MAX_COLORS) ∧
      (Room.updatePalette MAX_COLORS room).1._palette.getNumberOfColors
        = room._palette.getNumberOfColors + room.localColors.length ∧
      (∀ (i : Nat) (color : Color), room.localColors[i]? = some color →
        (Room.updatePalette MAX_COLORS room).1._palette.colors[
          room._palette.getNumberOfColors + i]? = some color) ∧
      (∀ i, i < room._palette.getNumberOfColors →
        (Room.updatePalette MAX_COLORS room).1._palette.colors[i]? = room._palette.colors[i]?) := by
  have hlocal : (Room.mergeCostumeColors (room._palette.getNumberOfColors % 65536) room._costumes
      (Room.mergeObjectColors (room._palette.getNumberOfColors % 65536) room._objects []).2).2
        = room.localColors := by
    rw [(mergeCostumeColors_spec _ _ _).1, (mergeObjectColors_spec _ _ _).1]
    simp [RoomResources.localColors]
  have hlog : (Room.updatePalette MAX_COLORS room).2
      = if room._palette.getNumberOfColors + room.localColors.length > MAX_COLORS then
          [{ type := LogType.LOG_ERROR,
             message := "The local computed palette is too big to be inserted !\n" }]
        else [] := by
    simp only [Room.updatePalette, hlocal, Log.write, List.nil_append]
  have hpal := (updatePalette_palette MAX_COLORS room hcount).1
  refine ⟨?_, ?_, ?_, ?_, ?_⟩
  · rw [hlog]
    split <;> simp [*]
  · intro e he
    rw [hlog] at he
    split at he
    · assumption
    · simp at he
  · simp [Palette.getNumberOfColors, hpal]
  · intro i color hi
    rw [hpal, List.getElem?_append_right (by simp [Palette.getNumberOfColors])]
    simpa [Palette.getNumberOfColors] using hi
  · intro i hi
    rw [hpal, List.getElem?_append_left (by simpa [Palette.getNumberOfColors] using hi)]

/-- C12 witness: the sample room with a capacity of 4 colours: 2 + 3 colours
overflow it, the error is logged and the palette still has its 5 colours. -/
theorem updatePalette_overflow_is_logged_witness :
    ({ type := LogType.LOG_ERROR,
       message := "The local computed palette is too big to be inserted !\n" } : LogEntry)
        ∈ (Room.updatePalette 4 sampleResources).2 ∧
      (Room.updatePalette 4 sampleResources).1._palette.getNumberOfColors = 5 := by
  have h := updatePalette_overflow_is_logged 4 sampleResources (by decide)
  exact ⟨h.1.mpr (by decide), by rw [h.2.2.1]; decide⟩

/-- C18: after `updatePalette` the ranges of the contributors (objects with at
least one image, then costumes) tile the tail of the palette: the first base
index is the original colour count, each next base index is the previous one
plus the previous colour count, the palette size is the last base index plus
the last colour count, the ranges of two contributors do not overlap, and the
palette entry at base + `j` is colour `j` of the contributor. -/
theorem updatePalette_ranges_tile (MAX_COLORS : Nat) (room : RoomResources)
    (hcount : room._palette.getNumberOfColors < 65536) :
    (Room.updatePalette MAX_COLORS room).1.contributors.map (fun p => p.2)
        = room.contributorColors ∧
      (∀ (base : Option Nat) (colors : List Color),
        (Room.updatePalette MAX_COLORS room).1.contributors[0]? = some (base, colors) →
        base = some room._palette.getNumberOfColors) ∧
      (∀ (k : Nat) (base base' : Option Nat) (colors colors' : List Color),
        (Room.updatePalette MAX_COLORS room).1.contributors[k]? = some (base, colors) →
        (Room.updatePalette MAX_COLORS room).1.contributors[k + 1]? = some (base', colors') →
        ∃ b, base = some b ∧ base' = some (b + colors.length)) ∧
      (∀ (base : Option Nat) (colors : List Color),
        (Room.updatePalette MAX_COLORS room).1.contributors.getLast? = some (base, colors) →
        ∃ b, base = some b ∧
          (Room.updatePalette MAX_COLORS room).1._palette.getNumberOfColors
            = b + colors.length) ∧
      (∀ (k k' : Nat) (base base' : Option Nat) (colors colors' : List Color), k < k' →
        (Room.updatePalette MAX_COLORS room).1.contributors[k]? = some (base, colors) →
        (Room.updatePalette MAX_COLORS room).1.contributors[k']? = some (base', colors') →
        ∃ b b', base = some b ∧ base' = some b' ∧ b + colors.length ≤ b') ∧
      (∀ (k : Nat) (base : Option Nat) (colors : List Color),
        (Room.updatePalette MAX_COLORS room).1.contributors[k]? = some (base, colors) →
        ∃ b, base = some b ∧ ∀ (j : Nat) (color : Color), colors[j]? = some color →
          (Room.updatePalette MAX_COLORS room).1._palette.colors[b + j]? = some color) := by
  have hcon := updatePalette_contributors MAX_COLORS room hcount
  have hpal := (updatePalette_palette MAX_COLORS room hcount).1
  rw [← contributorColors_flatten] at hpal
  have hget : ∀ (k : Nat) (base : Option Nat) (colors : List Color),
      (Room.updatePalette MAX_COLORS room).1.contributors[k]? = some (base, colors) →
      room.contributorColors[k]? = some colors ∧
        base = some (room._palette.getNumberOfColors
          + (room.contributorColors.take k).flatten.length) := by
    intro k base colors h
    rw [hcon, tiled_get] at h
    cases hk : room.contributorColors[k]? with
    | none => simp [hk] at h
    | some cl =>
      simp only [hk, Option.map_some', Option.some.injEq, Prod.mk.injEq] at h
      exact ⟨by rw [← h.2], h.1.symm⟩
  have hlen : (Room.updatePalette MAX_COLORS room).1.contributors.length
      = room.contributorColors.length := by
    have hl : ∀ (cs : List (List Color)) (base : Nat), (tiled base cs).length = cs.length := by
      intro cs
      induction cs with
      | nil => intro base; rfl
      | cons cl rest ih => intro base; simp [tiled, ih]
    rw [hcon, hl]
  refine ⟨?_, ?_, ?_, ?_, ?_, ?_⟩
  · apply List.ext_getElem?
    intro k
    rw [List.getElem?_map, hcon, tiled_get]
    cases room.contributorColors[k]? <;> rfl
  · intro base colors h
    obtain ⟨_, hb⟩ := hget 0 base colors h
    simpa using hb
  · intro k base base' colors colors' h h'
    obtain ⟨hk, hb⟩ := hget k base colors h
    obtain ⟨_, hb'⟩ := hget (k + 1) base' colors' h'
    refine ⟨_, hb, ?_⟩
    rw [hb', flatten_take_succ _ k colors hk, Nat.add_assoc]
  · intro base colors h
    rw [List.getLast?_eq_getElem?, hlen] at h
    obtain ⟨hk, hb⟩ := hget _ base colors h
    refine ⟨_, hb, ?_⟩
    have hpos : room.contributorColors.length - 1 < room.contributorColors.length :=
      (List.getElem?_eq_some.mp hk).1
    have hs := flatten_take_succ _ _ colors hk
    have e : room.contributorColors.length - 1 + 1 = room.contributorColors.length := by omega
    rw [e, List.take_length] at hs
    simp only [Palette.getNumberOfColors, hpal, List.length_append]
    omega
  · intro k k' base base' colors colors' hkk h h'
    obtain ⟨hk, hb⟩ := hget k base colors h
    obtain ⟨_, hb'⟩ := hget k' base' colors' h'
    refine ⟨_, _, hb, hb', ?_⟩
    have hs := flatten_take_succ _ k colors hk
    have hm := flatten_take_mono room.contributorColors (k + 1) k' (by omega)
    omega
  · intro k base colors h
    obtain ⟨hk, hb⟩ := hget k base colors h
    refine ⟨_, hb, ?_⟩
    intro j color hj
    rw [hpal]
    have he := tiled_entries room._palette.colors room.contributorColors k colors hk j color hj
    simpa [Palette.getNumberOfColors, Nat.add_assoc] using he

/-- C18 witness: in the sample room the contributors are `door` at base 2 with
one colour and the costume at base 3 with two colours, in a palette of 5. -/
theorem updatePalette_ranges_tile_witness :
    (Room.updatePalette 256 sampleResources).1.contributors
        = [(some 2, [red]), (some 3, [red, blue])] ∧
      (Room.updatePalette 256 sampleResources).1._palette.getNumberOfColors = 5 := by
  have h := updatePalette_ranges_tile 256 sampleResources (by decide)
  obtain ⟨b, hb, hsize⟩ := h.2.2.2.1 (some 3) [red, blue] (by decide)
  cases hb
  exact ⟨by decide, hsize⟩

/-! ## Binding and compilation: further results -/

theorem bindFunction_shadowed_kept (st : ParseState) (f : Function) (j k2 : Nat)
    (oj o2 : Object) (hj : st.room._objects[j]? = some oj) (hk2 : st.room._objects[k2]? = some o2)
    (hlt : j < k2) (hname : oj.getName = o2.getName) :
    (Room.bindFunction st f).room._objects[k2]? = some o2 := by
  by_cases hf : f.getName = o2.getName ++ "_verb"
  · obtain ⟨k, o', hk, _, hfirst, hset, _⟩ :=
      bindFunction_verb st f o2 (List.getElem?_mem hk2) hf
    have hkj : k ≤ j := by
      rcases Nat.lt_or_ge j k with h | h
      · exact absurd hname (hfirst j oj h hj)
      · exact h
    rw [hset, List.getElem?_set_ne (by omega)]
    exact hk2
  · exact bindFunction_slot_kept st f k2 o2 hk2 hf

theorem foldl_bind_shadowed_kept (functions : List Function) :
    ∀ (st : ParseState) (j k2 : Nat) (oj o2 : Object), st.room._objects[j]? = some oj →
      st.room._objects[k2]? = some o2 → j < k2 → oj.getName = o2.getName →
      (functions.foldl Room.bindFunction st).room._objects[k2]? = some o2 := by
  induction functions with
  | nil => intro st j k2 oj o2 _ hk2 _ _; exact hk2
  | cons g rest ih =>
    intro st j k2 oj o2 hj hk2 hlt hname
    obtain ⟨oj', hj', hn'⟩ := names_getElem? _ _ (bindFunction_names st g) j oj hj
    exact ih (Room.bindFunction st g) j k2 oj' o2 hj'
      (bindFunction_shadowed_kept st g j k2 oj o2 hj hk2 hlt hname) hlt (by rw [hn', hname])

theorem parse_entry_exit_some (yyparse : String → ParseResult) (room r : Room)
    (log : List LogEntry) (hparse : Room.parse yyparse room = some (r, log)) :
    (∃ f, r._entryFunction = some f) ∧ (∃ f, r._exitFunction = some f) := by
  obtain ⟨_, _, hentry, hexit⟩ := parse_room_of yyparse room r log hparse
  have hfound := foldl_bind_found (Room.parsedFunctions yyparse room) (Room.initialState room)
    (by intro h; cases h) (by intro h; cases h)
  constructor
  · rw [hentry]
    cases hfe : (Room.boundState yyparse room).foundEntry with
    | false => exact ⟨_, rfl⟩
    | true => exact hfound.1 hfe
  · rw [hexit]
    cases hfx : (Room.boundState yyparse room).foundExit with
    | false => exact ⟨_, rfl⟩
    | true => exact hfound.2 hfx

theorem compile_functions_loop (functions : List Function) :
    ∀ st : CompileState,
      functions.foldl
        (fun st function =>
          if function.getType ≠ FunctionType.FUNCTION_INLINED then function.compile st else st) st
      = { contexts := st.contexts,
          compiled := st.compiled
            ++ functions.filter (fun f => f.getType != FunctionType.FUNCTION_INLINED),
          events := st.events
            ++ (functions.filter (fun f => f.getType != FunctionType.FUNCTION_INLINED)).map
                (fun f => CompileEvent.compile f st.contexts) } := by
  induction functions with
  | nil => intro st; simp
  | cons f rest ih =>
    intro st
    rw [List.foldl_cons, ih]
    by_cases h : f.getType = FunctionType.FUNCTION_INLINED <;> simp [h, Function.compile]

theorem compile_objects_loop (objects : List Object) :
    ∀ st : CompileState,
      objects.foldl
        (fun st object =>
          match object.getFunction with
          | some function => function.compile st
          | none => st) st
      = { contexts := st.contexts,
          compiled := st.compiled ++ objects.filterMap (fun o => o.getFunction),
          events := st.events
            ++ (objects.filterMap (fun o => o.getFunction)).map
                (fun f => CompileEvent.compile f st.contexts) } := by
  induction objects with
  | nil => intro st; simp
  | cons o rest ih =>
    intro st
    rw [List.foldl_cons, ih]
    cases h : o.getFunction <;> simp [h, Function.compile]

/-- C16: a function named `<name>_verb` is stored in the slot of the first
object named `<name>` and every other object is left as it was; `parse`
returns when `yyparse` returns 0 on every script, and whenever it returns an
object that comes after another object of the same name, and whose slot was
empty, holds the empty function `<name>_verb` whatever the scripts define.
With two objects `door` and a script defining `door_verb`, the first holds the
script's function and the second the empty one. -/
theorem verb_binding_first_match_wins :
    (∀ (st : ParseState) (f : Function) (o : Object), o ∈ st.room._objects →
      f.getName = o.getName ++ "_verb" →
      ∃ (k : Nat) (o' : Object), st.room._objects[k]? = some o' ∧ o'.getName = o.getName ∧
        (∀ (j : Nat) (o'' : Object), j < k → st.room._objects[j]? = some o'' →
          o''.getName ≠ o.getName) ∧
        (Room.bindFunction st f).room._objects[k]?
          = some { getName := o'.getName, getFunction := some f } ∧
        ∀ k2, k2 ≠ k →
          (Room.bindFunction st f).room._objects[k2]? = st.room._objects[k2]?) ∧
    (∀ (yyparse : String → ParseResult) (room : Room),
      ((∀ s ∈ room._scripts, (yyparse s).status = 0) →
        ∃ r log, Room.parse yyparse room = some (r, log)) ∧
      ∀ (r : Room) (log : List LogEntry), Room.parse yyparse room = some (r, log) →
        ∀ (j k2 : Nat) (oj o2 : Object),
          room._objects[j]? = some oj → room._objects[k2]? = some o2 → j < k2 →
          oj.getName = o2.getName → o2.getFunction = none →
          r._objects[k2]?
            = some { getName := o2.getName,
                     getFunction := some { getType := FunctionType.FUNCTION_NORMAL,
                                           getName := o2.getName ++ "_verb",
                                           body := { statements := [] }, id := none } }) ∧
    (Room.parse (fun _ => doorScript)
        (emptyRoom ["s"] [{ getName := "door", getFunction := none },
          { getName := "door", getFunction := none }])).map (fun result => result.1._objects)
      = some [{ getName := "door", getFunction :=
            some (Function.new FunctionType.FUNCTION_NORMAL "door_verb" { statements := [1] }) },
         { getName := "door", getFunction := some (emptyFunction "door_verb") }] := by
  refine ⟨?_, ?_, by decide⟩
  · intro st f o ho hname
    obtain ⟨k, o', hk, hn, hfirst, hset, _⟩ := bindFunction_verb st f o ho hname
    refine ⟨k, o', hk, hn, hfirst, ?_, ?_⟩
    · rw [hset, List.getElem?_set_self (List.getElem?_eq_some.mp hk).1]
    · intro k2 hne
      rw [hset, List.getElem?_set_ne (by omega)]
  · intro yyparse room
    refine ⟨parse_returns yyparse room, ?_⟩
    intro r log hparse j k2 oj o2 hj hk2 hlt hname hnone
    obtain ⟨_, hobj, _⟩ := parse_room_of yyparse room r log hparse
    have hkept := foldl_bind_shadowed_kept (Room.parsedFunctions yyparse room)
      (Room.initialState room) j k2 oj o2 hj hk2 hlt hname
    have hb : (Room.boundState yyparse room).room._objects[k2]? = some o2 := hkept
    rw [hobj, List.getElem?_map, hb]
    simp [Room.stubVerb, hnone, Object.setFunction, Function.new]

/-- C17: `compile` makes these calls, in this order, and no other: it pushes
the room context, once; it compiles the functions of `_functions` that are not
inlined, in list order, then the entry function, then the exit function, then
the function of every object in object order, each call running with the room
context on top of the initial stack; it pops the context, once.  The stack is
left as it was.  `parse` returns when `yyparse` returns 0 on every script, and
on every room that `parse` returns, `compile` goes through. -/
theorem compile_order (room : Room) (st : CompileState) :
    (∀ (e x : Function), room._entryFunction = some e → room._exitFunction = some x →
      Room.compile room st
        = some { contexts := st.contexts,
                 compiled := st.compiled
                   ++ (room._functions.filter
                        (fun f : Function => f.getType != FunctionType.FUNCTION_INLINED)
                      ++ [e, x] ++ room._objects.filterMap (fun o : Object => o.getFunction)),
                 events := st.events
                   ++ [CompileEvent.pushContext
                        { type := ContextType.CONTEXT_ROOM, declarations := room._declarations,
                          functions := room._functions }]
                   ++ (room._functions.filter
                        (fun f : Function => f.getType != FunctionType.FUNCTION_INLINED)
                      ++ [e, x]
                      ++ room._objects.filterMap (fun o : Object => o.getFunction)).map
                        (fun f : Function => CompileEvent.compile f
                          ({ type := ContextType.CONTEXT_ROOM,
                             declarations := room._declarations,
                             functions := room._functions } :: st.contexts))
                   ++ [CompileEvent.popContext] }) ∧
    (∀ yyparse : String → ParseResult,
      ((∀ s ∈ room._scripts, (yyparse s).status = 0) →
        ∃ r log, Room.parse yyparse room = some (r, log)) ∧
      ∀ (r : Room) (log : List LogEntry), Room.parse yyparse room = some (r, log) →
        ∃ st', Room.compile r st = some st' ∧
          st'.contexts = st.contexts ∧ st'.contexts.length = st.contexts.length) := by
  have hmain : ∀ (r : Room) (e x : Function), r._entryFunction = some e →
      r._exitFunction = some x →
      Room.compile r st
        = some { contexts := st.contexts,
                 compiled := st.compiled
                   ++ (r._functions.filter
                        (fun f : Function => f.getType != FunctionType.FUNCTION_INLINED)
                      ++ [e, x] ++ r._objects.filterMap (fun o : Object => o.getFunction)),
                 events := st.events
                   ++ [CompileEvent.pushContext
                        { type := ContextType.CONTEXT_ROOM, declarations := r._declarations,
                          functions := r._functions }]
                   ++ (r._functions.filter
                        (fun f : Function => f.getType != FunctionType.FUNCTION_INLINED)
                      ++ [e, x]
                      ++ r._objects.filterMap (fun o : Object => o.getFunction)).map
                        (fun f : Function => CompileEvent.compile f
                          ({ type := ContextType.CONTEXT_ROOM,
                             declarations := r._declarations,
                             functions := r._functions } :: st.contexts))
                   ++ [CompileEvent.popContext] } := by
    intro r e x he hx
    simp only [Room.compile, he, hx, compile_functions_loop, compile_objects_loop]
    simp [Function.compile, Context.pushContext, Context.popContext]
  constructor
  · intro e x he hx
    exact hmain room e x he hx
  · intro yyparse
    refine ⟨parse_returns yyparse room, ?_⟩
    intro r log hparse
    obtain ⟨⟨e, he⟩, ⟨x, hx⟩⟩ := parse_entry_exit_some yyparse room r log hparse
    exact ⟨_, hmain r e x he hx, rfl, rfl⟩

/-- C17 witness: a room with the local functions `a` and `b` (inlined), an
entry, an exit and two objects: the context is pushed, `a`, `entry`, `exit`,
`door_verb` and `window_verb` are compiled in this order under it, the context
is popped and the stack is left empty. -/
theorem compile_order_witness :
    Room.compile compiledRoom { contexts := [], compiled := [] }
      = some { contexts := [],
               compiled := [Function.new FunctionType.FUNCTION_NORMAL "a" { statements := [] },
                 emptyFunction "entry", emptyFunction "exit", emptyFunction "door_verb",
                 emptyFunction "window_verb"],
               events := [
                 CompileEvent.pushContext
                   { type := ContextType.CONTEXT_ROOM, declarations := [],
                     functions := compiledRoom._functions },
                 CompileEvent.compile
                   (Function.new FunctionType.FUNCTION_NORMAL "a" { statements := [] })
                   [{ type := ContextType.CONTEXT_ROOM, declarations := [],
                      functions := compiledRoom._functions }],
                 CompileEvent.compile (emptyFunction "entry")
                   [{ type := ContextType.CONTEXT_ROOM, declarations := [],
                      functions := compiledRoom._functions }],
                 CompileEvent.compile (emptyFunction "exit")
                   [{ type := ContextType.CONTEXT_ROOM, declarations := [],
                      functions := compiledRoom._functions }],
                 CompileEvent.compile (emptyFunction "door_verb")
                   [{ type := ContextType.CONTEXT_ROOM, declarations := [],
                      functions := compiledRoom._functions }],
                 CompileEvent.compile (emptyFunction "window_verb")
                   [{ type := ContextType.CONTEXT_ROOM, declarations := [],
                      functions := compiledRoom._functions }],
                 CompileEvent.popContext] } :=
  (compile_order compiledRoom { contexts := [], compiled := [] }).1
    (emptyFunction "entry") (emptyFunction "exit") rfl rfl

end Scummgen
